import Mathlib

/-!
# Scratch buffer pool (`src/support/scratch.c`)

A shallow embedding of the WiredTiger scratch-buffer code and proofs about it.

Memory is modelled explicitly.  Addresses are natural numbers, `0` is the C
`NULL`.  A `SESSION` value carries the two session fields the code reads
(`scratch`, `scratch_alloc`) together with the memory they refer to: the
contents of the slot array (`slots i` is `session->scratch[i]`), the `WT_BUF`
records by address (`bufs p` is `*p`), and the state of the allocator.

Sizes stored in `uint32_t` fields are reduced modulo `2 ^ 32` where the C code
casts.  The slot counter `scratch_alloc` is kept as an unbounded natural
number: arrays of `2 ^ 29` or more slots, where the byte counts handed to the
allocator would no longer fit 32 bits, are outside this model.
-/

namespace Scratch

/-! ## Data model -/

/-- The C null pointer: address `0`. -/
abbrev NULL : Nat := 0

/-- Largest value of a `uint32_t`. -/
def UINT32_MAX : Nat := 4294967295

/-- The C cast `(uint32_t)n`. -/
def u32 (n : Nat) : Nat := n % 4294967296

/-- Flag bit of `WT_BUF.flags` marking a leased buffer.  The header defining
it is not under src/; the value is the one bit the code tests and sets. -/
def WT_BUF_INUSE : Nat := 1

/-- Error code returned by a failed allocation request (the header defining it
is not under src/; any non-zero value behaves the same). -/
def WT_ERROR : Int := -1

/-- The macro `F_ISSET(p, mask)`: `(p->flags & mask) != 0`.  The header
defining the flag macros is not under src/; they are the usual bit tests. -/
def F_ISSET (flags mask : Nat) : Bool := (flags &&& mask) != 0

/-- The macro `F_SET(p, mask)`: `p->flags |= mask`. -/
def F_SET (flags mask : Nat) : Nat := flags ||| mask

/-- The macro `F_CLR(p, mask)`: `p->flags &= ~mask`, on a 32-bit flags word. -/
def F_CLR (flags mask : Nat) : Nat := flags &&& (UINT32_MAX ^^^ mask)

/-- The `WT_BUF` record: a logical view (`data`, `size`) over an owned
allocation (`mem`, `mem_size`), and the flags word. -/
structure WT_BUF where
  data : Nat
  size : Nat
  mem : Nat
  mem_size : Nat
  flags : Nat
deriving DecidableEq, Repr

/-- A record as `calloc` returns it: all fields zero. -/
def WT_BUF.zero : WT_BUF := { data := NULL, size := 0, mem := NULL, mem_size := 0, flags := 0 }

/-- Pointwise update of a memory map. -/
def upd {α : Type} (f : Nat → α) (a : Nat) (v : α) : Nat → α :=
  fun x => if x = a then v else f x

/-- Modelled from the spec: the general-purpose allocator behind `__wt_calloc_def`,
`__wt_realloc` and `__wt_free`, which is not under src/.  Each allocation
request reports success or failure; `ok k` is the outcome of request number
`k`, so every allocator behaviour is some choice of `ok`.  The other fields
are instrumentation: the number of requests made, the highest address handed
out, the blocks currently allocated, and the log of pointers passed to free. -/
structure Allocator where
  ok : Nat → Bool
  calls : Nat
  top : Nat
  live : List Nat
  freed : List Nat

/-- Allocator state after a successful request that replaces block `old`
(`NULL` for a new block): the block returned is the fresh address `top + 1`. -/
def Allocator.grant (a : Allocator) (old : Nat) : Allocator :=
  { a with calls := a.calls + 1, top := a.top + 1, live := (a.top + 1) :: a.live.filter (fun q => q != old) }

/-- Allocator state after a failed request. -/
def Allocator.deny (a : Allocator) : Allocator :=
  { a with calls := a.calls + 1 }

/-- Values `__wt_realloc` leaves behind: return code, allocator state, and the
two in/out arguments (byte count and block pointer). -/
structure Realloc where
  ret : Int
  alloc : Allocator
  bytes_allocated : Nat
  ptr : Nat

/-- Modelled from the spec: `__wt_realloc(session, &bytes_allocated,
bytes_to_allocate, &ptr)` is not under src/.  Per the spec's `reallocate`,
on success the block may move (here: it always gets a fresh non-null address)
and the caller's byte count, a `uint32_t`, becomes the requested size; on
failure both in/out arguments are left as they were and an error is
returned. -/
def __wt_realloc (a : Allocator) (bytes_allocated bytes_to_allocate : Nat) (p : Nat) : Realloc :=
  if a.ok a.calls = true then
    { ret := 0, alloc := a.grant p, bytes_allocated := u32 bytes_to_allocate, ptr := a.top + 1 }
  else
    { ret := WT_ERROR, alloc := a.deny, bytes_allocated := bytes_allocated, ptr := p }

/-- Values `__wt_calloc_def` leaves behind: return code, allocator state and
the pointer stored through its out argument. -/
structure Calloc where
  ret : Int
  alloc : Allocator
  ptr : Nat

/-- Modelled from the spec: `__wt_calloc_def(session, 1, slot)` is not under
src/.  Per the spec's `allocate`, on success a new zeroed block is stored in
`*slot`; on failure `*slot` keeps its value `p` and an error is returned. -/
def __wt_calloc_def (a : Allocator) (p : Nat) : Calloc :=
  if a.ok a.calls = true then
    { ret := 0, alloc := a.grant NULL, ptr := a.top + 1 }
  else
    { ret := WT_ERROR, alloc := a.deny, ptr := p }

/-- Modelled from the spec: `__wt_free(session, p)` is not under src/.  Per
the spec, freeing the absent (null) pointer is a no-op; otherwise the block is
released, and in both cases the pointer variable named by the caller is left
`NULL` (the slot is vacated).  Returns the allocator state and the new value of
the pointer variable. -/
def __wt_free (a : Allocator) (p : Nat) : Allocator × Nat :=
  if p = NULL then (a, NULL)
  else ({ a with live := a.live.filter (fun q => q != p), freed := p :: a.freed }, NULL)

/-- The session fields used by the scratch code, with the memory they refer to:
`scratch` is the address of the slot array, `scratch_alloc` the number of
slots, `slots i` the contents of `scratch[i]`, `bufs p` the record `*p`. -/
structure SESSION where
  scratch : Nat
  scratch_alloc : Nat
  slots : Nat → Nat
  bufs : Nat → WT_BUF
  alloc : Allocator

/-! ## Buffer primitives -/

/-- Source function `__wt_buf_setsize` (scratch.c 15-27).  The `WT_ASSERT` on `sz` has no
effect on the state and is not modelled.  Returns the return code and the
session after the call. -/
def __wt_buf_setsize (s : SESSION) (buf : Nat) (sz : Nat) : Int × SESSION :=
  let b := s.bufs buf
  if sz > b.mem_size then
    let r := __wt_realloc s.alloc b.mem_size sz b.mem
    if r.ret ≠ 0 then
      (r.ret, { s with alloc := r.alloc })
    else
      let b1 : WT_BUF := { b with mem := r.ptr, mem_size := r.bytes_allocated }
      (0, { s with alloc := r.alloc, bufs := upd s.bufs buf { b1 with data := b1.mem, size := u32 sz } })
  else
    (0, { s with bufs := upd s.bufs buf { b with data := b.mem, size := u32 sz } })

/-- Source function `__wt_buf_clear` (scratch.c 34-42). -/
def __wt_buf_clear (b : WT_BUF) : WT_BUF :=
  { b with data := NULL, size := 0, mem := NULL, mem_size := 0 }

/-- Source function `__wt_buf_free` (scratch.c 48-54). -/
def __wt_buf_free (s : SESSION) (buf : Nat) : SESSION :=
  let b := s.bufs buf
  let f := if b.mem ≠ NULL then __wt_free s.alloc b.mem else (s.alloc, b.mem)
  { s with alloc := f.1, bufs := upd s.bufs buf (__wt_buf_clear { b with mem := f.2 }) }

/-! ## Pool operations -/

/-- How the slot walk of `__wt_scr_alloc` ends: it returned from inside the
loop (`ret`, `*scratchp`, session), or it ran to the end with the remembered
`small` buffer and empty `slot`. -/
inductive Walk where
  | returned (ret : Int) (scratchp : Nat) (s : SESSION)
  | finished (small : Nat) (slot : Option Nat)

/-- The `for` loop of `__wt_scr_alloc` (scratch.c 80-104): `k` iterations
remain, `i` is the loop index, `small` and `slot` the loop variables
(`slot` is the index of the remembered array element, `none` for `NULL`). -/
def __wt_scr_alloc_walk (s : SESSION) (size : Nat) : Nat → Nat → Nat → Option Nat → Walk
  | 0, _, small, slot => Walk.finished small slot
  | k + 1, i, small, slot =>
    let buf := s.slots i
    if buf = NULL then
      __wt_scr_alloc_walk s size k (i + 1) small (if slot = none then some i else slot)
    else if F_ISSET (s.bufs buf).flags WT_BUF_INUSE = true then
      __wt_scr_alloc_walk s size k (i + 1) small slot
    else if (s.bufs buf).mem_size ≥ size then
      let b1 : WT_BUF := { s.bufs buf with flags := F_SET (s.bufs buf).flags WT_BUF_INUSE }
      let s1 : SESSION := { s with bufs := upd s.bufs buf b1 }
      Walk.returned 0 buf (__wt_buf_setsize s1 buf size).2
    else
      __wt_scr_alloc_walk s size k (i + 1) (if small = NULL then buf else small) slot

/-- Result of `__wt_scr_alloc`: return code, the value left in `*scratchp`,
and the session after the call. -/
structure ScrAlloc where
  ret : Int
  scratchp : Nat
  session : SESSION

/-- Source function `__wt_scr_alloc` (scratch.c 60-141).  The first argument bounds the depth
of the recursive calls; `none` means the bound was reached.  `__wt_errx` only
prints a message and is not modelled. -/
def __wt_scr_alloc : Nat → SESSION → Nat → Option ScrAlloc
  | 0, _, _ => none
  | fuel + 1, s, size =>
    let scratchp : Nat := NULL
    match __wt_scr_alloc_walk s size s.scratch_alloc 0 NULL none with
    | Walk.returned ret p s1 => some { ret := ret, scratchp := p, session := s1 }
    | Walk.finished small slot =>
      if small ≠ NULL then
        let r := __wt_buf_setsize s small size
        if r.1 ≠ 0 then
          some { ret := r.1, scratchp := scratchp, session := r.2 }
        else
          let s1 := r.2
          let b1 : WT_BUF := { s1.bufs small with flags := F_SET (s1.bufs small).flags WT_BUF_INUSE }
          some { ret := 0, scratchp := small, session := { s1 with bufs := upd s1.bufs small b1 } }
      else
        match slot with
        | some i =>
          let c := __wt_calloc_def s.alloc (s.slots i)
          if c.ret ≠ 0 then
            some { ret := c.ret, scratchp := scratchp, session := { s with alloc := c.alloc } }
          else
            let s1 : SESSION :=
              { s with alloc := c.alloc, slots := upd s.slots i c.ptr, bufs := upd s.bufs c.ptr WT_BUF.zero }
            __wt_scr_alloc fuel s1 size
        | none =>
          let allocated := s.scratch_alloc * 8
          let r := __wt_realloc s.alloc allocated ((s.scratch_alloc + 10) * 8) s.scratch
          if r.ret ≠ 0 then
            some { ret := r.ret, scratchp := scratchp, session := { s with alloc := r.alloc } }
          else
            let grown : Nat → Nat := fun i => if i < s.scratch_alloc then s.slots i else NULL
            let s1 : SESSION :=
              { s with alloc := r.alloc, scratch := r.ptr, slots := grown, scratch_alloc := s.scratch_alloc + 10 }
            __wt_scr_alloc fuel s1 size

/-- Source function `__wt_scr_release` (scratch.c 147-156): `bufp` is the value of the
caller's handle `*bufp`; returns the value left in the handle and the session. -/
def __wt_scr_release (s : SESSION) (bufp : Nat) : Nat × SESSION :=
  let buf := bufp
  let b1 : WT_BUF := { s.bufs buf with flags := F_CLR (s.bufs buf).flags WT_BUF_INUSE }
  (NULL, { s with bufs := upd s.bufs buf b1 })

/-- The `for` loop of `__wt_scr_free` (scratch.c 168-173): `k` iterations
remain, `i` is the loop index. -/
def __wt_scr_free_walk : Nat → Nat → SESSION → SESSION
  | 0, _, s => s
  | k + 1, i, s =>
    let s1 := if s.slots i ≠ NULL then __wt_buf_free s (s.slots i) else s
    let f := __wt_free s1.alloc (s1.slots i)
    __wt_scr_free_walk k (i + 1) { s1 with alloc := f.1, slots := upd s1.slots i f.2 }

/-- Source function `__wt_scr_free` (scratch.c 162-176). -/
def __wt_scr_free (s : SESSION) : SESSION :=
  let s1 := __wt_scr_free_walk s.scratch_alloc 0 s
  let f := __wt_free s1.alloc s1.scratch
  { s1 with alloc := f.1, scratch := f.2 }

/-- The pool of a new session: no slot array, no slots. -/
def SESSION.fresh (a : Allocator) : SESSION :=
  { scratch := NULL, scratch_alloc := 0, slots := fun _ => NULL, bufs := fun _ => WT_BUF.zero, alloc := a }

/-- An allocator whose every request succeeds. -/
def Allocator.reliable : Allocator :=
  { ok := fun _ => true, calls := 0, top := 0, live := [], freed := [] }

/-! ## Predicates on pool states -/

/-- Slot `i` holds a buffer that is not in use. -/
def freeAt (s : SESSION) (i : Nat) : Prop :=
  s.slots i ≠ NULL ∧ F_ISSET (s.bufs (s.slots i)).flags WT_BUF_INUSE = false

/-- Slot `i` holds a buffer that is not in use and whose capacity meets `size`. -/
def fitsAt (s : SESSION) (size i : Nat) : Prop :=
  freeAt s i ∧ size ≤ (s.bufs (s.slots i)).mem_size

instance (s : SESSION) (i : Nat) : Decidable (freeAt s i) :=
  inferInstanceAs (Decidable (s.slots i ≠ NULL ∧ F_ISSET (s.bufs (s.slots i)).flags WT_BUF_INUSE = false))

instance (s : SESSION) (size i : Nat) : Decidable (fitsAt s size i) :=
  inferInstanceAs (Decidable (freeAt s i ∧ size ≤ (s.bufs (s.slots i)).mem_size))

/-- Pointer held by the first slot of `[i, i + k)` with a not-in-use buffer,
`NULL` when there is none. -/
def firstFree (s : SESSION) : Nat → Nat → Nat
  | 0, _ => NULL
  | k + 1, i => if freeAt s i then s.slots i else firstFree s k (i + 1)

/-- Index of the first empty slot of `[i, i + k)`. -/
def firstEmpty (s : SESSION) : Nat → Nat → Option Nat
  | 0, _ => none
  | k + 1, i => if s.slots i = NULL then some i else firstEmpty s k (i + 1)

/-- The session after buffer `p` is handed out without reallocation: in-use
flag set, view reset to the start of the block with length `size`. -/
def lease (s : SESSION) (size : Nat) (p : Nat) : SESSION :=
  let b := s.bufs p
  let b1 : WT_BUF := { b with flags := F_SET b.flags WT_BUF_INUSE, data := b.mem, size := u32 size }
  { s with bufs := upd s.bufs p b1 }

/-- The session after the not-in-use buffer `p` is grown to `size` by a
successful reallocation and handed out. -/
def regrow (s : SESSION) (size : Nat) (p : Nat) : SESSION :=
  let b := s.bufs p
  let b1 : WT_BUF :=
    { data := s.alloc.top + 1, size := u32 size, mem := s.alloc.top + 1, mem_size := u32 size,
      flags := F_SET b.flags WT_BUF_INUSE }
  { s with alloc := s.alloc.grant b.mem, bufs := upd s.bufs p b1 }

/-- The session after a new zeroed buffer is allocated into the empty slot `j`. -/
def addBuf (s : SESSION) (j : Nat) : SESSION :=
  { s with alloc := s.alloc.grant NULL, slots := upd s.slots j (s.alloc.top + 1),
           bufs := upd s.bufs (s.alloc.top + 1) WT_BUF.zero }

/-- The session after the slot array is reallocated with ten more slots. -/
def addSlots (s : SESSION) : SESSION :=
  { s with alloc := s.alloc.grant s.scratch, scratch := s.alloc.top + 1,
           slots := fun i => if i < s.scratch_alloc then s.slots i else NULL,
           scratch_alloc := s.scratch_alloc + 10 }

/-- The session after an allocation request was refused. -/
def refused (s : SESSION) : SESSION :=
  { s with alloc := s.alloc.deny }

/-- Results of a call of `__wt_scr_alloc` that finds a not-in-use buffer, so
that it returns without calling itself: rule 1, rule 2 with the reallocation
granted, rule 2 with the reallocation refused. -/
inductive Direct (s : SESSION) (size : Nat) : ScrAlloc → Prop
  | fit (j : Nat) (hj : j < s.scratch_alloc) (hfit : fitsAt s size j)
      (hfirst : ∀ j', j' < j → ¬ fitsAt s size j') :
      Direct s size { ret := 0, scratchp := s.slots j, session := lease s size (s.slots j) }
  | grown (j : Nat) (hj : j < s.scratch_alloc) (hfree : freeAt s j)
      (hfirst : ∀ j', j' < j → ¬ freeAt s j')
      (hnofit : ∀ j', j' < s.scratch_alloc → ¬ fitsAt s size j')
      (hok : s.alloc.ok s.alloc.calls = true) :
      Direct s size { ret := 0, scratchp := s.slots j, session := regrow s size (s.slots j) }
  | stuck (j : Nat) (hj : j < s.scratch_alloc) (hfree : freeAt s j)
      (hnofit : ∀ j', j' < s.scratch_alloc → ¬ fitsAt s size j')
      (hok : ¬ s.alloc.ok s.alloc.calls = true) :
      Direct s size { ret := WT_ERROR, scratchp := NULL, session := refused s }

/-- Results of a call of `__wt_scr_alloc`, by the path taken: a direct return,
a refused buffer or slot-array allocation, or a repeated call on the session
with the new buffer or the new slots. -/
inductive Outcome : SESSION → Nat → ScrAlloc → Prop
  | direct {s : SESSION} {size : Nat} {r : ScrAlloc} (h : Direct s size r) : Outcome s size r
  | noBuf {s : SESSION} {size : Nat} (j : Nat) (hj : j < s.scratch_alloc)
      (hempty : s.slots j = NULL) (hnofree : ∀ j', j' < s.scratch_alloc → ¬ freeAt s j')
      (hok : ¬ s.alloc.ok s.alloc.calls = true) :
      Outcome s size { ret := WT_ERROR, scratchp := NULL, session := refused s }
  | newBuf {s : SESSION} {size : Nat} {r : ScrAlloc} (j : Nat) (hj : j < s.scratch_alloc)
      (hempty : s.slots j = NULL) (hfirst : ∀ j', j' < j → s.slots j' ≠ NULL)
      (hnofree : ∀ j', j' < s.scratch_alloc → ¬ freeAt s j')
      (hok : s.alloc.ok s.alloc.calls = true) (h : Outcome (addBuf s j) size r) :
      Outcome s size r
  | noSlots {s : SESSION} {size : Nat}
      (hnoempty : ∀ j', j' < s.scratch_alloc → s.slots j' ≠ NULL)
      (hnofree : ∀ j', j' < s.scratch_alloc → ¬ freeAt s j')
      (hok : ¬ s.alloc.ok s.alloc.calls = true) :
      Outcome s size { ret := WT_ERROR, scratchp := NULL, session := refused s }
  | newSlots {s : SESSION} {size : Nat} {r : ScrAlloc}
      (hnoempty : ∀ j', j' < s.scratch_alloc → s.slots j' ≠ NULL)
      (hnofree : ∀ j', j' < s.scratch_alloc → ¬ freeAt s j')
      (hok : s.alloc.ok s.alloc.calls = true) (h : Outcome (addSlots s) size r) :
      Outcome s size r

/-- What a successful call hands to the caller: a non-null handle to a buffer
held by a slot of the pool, large enough, with the view set to the requested
size at the start of the block, and marked in use. -/
def Granted (r : ScrAlloc) (size : Nat) : Prop :=
  r.scratchp ≠ NULL ∧
  (∃ i, i < r.session.scratch_alloc ∧ r.session.slots i = r.scratchp) ∧
  size ≤ (r.session.bufs r.scratchp).mem_size ∧
  (r.session.bufs r.scratchp).size = size ∧
  (r.session.bufs r.scratchp).data = (r.session.bufs r.scratchp).mem ∧
  F_ISSET (r.session.bufs r.scratchp).flags WT_BUF_INUSE = true

/-- Memory of the example pools: record `11` has capacity 50, record `12`
capacity 200, record `13` capacity 150, none of them in use. -/
def exampleBufs : Nat → WT_BUF := fun p =>
  if p = 11 then { data := 21, size := 50, mem := 21, mem_size := 50, flags := 0 }
  else if p = 12 then { data := 22, size := 7, mem := 22, mem_size := 200, flags := 0 }
  else if p = 13 then { data := 23, size := 0, mem := 23, mem_size := 150, flags := 0 }
  else WT_BUF.zero

/-- Allocator state of the example pools: addresses up to 30 handed out. -/
def exampleAlloc : Allocator :=
  { ok := fun _ => true, calls := 7, top := 30, live := [9, 11, 12, 13, 21, 22, 23], freed := [] }

/-- Example pool of four slots: an undersized free buffer, an empty slot, a
free buffer of capacity 200, a free buffer of capacity 150. -/
def poolFit : SESSION :=
  { scratch := 9, scratch_alloc := 4,
    slots := fun i => if i = 0 then 11 else if i = 2 then 12 else if i = 3 then 13 else NULL,
    bufs := exampleBufs, alloc := exampleAlloc }

/-- Example pool of two slots: an empty slot, then a free buffer of capacity 50. -/
def poolSmall : SESSION :=
  { scratch := 9, scratch_alloc := 2, slots := fun i => if i = 1 then 11 else NULL,
    bufs := exampleBufs, alloc := exampleAlloc }

/-- The session after the buffer created in the empty slot `j` is handed out
for `size` bytes: leased as it is when `size` is zero, grown otherwise. -/
def firstUse (s : SESSION) (j size : Nat) : SESSION :=
  if size = 0 then lease (addBuf s j) size (s.alloc.top + 1)
  else regrow (addBuf s j) size (s.alloc.top + 1)

/-- An allocator that refuses every request. -/
def Allocator.broken : Allocator :=
  { ok := fun _ => false, calls := 0, top := 0, live := [], freed := [] }

/-- Example pool of three slots: a buffer in use, an empty slot, a buffer in use. -/
def poolBusy : SESSION :=
  { scratch := 9, scratch_alloc := 3, slots := fun i => if i = 0 then 11 else if i = 2 then 12 else NULL,
    bufs := fun p => { exampleBufs p with flags := WT_BUF_INUSE }, alloc := exampleAlloc }

/-- Example pool of two slots, both holding a buffer in use. -/
def poolFull : SESSION :=
  { scratch := 9, scratch_alloc := 2, slots := fun i => if i = 0 then 11 else if i = 1 then 12 else NULL,
    bufs := fun p => { exampleBufs p with flags := WT_BUF_INUSE }, alloc := exampleAlloc }

/-- What a caller does with the pool: acquire a buffer of some size, or
release a handle it holds. -/
inductive Op where
  | acquire (size : Nat)
  | release (h : Nat)

/-- A caller's view: the session and the handles it holds (returned by
`__wt_scr_alloc` and not yet passed to `__wt_scr_release`). -/
structure Client where
  session : SESSION
  held : List Nat

/-- One operation of the caller.  A successful acquire adds the returned
handle to the held ones; a release passes a held handle to
`__wt_scr_release` (releasing a handle that is not held is a contract
violation and is not performed). -/
def Client.step (fuel : Nat) (c : Client) : Op → Client
  | Op.acquire size =>
    match __wt_scr_alloc fuel c.session size with
    | some r => { session := r.session, held := if r.ret = 0 then r.scratchp :: c.held else c.held }
    | none => c
  | Op.release h =>
    if h ∈ c.held then { session := (__wt_scr_release c.session h).2, held := c.held.erase h }
    else c

/-- A sequence of operations, in order. -/
def Client.run (fuel : Nat) (c : Client) (ops : List Op) : Client :=
  ops.foldl (Client.step fuel) c

/-- Every buffer held by a slot lies at an address the allocator has handed out. -/
def Allocated (s : SESSION) : Prop :=
  ∀ i, i < s.scratch_alloc → s.slots i ≤ s.alloc.top

/-- The handles held are pairwise distinct, and each refers to a buffer of the
pool that is marked in use. -/
def Exclusive (c : Client) : Prop :=
  c.held.Nodup ∧ Allocated c.session ∧
  ∀ h, h ∈ c.held → h ≠ NULL ∧ F_ISSET (c.session.bufs h).flags WT_BUF_INUSE = true ∧
    ∃ i, i < c.session.scratch_alloc ∧ c.session.slots i = h

/-- A buffer whose view and allocation fields are all null or zero. -/
def Cleared (b : WT_BUF) : Prop :=
  b.data = NULL ∧ b.size = 0 ∧ b.mem = NULL ∧ b.mem_size = 0

/-- One iteration of the loop of `__wt_scr_free`, at slot `i`. -/
def freeSlot (s : SESSION) (i : Nat) : SESSION :=
  let s1 := if s.slots i ≠ NULL then __wt_buf_free s (s.slots i) else s
  let f := __wt_free s1.alloc (s1.slots i)
  { s1 with alloc := f.1, slots := upd s1.slots i f.2 }

/-- The view bound of a buffer: `size <= mem_size`. -/
def ViewOk (b : WT_BUF) : Prop := b.size ≤ b.mem_size

/-- The session after the caller takes the memory of the buffer at `p` for
another purpose and calls `__wt_buf_clear` on it. -/
def steal (s : SESSION) (p : Nat) : SESSION :=
  { s with bufs := upd s.bufs p (__wt_buf_clear (s.bufs p)) }

/-- An allocator that grants its first `k` requests and refuses the others. -/
def Allocator.flaky (k : Nat) : Allocator :=
  { ok := fun n => decide (n < k), calls := 0, top := 0, live := [], freed := [] }

/-- What slot `i` held before a call: its contents if it existed, `NULL` if the
slot is one the call added. -/
def slotBefore (s : SESSION) (i : Nat) : Nat :=
  if i < s.scratch_alloc then s.slots i else NULL

/-- How a session `t` may differ from `s` by growth that was not completed:
records at addresses handed out before are unchanged, any changed record is a
new zeroed one, the slot count is the same or ten more, slots that held a
buffer hold the same buffer, and at most one slot that was empty or is new
holds a new zeroed buffer. -/
def PartlyGrown (s t : SESSION) : Prop :=
  (∀ q, q ≤ s.alloc.top → t.bufs q = s.bufs q) ∧
  (∀ q, t.bufs q = s.bufs q ∨ (s.alloc.top < q ∧ t.bufs q = WT_BUF.zero)) ∧
  (t.scratch_alloc = s.scratch_alloc ∨ t.scratch_alloc = s.scratch_alloc + 10) ∧
  (∀ i, i < s.scratch_alloc → s.slots i ≠ NULL → t.slots i = s.slots i) ∧
  (∀ i, i < t.scratch_alloc → t.slots i = slotBefore s i ∨
    (slotBefore s i = NULL ∧ s.alloc.top < t.slots i ∧ t.bufs (t.slots i) = WT_BUF.zero)) ∧
  (∀ i j, i < t.scratch_alloc → j < t.scratch_alloc →
    t.slots i ≠ slotBefore s i → t.slots j ≠ slotBefore s j → i = j)

/-- Blocks the pool owns through slot `i`, in the order `__wt_scr_free` passes
them to free: the buffer's memory block (if any), then the buffer record. -/
def ownedAt (s : SESSION) (i : Nat) : List Nat :=
  if s.slots i = NULL then []
  else if (s.bufs (s.slots i)).mem = NULL then [s.slots i]
  else [(s.bufs (s.slots i)).mem, s.slots i]

/-- Blocks owned through the slots `[i, i + k)`, in slot order. -/
def ownedFrom (s : SESSION) : Nat → Nat → List Nat
  | 0, _ => []
  | k + 1, i => ownedAt s i ++ ownedFrom s k (i + 1)

/-- Every allocation the pool owns: each buffer's memory block and record, in
slot order, then the slot array. -/
def owned (s : SESSION) : List Nat :=
  ownedFrom s s.scratch_alloc 0 ++ (if s.scratch = NULL then [] else [s.scratch])

/-- The allocator's books agree with the pool: nothing has been freed, the
allocated blocks are exactly the ones the pool owns, each once, all at
addresses handed out, and no block is owned in two roles (two slots never
share a record or a memory block, and the slot array is neither). -/
structure Tidy (s : SESSION) : Prop where
  freed_nil : s.alloc.freed = []
  live_nodup : s.alloc.live.Nodup
  live_iff : ∀ q, q ∈ s.alloc.live ↔ q ∈ owned s
  live_le : ∀ q, q ∈ s.alloc.live → q ≤ s.alloc.top
  at_nodup : ∀ x, x < s.scratch_alloc → (ownedAt s x).Nodup
  at_disjoint : ∀ x y, x < s.scratch_alloc → y < s.scratch_alloc → x ≠ y →
    ∀ q, q ∈ ownedAt s x → q ∉ ownedAt s y
  scratch_not_at : ∀ x, x < s.scratch_alloc → s.scratch ∉ ownedAt s x

/-- The session a caller reaches from `s0` by a sequence of operations. -/
def poolAfter (fuel : Nat) (s0 : SESSION) (ops : List Op) : SESSION :=
  (Client.run fuel { session := s0, held := [] } ops).session

/-! ## Basic facts -/

@[simp] theorem upd_same {α : Type} (f : Nat → α) (a : Nat) (v : α) : upd f a v a = v := by
  simp [upd]

theorem upd_other {α : Type} (f : Nat → α) (a : Nat) (v : α) (x : Nat) (h : x ≠ a) :
    upd f a v x = f x := by
  simp [upd, h]

theorem upd_apply {α : Type} (f : Nat → α) (a : Nat) (v : α) (x : Nat) :
    upd f a v x = if x = a then v else f x := rfl

@[simp] theorem upd_upd {α : Type} (f : Nat → α) (a : Nat) (v w : α) :
    upd (upd f a v) a w = upd f a w := by
  funext x; simp only [upd]; split <;> rfl

@[simp] theorem F_ISSET_F_SET (f : Nat) : F_ISSET (F_SET f WT_BUF_INUSE) WT_BUF_INUSE = true := by
  have h : (f ||| 1).testBit 0 = true := by simp
  have h2 : (f ||| 1) % 2 = 1 := by
    rw [Nat.testBit_zero] at h; exact of_decide_eq_true h
  simp [F_ISSET, F_SET, WT_BUF_INUSE, Nat.and_one_is_mod, h2]

@[simp] theorem F_ISSET_F_CLR (f : Nat) : F_ISSET (F_CLR f WT_BUF_INUSE) WT_BUF_INUSE = false := by
  have h : (f &&& (4294967295 ^^^ 1)) &&& 1 = 0 := by
    rw [Nat.land_assoc]
    have : (4294967295 ^^^ 1) &&& 1 = 0 := by decide
    rw [this]; simp
  simp [F_ISSET, F_CLR, WT_BUF_INUSE, UINT32_MAX, h]

@[simp] theorem F_ISSET_zero (m : Nat) : F_ISSET 0 m = false := by
  simp [F_ISSET]

theorem u32_of_le {n : Nat} (h : n ≤ UINT32_MAX) : u32 n = n := by
  unfold u32 UINT32_MAX at *; omega

/-! ## The slot walk -/

theorem firstFree_eq_null (s : SESSION) : ∀ k i,
    (∀ j, i ≤ j → j < i + k → ¬ freeAt s j) → firstFree s k i = NULL := by
  intro k
  induction k with
  | zero => intro i _; rfl
  | succ k ih =>
    intro i h
    have h0 : ¬ freeAt s i := h i (Nat.le_refl i) (by omega)
    simp only [firstFree, h0, if_false]
    exact ih (i + 1) (fun j h1 h2 => h j (by omega) (by omega))

theorem firstFree_eq_slot (s : SESSION) : ∀ k i j, i ≤ j → j < i + k → freeAt s j →
    (∀ j', i ≤ j' → j' < j → ¬ freeAt s j') → firstFree s k i = s.slots j := by
  intro k
  induction k with
  | zero => intro i j h1 h2; omega
  | succ k ih =>
    intro i j h1 h2 hf hfirst
    by_cases hij : i = j
    · subst hij; simp only [firstFree, hf, if_true]
    · have h0 : ¬ freeAt s i := hfirst i (Nat.le_refl i) (by omega)
      simp only [firstFree, h0, if_false]
      exact ih (i + 1) j (by omega) (by omega) hf (fun j' h3 h4 => hfirst j' (by omega) h4)

theorem firstEmpty_eq_none (s : SESSION) : ∀ k i,
    (∀ j, i ≤ j → j < i + k → s.slots j ≠ NULL) → firstEmpty s k i = none := by
  intro k
  induction k with
  | zero => intro i _; rfl
  | succ k ih =>
    intro i h
    have h0 : s.slots i ≠ NULL := h i (Nat.le_refl i) (by omega)
    simp only [firstEmpty, h0, if_false]
    exact ih (i + 1) (fun j h1 h2 => h j (by omega) (by omega))

theorem firstEmpty_eq_some (s : SESSION) : ∀ k i j, i ≤ j → j < i + k → s.slots j = NULL →
    (∀ j', i ≤ j' → j' < j → s.slots j' ≠ NULL) → firstEmpty s k i = some j := by
  intro k
  induction k with
  | zero => intro i j h1 h2; omega
  | succ k ih =>
    intro i j h1 h2 hf hfirst
    by_cases hij : i = j
    · subst hij; simp only [firstEmpty, hf, if_true]
    · have h0 : s.slots i ≠ NULL := hfirst i (Nat.le_refl i) (by omega)
      simp only [firstEmpty, h0, if_false]
      exact ih (i + 1) j (by omega) (by omega) hf (fun j' h3 h4 => hfirst j' (by omega) h4)

/-- Setting the size of a buffer whose capacity suffices only resets the view. -/
theorem setsize_fits (s : SESSION) (p : Nat) (sz : Nat) (h : sz ≤ (s.bufs p).mem_size) :
    __wt_buf_setsize s p sz =
      (0, { s with bufs := upd s.bufs p { s.bufs p with data := (s.bufs p).mem, size := u32 sz } }) := by
  have h1 : ¬ sz > (s.bufs p).mem_size := by omega
  simp only [__wt_buf_setsize, h1, if_false]

/-- When no slot of `[i, i + k)` can satisfy the request as it is, the walk
runs to the end remembering the first not-in-use buffer and the first empty
slot. -/
theorem walk_finished (s : SESSION) (size : Nat) : ∀ k i small slot,
    (∀ j, i ≤ j → j < i + k → ¬ fitsAt s size j) →
    __wt_scr_alloc_walk s size k i small slot =
      Walk.finished (if small = NULL then firstFree s k i else small)
        (if slot = none then firstEmpty s k i else slot) := by
  intro k
  induction k with
  | zero =>
    intro i small slot _
    simp only [__wt_scr_alloc_walk, firstFree, firstEmpty]
    congr 1
    · split <;> simp_all
    · split <;> simp_all
  | succ k ih =>
    intro i small slot h
    have hrest : ∀ j, i + 1 ≤ j → j < i + 1 + k → ¬ fitsAt s size j :=
      fun j h1 h2 => h j (by omega) (by omega)
    have h0 : ¬ fitsAt s size i := h i (Nat.le_refl i) (by omega)
    unfold __wt_scr_alloc_walk
    by_cases hnull : s.slots i = NULL
    · have hnf : ¬ freeAt s i := fun hf => hf.1 hnull
      simp only [hnull, if_true, firstFree, firstEmpty, hnf, if_false]
      rw [ih (i + 1) small _ hrest]
      congr 1
      cases slot <;> simp
    · by_cases hin : F_ISSET (s.bufs (s.slots i)).flags WT_BUF_INUSE = true
      · have hnf : ¬ freeAt s i := fun hf => by simp [hf.2] at hin
        simp only [hnull, hin, if_true, if_false, firstFree, firstEmpty, hnf]
        rw [ih (i + 1) small slot hrest]
      · have hfree : freeAt s i := ⟨hnull, by simpa using hin⟩
        have hsz : ¬ (s.bufs (s.slots i)).mem_size ≥ size := fun hge => h0 ⟨hfree, hge⟩
        simp only [hnull, hin, hsz, if_false, firstFree, firstEmpty, hfree, if_true]
        by_cases hs : small = NULL
        · rw [ih (i + 1) (if small = NULL then s.slots i else small) slot hrest]
          simp [hs, hnull]
        · rw [ih (i + 1) (if small = NULL then s.slots i else small) slot hrest]
          simp [hs]

/-- When slot `j` is the first of `[i, i + k)` that can satisfy the request as
it is, the walk returns its buffer, leased. -/
theorem walk_returned (s : SESSION) (size : Nat) : ∀ k i j small slot,
    i ≤ j → j < i + k → fitsAt s size j → (∀ j', i ≤ j' → j' < j → ¬ fitsAt s size j') →
    __wt_scr_alloc_walk s size k i small slot =
      Walk.returned 0 (s.slots j) (lease s size (s.slots j)) := by
  intro k
  induction k with
  | zero => intro i j small slot h1 h2; omega
  | succ k ih =>
    intro i j small slot h1 h2 hfit hfirst
    unfold __wt_scr_alloc_walk
    by_cases hij : i = j
    · subst hij
      have hnull : s.slots i ≠ NULL := hfit.1.1
      have hin : ¬ F_ISSET (s.bufs (s.slots i)).flags WT_BUF_INUSE = true := by simp [hfit.1.2]
      have hsz : (s.bufs (s.slots i)).mem_size ≥ size := hfit.2
      simp only [hnull, hin, hsz, if_true, if_false]
      rw [setsize_fits _ _ _ (by simpa using hsz)]
      simp [lease]
    · have h0 : ¬ fitsAt s size i := hfirst i (Nat.le_refl i) (by omega)
      have hrec : ∀ small1 slot1, __wt_scr_alloc_walk s size k (i + 1) small1 slot1 =
          Walk.returned 0 (s.slots j) (lease s size (s.slots j)) :=
        fun small1 slot1 => ih (i + 1) j small1 slot1 (by omega) (by omega) hfit
          (fun j' h3 h4 => hfirst j' (by omega) h4)
      by_cases hnull : s.slots i = NULL
      · simp only [hnull, if_true]; exact hrec _ _
      · by_cases hin : F_ISSET (s.bufs (s.slots i)).flags WT_BUF_INUSE = true
        · simp only [hnull, hin, if_true, if_false]; exact hrec _ _
        · have hfree : freeAt s i := ⟨hnull, by simpa using hin⟩
          have hsz : ¬ (s.bufs (s.slots i)).mem_size ≥ size := fun hge => h0 ⟨hfree, hge⟩
          simp only [hnull, hin, hsz, if_false]; exact hrec _ _

/-! ## The four rules of `__wt_scr_alloc` -/

/-- Rule 1: the first slot whose not-in-use buffer is large enough is leased. -/
theorem scr_alloc_fit (s : SESSION) (size j fuel : Nat) (hj : j < s.scratch_alloc)
    (hfit : fitsAt s size j) (hfirst : ∀ j', j' < j → ¬ fitsAt s size j') :
    __wt_scr_alloc (fuel + 1) s size =
      some { ret := 0, scratchp := s.slots j, session := lease s size (s.slots j) } := by
  have hw := walk_returned s size s.scratch_alloc 0 j NULL none (Nat.zero_le j) (by omega) hfit
    (fun j' _ h2 => hfirst j' h2)
  simp only [__wt_scr_alloc, hw]

/-- Rule 2: no buffer is large enough, the first not-in-use buffer is grown. -/
theorem scr_alloc_small (s : SESSION) (size j fuel : Nat) (hj : j < s.scratch_alloc)
    (hfree : freeAt s j) (hfirst : ∀ j', j' < j → ¬ freeAt s j')
    (hnofit : ∀ j', j' < s.scratch_alloc → ¬ fitsAt s size j') :
    __wt_scr_alloc (fuel + 1) s size =
      if s.alloc.ok s.alloc.calls = true then
        some { ret := 0, scratchp := s.slots j, session := regrow s size (s.slots j) }
      else some { ret := WT_ERROR, scratchp := NULL, session := refused s } := by
  have hw := walk_finished s size s.scratch_alloc 0 NULL none (fun j' _ h2 => hnofit j' (by omega))
  have hff := firstFree_eq_slot s s.scratch_alloc 0 j (Nat.zero_le j) (by omega) hfree
    (fun j' _ h2 => hfirst j' h2)
  have hsz : size > (s.bufs (s.slots j)).mem_size := by
    have := hnofit j hj
    simp only [fitsAt, hfree, true_and] at this
    omega
  have hnn : s.slots j ≠ NULL := hfree.1
  simp only [__wt_scr_alloc, hw, if_true, hff]
  by_cases hok : s.alloc.ok s.alloc.calls = true
  · simp [hnn, __wt_buf_setsize, hsz, __wt_realloc, hok, regrow]
  · simp [hnn, __wt_buf_setsize, hsz, __wt_realloc, hok, refused, WT_ERROR]

/-- Rule 3: no buffer is free, a new buffer is allocated into the first empty
slot and the call is repeated. -/
theorem scr_alloc_empty (s : SESSION) (size j fuel : Nat) (hj : j < s.scratch_alloc)
    (hempty : s.slots j = NULL) (hfirst : ∀ j', j' < j → s.slots j' ≠ NULL)
    (hnofree : ∀ j', j' < s.scratch_alloc → ¬ freeAt s j') :
    __wt_scr_alloc (fuel + 1) s size =
      if s.alloc.ok s.alloc.calls = true then __wt_scr_alloc fuel (addBuf s j) size
      else some { ret := WT_ERROR, scratchp := NULL, session := refused s } := by
  have hw := walk_finished s size s.scratch_alloc 0 NULL none
    (fun j' _ h2 hf => hnofree j' (by omega) hf.1)
  have hff := firstFree_eq_null s s.scratch_alloc 0 (fun j' _ h2 => hnofree j' (by omega))
  have hfe := firstEmpty_eq_some s s.scratch_alloc 0 j (Nat.zero_le j) (by omega) hempty
    (fun j' _ h2 => hfirst j' h2)
  simp only [__wt_scr_alloc, hw, if_true, hff, hfe]
  by_cases hok : s.alloc.ok s.alloc.calls = true
  · simp [__wt_calloc_def, hok, addBuf]
  · simp [__wt_calloc_def, hok, refused, WT_ERROR]

/-- Rule 4: no buffer is free and no slot is empty, the slot array gets ten
more slots and the call is repeated. -/
theorem scr_alloc_full (s : SESSION) (size fuel : Nat)
    (hnoempty : ∀ j', j' < s.scratch_alloc → s.slots j' ≠ NULL)
    (hnofree : ∀ j', j' < s.scratch_alloc → ¬ freeAt s j') :
    __wt_scr_alloc (fuel + 1) s size =
      if s.alloc.ok s.alloc.calls = true then __wt_scr_alloc fuel (addSlots s) size
      else some { ret := WT_ERROR, scratchp := NULL, session := refused s } := by
  have hw := walk_finished s size s.scratch_alloc 0 NULL none
    (fun j' _ h2 hf => hnofree j' (by omega) hf.1)
  have hff := firstFree_eq_null s s.scratch_alloc 0 (fun j' _ h2 => hnofree j' (by omega))
  have hfe := firstEmpty_eq_none s s.scratch_alloc 0 (fun j' _ h2 => hnoempty j' (by omega))
  simp only [__wt_scr_alloc, hw, if_true, hff, hfe]
  by_cases hok : s.alloc.ok s.alloc.calls = true
  · simp [__wt_realloc, hok, addSlots]
  · simp [__wt_realloc, hok, refused, WT_ERROR]

/-! ## Every call returns, within two repeated calls -/

theorem exists_first (P : Nat → Prop) (n : Nat) (h : ∃ j, j < n ∧ P j) :
    ∃ j, j < n ∧ P j ∧ ∀ j', j' < j → ¬ P j' := by
  classical
  have hQ : ∃ j, j < n ∧ P j := h
  refine ⟨Nat.find hQ, (Nat.find_spec hQ).1, (Nat.find_spec hQ).2, ?_⟩
  intro j' hj' hP
  have hlt := (Nat.find_spec hQ).1
  exact Nat.find_min hQ hj' ⟨by omega, hP⟩

/-- A call that finds a not-in-use buffer returns at once. -/
theorem scr_alloc_direct (s : SESSION) (size fuel : Nat)
    (hfree : ∃ j, j < s.scratch_alloc ∧ freeAt s j) :
    ∃ r, __wt_scr_alloc (fuel + 1) s size = some r ∧ Direct s size r := by
  by_cases hfit : ∃ j, j < s.scratch_alloc ∧ fitsAt s size j
  · obtain ⟨j, hj, hf, hfirst⟩ := exists_first _ _ hfit
    exact ⟨_, scr_alloc_fit s size j fuel hj hf hfirst, Direct.fit j hj hf hfirst⟩
  · have hnofit : ∀ j', j' < s.scratch_alloc → ¬ fitsAt s size j' :=
      fun j' h1 h2 => hfit ⟨j', h1, h2⟩
    obtain ⟨j, hj, hf, hfirst⟩ := exists_first _ _ hfree
    have heq := scr_alloc_small s size j fuel hj hf hfirst hnofit
    by_cases hok : s.alloc.ok s.alloc.calls = true
    · rw [if_pos hok] at heq
      exact ⟨_, heq, Direct.grown j hj hf hfirst hnofit hok⟩
    · rw [if_neg hok] at heq
      exact ⟨_, heq, Direct.stuck j hj hf hnofit hok⟩

theorem freeAt_addBuf (s : SESSION) (j : Nat) : freeAt (addBuf s j) j := by
  simp [freeAt, addBuf, WT_BUF.zero]

theorem not_freeAt_addSlots (s : SESSION)
    (hnofree : ∀ j', j' < s.scratch_alloc → ¬ freeAt s j') (i : Nat) :
    ¬ freeAt (addSlots s) i := by
  intro hf
  by_cases hi : i < s.scratch_alloc
  · apply hnofree i hi
    simpa [freeAt, addSlots, hi] using hf
  · simp [freeAt, addSlots, hi] at hf

/-- A call that finds a not-in-use buffer or an empty slot returns after at
most one repeated call. -/
theorem scr_alloc_one_retry (s : SESSION) (size fuel : Nat)
    (h : (∃ j, j < s.scratch_alloc ∧ freeAt s j) ∨ ∃ j, j < s.scratch_alloc ∧ s.slots j = NULL) :
    ∃ r, __wt_scr_alloc (fuel + 2) s size = some r ∧ Outcome s size r := by
  by_cases hfree : ∃ j, j < s.scratch_alloc ∧ freeAt s j
  · obtain ⟨r, h1, h2⟩ := scr_alloc_direct s size (fuel + 1) hfree
    exact ⟨r, h1, Outcome.direct h2⟩
  · have hnofree : ∀ j', j' < s.scratch_alloc → ¬ freeAt s j' :=
      fun j' h1 h2 => hfree ⟨j', h1, h2⟩
    have hempty : ∃ j, j < s.scratch_alloc ∧ s.slots j = NULL := h.resolve_left hfree
    obtain ⟨j, hj, he, hfirst⟩ := exists_first _ _ hempty
    have heq := scr_alloc_empty s size j (fuel + 1) hj he hfirst hnofree
    by_cases hok : s.alloc.ok s.alloc.calls = true
    · rw [if_pos hok] at heq
      obtain ⟨r, h1, h2⟩ := scr_alloc_direct (addBuf s j) size fuel
        ⟨j, by simpa [addBuf] using hj, freeAt_addBuf s j⟩
      exact ⟨r, by rw [heq]; exact h1, Outcome.newBuf j hj he hfirst hnofree hok (Outcome.direct h2)⟩
    · rw [if_neg hok] at heq
      exact ⟨_, heq, Outcome.noBuf j hj he hnofree hok⟩

/-- Every call of `__wt_scr_alloc` returns when three nested calls are allowed
(the call and two repeated calls), and its result is one of the outcomes. -/
theorem scr_alloc_outcome (s : SESSION) (size fuel : Nat) :
    ∃ r, __wt_scr_alloc (fuel + 3) s size = some r ∧ Outcome s size r := by
  by_cases h : (∃ j, j < s.scratch_alloc ∧ freeAt s j) ∨ ∃ j, j < s.scratch_alloc ∧ s.slots j = NULL
  · exact scr_alloc_one_retry s size (fuel + 1) h
  · have hnofree : ∀ j', j' < s.scratch_alloc → ¬ freeAt s j' :=
      fun j' h1 h2 => h (Or.inl ⟨j', h1, h2⟩)
    have hnoempty : ∀ j', j' < s.scratch_alloc → s.slots j' ≠ NULL :=
      fun j' h1 h2 => h (Or.inr ⟨j', h1, h2⟩)
    have heq := scr_alloc_full s size (fuel + 2) hnoempty hnofree
    by_cases hok : s.alloc.ok s.alloc.calls = true
    · rw [if_pos hok] at heq
      obtain ⟨r, h1, h2⟩ := scr_alloc_one_retry (addSlots s) size fuel
        (Or.inr ⟨s.scratch_alloc, by simp [addSlots], by simp [addSlots]⟩)
      exact ⟨r, by rw [heq]; exact h1, Outcome.newSlots hnoempty hnofree hok h2⟩
    · rw [if_neg hok] at heq
      exact ⟨_, heq, Outcome.noSlots hnoempty hnofree hok⟩

/-! ## Facts about every outcome -/

theorem direct_granted {s : SESSION} {size : Nat} {r : ScrAlloc} (h : Direct s size r)
    (hsize : size ≤ UINT32_MAX) (hret : r.ret = 0) : Granted r size := by
  cases h with
  | fit j hj hfit hfirst =>
    refine ⟨hfit.1.1, ⟨j, hj, rfl⟩, ?_, ?_, ?_, ?_⟩
    · simpa [lease] using hfit.2
    · simp [lease, u32_of_le hsize]
    · simp [lease]
    · simp [lease]
  | grown j hj hfree hfirst hnofit hok =>
    refine ⟨hfree.1, ⟨j, hj, rfl⟩, ?_, ?_, ?_, ?_⟩
    · simp [regrow, u32_of_le hsize]
    · simp [regrow, u32_of_le hsize]
    · simp [regrow]
    · simp [regrow]
  | stuck j hj hfree hnofit hok => simp [WT_ERROR] at hret

theorem outcome_granted {s : SESSION} {size : Nat} {r : ScrAlloc} (h : Outcome s size r)
    (hsize : size ≤ UINT32_MAX) (hret : r.ret = 0) : Granted r size := by
  induction h with
  | direct h => exact direct_granted h hsize hret
  | noBuf j hj hempty hnofree hok => simp [WT_ERROR] at hret
  | newBuf j hj hempty hfirst hnofree hok h ih => exact ih hsize hret
  | noSlots hnoempty hnofree hok => simp [WT_ERROR] at hret
  | newSlots hnoempty hnofree hok h ih => exact ih hsize hret

theorem outcome_null {s : SESSION} {size : Nat} {r : ScrAlloc} (h : Outcome s size r)
    (hret : r.ret ≠ 0) : r.scratchp = NULL := by
  induction h with
  | direct h =>
    cases h with
    | fit j hj hfit hfirst => simp at hret
    | grown j hj hfree hfirst hnofit hok => simp at hret
    | stuck j hj hfree hnofit hok => rfl
  | noBuf j hj hempty hnofree hok => rfl
  | newBuf j hj hempty hfirst hnofree hok h ih => exact ih hret
  | noSlots hnoempty hnofree hok => rfl
  | newSlots hnoempty hnofree hok h ih => exact ih hret

/-- The allocator's behaviour is not changed by a call, its request counter
does not decrease, and an error return comes from a refused request made
during the call. -/
theorem outcome_requests {s : SESSION} {size : Nat} {r : ScrAlloc} (h : Outcome s size r) :
    r.session.alloc.ok = s.alloc.ok ∧ s.alloc.calls ≤ r.session.alloc.calls ∧
    (r.ret ≠ 0 → ∃ k, s.alloc.calls ≤ k ∧ k < r.session.alloc.calls ∧ s.alloc.ok k = false) := by
  induction h with
  | @direct s size r h =>
    cases h with
    | fit j hj hfit hfirst => simp [lease]
    | grown j hj hfree hfirst hnofit hok => simp [regrow, Allocator.grant]
    | stuck j hj hfree hnofit hok =>
      refine ⟨rfl, by simp [refused, Allocator.deny], fun _ => ⟨s.alloc.calls, Nat.le_refl _, ?_, ?_⟩⟩
      · simp [refused, Allocator.deny]
      · simpa using hok
  | @noBuf s size j hj hempty hnofree hok =>
    refine ⟨rfl, by simp [refused, Allocator.deny], fun _ => ⟨s.alloc.calls, Nat.le_refl _, ?_, ?_⟩⟩
    · simp [refused, Allocator.deny]
    · simpa using hok
  | @newBuf s size r j hj hempty hfirst hnofree hok h ih =>
    obtain ⟨h1, h2, h3⟩ := ih
    have hc : (addBuf s j).alloc.calls = s.alloc.calls + 1 := rfl
    have ho : (addBuf s j).alloc.ok = s.alloc.ok := rfl
    rw [hc] at h2 h3; rw [ho] at h1 h3
    refine ⟨h1, by omega, fun hr => ?_⟩
    obtain ⟨k, k1, k2, k3⟩ := h3 hr
    exact ⟨k, by omega, k2, k3⟩
  | @noSlots s size hnoempty hnofree hok =>
    refine ⟨rfl, by simp [refused, Allocator.deny], fun _ => ⟨s.alloc.calls, Nat.le_refl _, ?_, ?_⟩⟩
    · simp [refused, Allocator.deny]
    · simpa using hok
  | @newSlots s size r hnoempty hnofree hok h ih =>
    obtain ⟨h1, h2, h3⟩ := ih
    have hc : (addSlots s).alloc.calls = s.alloc.calls + 1 := rfl
    have ho : (addSlots s).alloc.ok = s.alloc.ok := rfl
    rw [hc] at h2 h3; rw [ho] at h1 h3
    refine ⟨h1, by omega, fun hr => ?_⟩
    obtain ⟨k, k1, k2, k3⟩ := h3 hr
    exact ⟨k, by omega, k2, k3⟩

/-! ## Acquire: success and failure -/

/-- C1: for every pool state and every requested size (a `uint32_t`),
`__wt_scr_alloc` returns, and if every allocator request made during the call
succeeded it returns 0 with a non-null handle to a buffer held by a slot of the
pool, with `mem_size >= size`, `size` equal to the requested size,
`data == mem`, and the in-use flag set. -/
theorem scr_alloc_success (s : SESSION) (size fuel : Nat) (hsize : size ≤ UINT32_MAX)
    (hfuel : 3 ≤ fuel) :
    ∃ r, __wt_scr_alloc fuel s size = some r ∧
      ((∀ k, s.alloc.calls ≤ k → k < r.session.alloc.calls → s.alloc.ok k = true) →
        r.ret = 0 ∧ r.scratchp ≠ NULL ∧
        (∃ i, i < r.session.scratch_alloc ∧ r.session.slots i = r.scratchp) ∧
        size ≤ (r.session.bufs r.scratchp).mem_size ∧
        (r.session.bufs r.scratchp).size = size ∧
        (r.session.bufs r.scratchp).data = (r.session.bufs r.scratchp).mem ∧
        F_ISSET (r.session.bufs r.scratchp).flags WT_BUF_INUSE = true) := by
  obtain ⟨fuel, rfl⟩ : ∃ f, fuel = f + 3 := ⟨fuel - 3, by omega⟩
  obtain ⟨r, hr, hout⟩ := scr_alloc_outcome s size fuel
  refine ⟨r, hr, fun hall => ?_⟩
  have hret : r.ret = 0 := by
    by_contra hne
    obtain ⟨k, k1, k2, k3⟩ := (outcome_requests hout).2.2 hne
    have := hall k k1 k2
    simp [k3] at this
  exact ⟨hret, outcome_granted hout hsize hret⟩

/-- Witness of C1: a new pool with an allocator that grants every request,
asked for 100 bytes. -/
theorem scr_alloc_success_witness :
    (100 ≤ UINT32_MAX ∧ 3 ≤ 3) ∧
    ∃ r, __wt_scr_alloc 3 (SESSION.fresh Allocator.reliable) 100 = some r ∧
      r.ret = 0 ∧ r.scratchp ≠ NULL ∧
      (∃ i, i < r.session.scratch_alloc ∧ r.session.slots i = r.scratchp) ∧
      100 ≤ (r.session.bufs r.scratchp).mem_size ∧
      (r.session.bufs r.scratchp).size = 100 ∧
      (r.session.bufs r.scratchp).data = (r.session.bufs r.scratchp).mem ∧
      F_ISSET (r.session.bufs r.scratchp).flags WT_BUF_INUSE = true := by
  refine ⟨⟨by decide, by decide⟩, ?_⟩
  obtain ⟨r, hr, h⟩ :=
    scr_alloc_success (SESSION.fresh Allocator.reliable) 100 3 (by decide) (by decide)
  exact ⟨r, hr, h (fun _ _ _ => rfl)⟩

/-- C3: for every pool state, size and allocator behaviour, `__wt_scr_alloc`
returns, and whenever it returns an error the handle left in `*scratchp` is
`NULL`. -/
theorem scr_alloc_error_null (s : SESSION) (size fuel : Nat) (hfuel : 3 ≤ fuel) :
    ∃ r, __wt_scr_alloc fuel s size = some r ∧ (r.ret ≠ 0 → r.scratchp = NULL) := by
  obtain ⟨fuel, rfl⟩ : ∃ f, fuel = f + 3 := ⟨fuel - 3, by omega⟩
  obtain ⟨r, hr, hout⟩ := scr_alloc_outcome s size fuel
  exact ⟨r, hr, outcome_null hout⟩

/-! ## Acquire: the reuse rules -/

/-- C4 (rule 1, first fit): if slot `j` is the first slot in slot order holding
a not-in-use buffer with `mem_size >= size` (earlier slots may be empty, in use,
or hold free buffers that are too small), `__wt_scr_alloc` returns 0 with that
buffer, marks it in use, sets its `size` to the requested size, leaves its
`mem` and `mem_size` as they were, makes no allocator request (the allocator
state, request counter included, is unchanged), and changes neither the slot
array nor any other buffer; so no other free buffer is the one returned. -/
theorem scr_alloc_first_fit (s : SESSION) (size j fuel : Nat) (hsize : size ≤ UINT32_MAX)
    (hj : j < s.scratch_alloc) (hfit : fitsAt s size j)
    (hfirst : ∀ j', j' < j → ¬ fitsAt s size j') :
    ∃ r, __wt_scr_alloc (fuel + 1) s size = some r ∧ r.ret = 0 ∧ r.scratchp = s.slots j ∧
      F_ISSET (r.session.bufs (s.slots j)).flags WT_BUF_INUSE = true ∧
      (r.session.bufs (s.slots j)).size = size ∧
      (r.session.bufs (s.slots j)).mem_size = (s.bufs (s.slots j)).mem_size ∧
      (r.session.bufs (s.slots j)).mem = (s.bufs (s.slots j)).mem ∧
      r.session.alloc = s.alloc ∧
      r.session.scratch = s.scratch ∧ r.session.scratch_alloc = s.scratch_alloc ∧
      r.session.slots = s.slots ∧
      ∀ q, q ≠ s.slots j → r.session.bufs q = s.bufs q := by
  refine ⟨_, scr_alloc_fit s size j fuel hj hfit hfirst, rfl, rfl, ?_, ?_, ?_, ?_, rfl, rfl, rfl,
    rfl, ?_⟩
  · simp [lease]
  · simp [lease, u32_of_le hsize]
  · simp [lease]
  · simp [lease]
  · intro q hq
    simp [lease, upd_other _ _ _ _ hq]

/-- Witness of C4: with an undersized free buffer in slot 0, an empty slot 1,
a free buffer of capacity 200 in slot 2 and one of capacity 150 in slot 3, a
request for 100 bytes returns the buffer of slot 2. -/
theorem scr_alloc_first_fit_witness :
    (100 ≤ UINT32_MAX ∧ 2 < poolFit.scratch_alloc ∧ fitsAt poolFit 100 2 ∧
      ∀ j', j' < 2 → ¬ fitsAt poolFit 100 j') ∧
    ∃ r, __wt_scr_alloc 1 poolFit 100 = some r ∧ r.ret = 0 ∧ r.scratchp = 12 ∧
      (r.session.bufs 12).size = 100 ∧ (r.session.bufs 12).mem_size = 200 := by
  have h1 : 100 ≤ UINT32_MAX := by decide
  have h2 : 2 < poolFit.scratch_alloc := by decide
  have h3 : fitsAt poolFit 100 2 := by decide
  have h4 : ∀ j', j' < 2 → ¬ fitsAt poolFit 100 j' := by decide
  obtain ⟨r, hr, a1, a2, _, a4, a5, _⟩ := scr_alloc_first_fit poolFit 100 2 0 h1 h2 h3 h4
  exact ⟨⟨h1, h2, h3, h4⟩, r, hr, a1, a2, a4, a5⟩

/-- C5 (rule 2, growth on shortfall): if no not-in-use buffer has
`mem_size >= size` and slot `j` is the first slot holding a not-in-use buffer,
then, the reallocation being granted, `__wt_scr_alloc` returns 0 with that
buffer, grown (`mem_size >= size`, `size` equal to the requested size,
`data == mem`) and marked in use; the slot count and the slot array are
unchanged, so no buffer is created, whether or not empty slots exist; one
allocator request is made and no other buffer changes. -/
theorem scr_alloc_grow (s : SESSION) (size j fuel : Nat) (hsize : size ≤ UINT32_MAX)
    (hj : j < s.scratch_alloc) (hfree : freeAt s j) (hfirst : ∀ j', j' < j → ¬ freeAt s j')
    (hnofit : ∀ j', j' < s.scratch_alloc → ¬ fitsAt s size j')
    (hok : s.alloc.ok s.alloc.calls = true) :
    ∃ r, __wt_scr_alloc (fuel + 1) s size = some r ∧ r.ret = 0 ∧ r.scratchp = s.slots j ∧
      F_ISSET (r.session.bufs (s.slots j)).flags WT_BUF_INUSE = true ∧
      size ≤ (r.session.bufs (s.slots j)).mem_size ∧
      (r.session.bufs (s.slots j)).size = size ∧
      (r.session.bufs (s.slots j)).data = (r.session.bufs (s.slots j)).mem ∧
      r.session.scratch = s.scratch ∧ r.session.scratch_alloc = s.scratch_alloc ∧
      r.session.slots = s.slots ∧
      r.session.alloc.calls = s.alloc.calls + 1 ∧
      ∀ q, q ≠ s.slots j → r.session.bufs q = s.bufs q := by
  have heq := scr_alloc_small s size j fuel hj hfree hfirst hnofit
  rw [if_pos hok] at heq
  refine ⟨_, heq, rfl, rfl, ?_, ?_, ?_, ?_, rfl, rfl, rfl, rfl, ?_⟩
  · simp [regrow]
  · simp [regrow, u32_of_le hsize]
  · simp [regrow, u32_of_le hsize]
  · simp [regrow]
  · intro q hq
    simp [regrow, upd_other _ _ _ _ hq]

/-- Witness of C5: with slot 0 empty and a free buffer of capacity 50 in slot 1,
a request for 100 bytes grows that buffer instead of filling the empty slot. -/
theorem scr_alloc_grow_witness :
    (100 ≤ UINT32_MAX ∧ 1 < poolSmall.scratch_alloc ∧ freeAt poolSmall 1 ∧
      (∀ j', j' < 1 → ¬ freeAt poolSmall j') ∧
      (∀ j', j' < poolSmall.scratch_alloc → ¬ fitsAt poolSmall 100 j') ∧
      poolSmall.alloc.ok poolSmall.alloc.calls = true) ∧
    ∃ r, __wt_scr_alloc 1 poolSmall 100 = some r ∧ r.ret = 0 ∧ r.scratchp = 11 ∧
      100 ≤ (r.session.bufs 11).mem_size ∧ (r.session.bufs 11).size = 100 ∧
      r.session.slots 0 = NULL := by
  have h1 : 100 ≤ UINT32_MAX := by decide
  have h2 : 1 < poolSmall.scratch_alloc := by decide
  have h3 : freeAt poolSmall 1 := by decide
  have h4 : ∀ j', j' < 1 → ¬ freeAt poolSmall j' := by decide
  have h5 : ∀ j', j' < poolSmall.scratch_alloc → ¬ fitsAt poolSmall 100 j' := by decide
  have h6 : poolSmall.alloc.ok poolSmall.alloc.calls = true := by decide
  obtain ⟨r, hr, a1, a2, _, a4, a5, _, _, _, a9, _⟩ :=
    scr_alloc_grow poolSmall 100 1 0 h1 h2 h3 h4 h5 h6
  exact ⟨⟨h1, h2, h3, h4, h5, h6⟩, r, hr, a1, a2, a4, a5, by rw [a9]; rfl⟩

/-- Witness of C3: a new pool whose allocator refuses every request; the call
returns an error and a `NULL` handle. -/
theorem scr_alloc_error_null_witness :
    3 ≤ 3 ∧ ∃ r, __wt_scr_alloc 3 (SESSION.fresh Allocator.broken) 100 = some r ∧
      r.ret ≠ 0 ∧ r.scratchp = NULL := by
  obtain ⟨r, hr, h⟩ := scr_alloc_error_null (SESSION.fresh Allocator.broken) 100 3 (by decide)
  have hret : r.ret ≠ 0 := by
    have h2 : __wt_scr_alloc 3 (SESSION.fresh Allocator.broken) 100 =
        some { ret := WT_ERROR, scratchp := NULL, session := refused (SESSION.fresh Allocator.broken) } :=
      rfl
    rw [h2] at hr
    injection hr with hr
    rw [← hr]; decide
  exact ⟨by decide, r, hr, hret, h hret⟩

/-- After a buffer is created in slot `j` of a pool without free buffers, the
repeated call hands out that buffer. -/
theorem scr_alloc_addBuf (s : SESSION) (size j fuel : Nat) (hj : j < s.scratch_alloc)
    (hnofree : ∀ j', j' < s.scratch_alloc → ¬ freeAt s j')
    (hok : size ≠ 0 → s.alloc.ok (s.alloc.calls + 1) = true) :
    __wt_scr_alloc (fuel + 1) (addBuf s j) size =
      some { ret := 0, scratchp := s.alloc.top + 1, session := firstUse s j size } := by
  have hnew : ∀ i, i < s.scratch_alloc → freeAt (addBuf s j) i →
      (addBuf s j).slots i = s.alloc.top + 1 := by
    intro i hi hf
    by_contra hne
    have hij : i ≠ j := by
      intro h; subst h; simp [addBuf] at hne
    have hsl : (addBuf s j).slots i = s.slots i := by simp [addBuf, upd_other _ _ _ _ hij]
    rw [hsl] at hne
    apply hnofree i hi
    have hb : (addBuf s j).bufs (s.slots i) = s.bufs (s.slots i) := by
      simp [addBuf, upd_other _ _ _ _ hne]
    simpa [freeAt, hsl, hb] using hf
  have hcap : ((addBuf s j).bufs (s.alloc.top + 1)).mem_size = 0 := by
    simp [addBuf, WT_BUF.zero]
  obtain ⟨j0, hj0, hf0, hfirst0⟩ := exists_first (fun i => freeAt (addBuf s j) i)
    (addBuf s j).scratch_alloc ⟨j, hj, freeAt_addBuf s j⟩
  have hp : (addBuf s j).slots j0 = s.alloc.top + 1 := hnew j0 hj0 hf0
  by_cases hz : size = 0
  · have hfit : fitsAt (addBuf s j) size j0 := ⟨hf0, by omega⟩
    have heq := scr_alloc_fit (addBuf s j) size j0 fuel hj0 hfit (fun j' h1 h2 => hfirst0 j' h1 h2.1)
    rw [heq, hp]
    simp [firstUse, hz]
  · have hnofit : ∀ j', j' < (addBuf s j).scratch_alloc → ¬ fitsAt (addBuf s j) size j' := by
      intro j' h1 h2
      have := hnew j' h1 h2.1
      have hle := h2.2
      rw [this, hcap] at hle
      omega
    have heq := scr_alloc_small (addBuf s j) size j0 fuel hj0 hf0 hfirst0 hnofit
    have hok1 : (addBuf s j).alloc.ok (addBuf s j).alloc.calls = true := hok hz
    rw [if_pos hok1] at heq
    rw [heq, hp]
    simp [firstUse, hz]

/-- Fields of the buffer handed out by `firstUse`, and what it leaves alone. -/
theorem firstUse_facts (s : SESSION) (j size : Nat) (hsize : size ≤ UINT32_MAX) :
    ((firstUse s j size).bufs (s.alloc.top + 1)).mem_size = size ∧
    ((firstUse s j size).bufs (s.alloc.top + 1)).size = size ∧
    ((firstUse s j size).bufs (s.alloc.top + 1)).data =
      ((firstUse s j size).bufs (s.alloc.top + 1)).mem ∧
    F_ISSET ((firstUse s j size).bufs (s.alloc.top + 1)).flags WT_BUF_INUSE = true ∧
    (firstUse s j size).scratch_alloc = s.scratch_alloc ∧
    (firstUse s j size).scratch = s.scratch ∧
    (firstUse s j size).slots = upd s.slots j (s.alloc.top + 1) ∧
    (∀ q, q ≠ s.alloc.top + 1 → (firstUse s j size).bufs q = s.bufs q) := by
  by_cases hz : size = 0
  · subst hz
    refine ⟨?_, ?_, ?_, ?_, ?_, ?_, ?_, ?_⟩ <;>
      simp [firstUse, lease, addBuf, u32, WT_BUF.zero]
    intro q hq; simp [upd_other _ _ _ _ hq]
  · refine ⟨?_, ?_, ?_, ?_, ?_, ?_, ?_, ?_⟩ <;>
      simp [firstUse, hz, regrow, addBuf, u32_of_le hsize, Allocator.grant]
    intro q hq; simp [upd_other _ _ _ _ hq]

/-- C7 (rule 3, empty-slot reuse): if no slot holds a not-in-use buffer and
slot `j` is the first empty slot, then, the allocator granting the (at most
two) requests, `__wt_scr_alloc` stores a new zeroed buffer in slot `j` and
repeats the call on that session; the repeated call returns exactly the new
buffer (the address `top + 1` just handed out, now in slot `j`) with
`mem_size >= size`, `size` equal to the requested size, `data == mem` and the
in-use flag set.  The slot count is unchanged, no other slot changes, and no
buffer that existed before changes. -/
theorem scr_alloc_empty_slot (s : SESSION) (size j fuel : Nat) (hsize : size ≤ UINT32_MAX)
    (hj : j < s.scratch_alloc) (hempty : s.slots j = NULL)
    (hfirst : ∀ j', j' < j → s.slots j' ≠ NULL)
    (hnofree : ∀ j', j' < s.scratch_alloc → ¬ freeAt s j')
    (hok : ∀ k, k < 2 → s.alloc.ok (s.alloc.calls + k) = true) :
    ∃ r, __wt_scr_alloc (fuel + 2) s size = some r ∧
      __wt_scr_alloc (fuel + 2) s size = __wt_scr_alloc (fuel + 1) (addBuf s j) size ∧
      (addBuf s j).slots j = s.alloc.top + 1 ∧
      (addBuf s j).bufs (s.alloc.top + 1) = WT_BUF.zero ∧
      r.ret = 0 ∧ r.scratchp = s.alloc.top + 1 ∧ r.session.slots j = r.scratchp ∧
      size ≤ (r.session.bufs r.scratchp).mem_size ∧
      (r.session.bufs r.scratchp).size = size ∧
      (r.session.bufs r.scratchp).data = (r.session.bufs r.scratchp).mem ∧
      F_ISSET (r.session.bufs r.scratchp).flags WT_BUF_INUSE = true ∧
      r.session.scratch_alloc = s.scratch_alloc ∧
      (∀ i, i ≠ j → r.session.slots i = s.slots i) ∧
      (∀ q, q ≠ s.alloc.top + 1 → r.session.bufs q = s.bufs q) := by
  have h0 : s.alloc.ok s.alloc.calls = true := by simpa using hok 0 (by omega)
  have h1 : s.alloc.ok (s.alloc.calls + 1) = true := hok 1 (by omega)
  have hstep := scr_alloc_empty s size j (fuel + 1) hj hempty hfirst hnofree
  rw [if_pos h0] at hstep
  have hret := scr_alloc_addBuf s size j fuel hj hnofree (fun _ => h1)
  obtain ⟨f1, f2, f3, f4, f5, _, f7, f8⟩ := firstUse_facts s j size hsize
  refine ⟨_, hstep.trans hret, hstep, by simp [addBuf], by simp [addBuf], rfl, rfl, ?_,
    Nat.le_of_eq f1.symm, f2, f3, f4, f5, ?_, f8⟩
  · show (firstUse s j size).slots j = s.alloc.top + 1
    rw [f7]; simp
  · intro i hi
    show (firstUse s j size).slots i = s.slots i
    rw [f7]; exact upd_other _ _ _ _ hi

/-- Witness of C7: slots 0 and 2 hold buffers in use, slot 1 is empty; a
request for 100 bytes creates the buffer in slot 1. -/
theorem scr_alloc_empty_slot_witness :
    (100 ≤ UINT32_MAX ∧ 1 < poolBusy.scratch_alloc ∧ poolBusy.slots 1 = NULL ∧
      (∀ j', j' < 1 → poolBusy.slots j' ≠ NULL) ∧
      (∀ j', j' < poolBusy.scratch_alloc → ¬ freeAt poolBusy j') ∧
      (∀ k, k < 2 → poolBusy.alloc.ok (poolBusy.alloc.calls + k) = true)) ∧
    ∃ r, __wt_scr_alloc 2 poolBusy 100 = some r ∧ r.ret = 0 ∧ r.scratchp = 31 ∧
      r.session.slots 1 = 31 ∧ (r.session.bufs 31).size = 100 ∧
      r.session.scratch_alloc = 3 := by
  have h1 : 100 ≤ UINT32_MAX := by decide
  have h2 : 1 < poolBusy.scratch_alloc := by decide
  have h3 : poolBusy.slots 1 = NULL := by decide
  have h4 : ∀ j', j' < 1 → poolBusy.slots j' ≠ NULL := by decide
  have h5 : ∀ j', j' < poolBusy.scratch_alloc → ¬ freeAt poolBusy j' := by decide
  have h6 : ∀ k, k < 2 → poolBusy.alloc.ok (poolBusy.alloc.calls + k) = true := by decide
  obtain ⟨r, hr, _, _, _, a1, a2, a3, _, a5, _, _, a8, _⟩ :=
    scr_alloc_empty_slot poolBusy 100 1 0 h1 h2 h3 h4 h5 h6
  have hp : r.scratchp = 31 := a2
  rw [hp] at a3 a5
  exact ⟨⟨h1, h2, h3, h4, h5, h6⟩, r, hr, a1, hp, a3, a5, a8⟩

/-- Result of a call on a pool without free buffers and without empty slots,
the allocator granting the requests: the array is grown, a buffer is created
in the first new slot and handed out. -/
theorem scr_alloc_full_result (s : SESSION) (size fuel : Nat)
    (hnoempty : ∀ j', j' < s.scratch_alloc → s.slots j' ≠ NULL)
    (hnofree : ∀ j', j' < s.scratch_alloc → ¬ freeAt s j')
    (hok : ∀ k, k < 3 → s.alloc.ok (s.alloc.calls + k) = true) :
    __wt_scr_alloc (fuel + 3) s size =
      some { ret := 0, scratchp := s.alloc.top + 2,
             session := firstUse (addSlots s) s.scratch_alloc size } := by
  have h0 : s.alloc.ok s.alloc.calls = true := by simpa using hok 0 (by omega)
  have h1 : s.alloc.ok (s.alloc.calls + 1) = true := hok 1 (by omega)
  have h2 : s.alloc.ok (s.alloc.calls + 1 + 1) = true := hok 2 (by omega)
  have hstep1 := scr_alloc_full s size (fuel + 2) hnoempty hnofree
  rw [if_pos h0] at hstep1
  have hn : s.scratch_alloc < (addSlots s).scratch_alloc := by simp [addSlots]
  have hnofree1 : ∀ j', j' < (addSlots s).scratch_alloc → ¬ freeAt (addSlots s) j' :=
    fun j' _ => not_freeAt_addSlots s hnofree j'
  have hstep2 := scr_alloc_empty (addSlots s) size s.scratch_alloc (fuel + 1) hn
    (by simp [addSlots])
    (fun j' hj' => by simpa [addSlots, hj'] using hnoempty j' hj') hnofree1
  rw [if_pos (show (addSlots s).alloc.ok (addSlots s).alloc.calls = true from h1)] at hstep2
  have hret := scr_alloc_addBuf (addSlots s) size s.scratch_alloc fuel hn hnofree1
    (fun _ => show (addSlots s).alloc.ok ((addSlots s).alloc.calls + 1) = true from h2)
  exact (hstep1.trans hstep2).trans hret

/-- C6 (rule 4, slot exhaustion): for every pool of `n` slots none of which is
empty or holds a not-in-use buffer (`n = 0` included), with the allocator
granting the (at most three) requests, `__wt_scr_alloc` returns 0, the slot
count becomes `n + 10`, the first new slot holds the returned buffer
(`mem_size >= size`, `size` equal to the requested size, `data == mem`, in
use), the other nine new slots are empty, the `n` old slots hold what they
held, and no record at an address handed out before the call changes. -/
theorem scr_alloc_exhausted (s : SESSION) (size fuel : Nat) (hsize : size ≤ UINT32_MAX)
    (hnoempty : ∀ j', j' < s.scratch_alloc → s.slots j' ≠ NULL)
    (hnofree : ∀ j', j' < s.scratch_alloc → ¬ freeAt s j')
    (hok : ∀ k, k < 3 → s.alloc.ok (s.alloc.calls + k) = true) :
    ∃ r, __wt_scr_alloc (fuel + 3) s size = some r ∧ r.ret = 0 ∧
      r.session.scratch_alloc = s.scratch_alloc + 10 ∧
      r.scratchp ≠ NULL ∧ r.session.slots s.scratch_alloc = r.scratchp ∧
      (∀ i, s.scratch_alloc < i → i < s.scratch_alloc + 10 → r.session.slots i = NULL) ∧
      (∀ i, i < s.scratch_alloc → r.session.slots i = s.slots i) ∧
      size ≤ (r.session.bufs r.scratchp).mem_size ∧
      (r.session.bufs r.scratchp).size = size ∧
      (r.session.bufs r.scratchp).data = (r.session.bufs r.scratchp).mem ∧
      F_ISSET (r.session.bufs r.scratchp).flags WT_BUF_INUSE = true ∧
      (∀ q, q ≤ s.alloc.top → r.session.bufs q = s.bufs q) := by
  obtain ⟨f1, f2, f3, f4, f5, _, f7, f8⟩ := firstUse_facts (addSlots s) s.scratch_alloc size hsize
  have htop : (addSlots s).alloc.top + 1 = s.alloc.top + 2 := rfl
  refine ⟨_, scr_alloc_full_result s size fuel hnoempty hnofree hok, rfl, f5, ?_, ?_, ?_, ?_,
    Nat.le_of_eq f1.symm, f2, f3, f4, ?_⟩
  · exact Nat.succ_ne_zero (s.alloc.top + 1)
  · show (firstUse (addSlots s) s.scratch_alloc size).slots s.scratch_alloc = s.alloc.top + 2
    rw [f7, upd_same]
    exact htop
  · intro i hi1 hi2
    show (firstUse (addSlots s) s.scratch_alloc size).slots i = NULL
    rw [f7, upd_other _ _ _ _ (by omega)]
    have : ¬ i < s.scratch_alloc := by omega
    simp [addSlots, this]
  · intro i hi
    show (firstUse (addSlots s) s.scratch_alloc size).slots i = s.slots i
    rw [f7, upd_other _ _ _ _ (by omega)]
    simp [addSlots, hi]
  · intro q hq
    show (firstUse (addSlots s) s.scratch_alloc size).bufs q = s.bufs q
    rw [f8 q (by rw [htop]; omega)]
    rfl

/-- Witness of C6: the empty pool asked for 100 bytes (ten slots, the buffer
in slot 0), and a pool of two busy slots asked for 100 bytes (twelve slots,
the buffer in slot 2). -/
theorem scr_alloc_exhausted_witness :
    (∃ r, __wt_scr_alloc 3 (SESSION.fresh Allocator.reliable) 100 = some r ∧ r.ret = 0 ∧
      r.session.scratch_alloc = 10 ∧ r.session.slots 0 = r.scratchp ∧ r.scratchp ≠ NULL ∧
      (∀ i, 0 < i → i < 10 → r.session.slots i = NULL) ∧
      100 ≤ (r.session.bufs r.scratchp).mem_size ∧ (r.session.bufs r.scratchp).size = 100) ∧
    (∀ j', j' < poolFull.scratch_alloc → poolFull.slots j' ≠ NULL) ∧
    (∀ j', j' < poolFull.scratch_alloc → ¬ freeAt poolFull j') ∧
    ∃ r, __wt_scr_alloc 3 poolFull 100 = some r ∧ r.ret = 0 ∧
      r.session.scratch_alloc = 12 ∧ r.session.slots 2 = r.scratchp ∧
      r.session.slots 0 = 11 ∧ r.session.slots 1 = 12 := by
  have g1 : ∀ j', j' < poolFull.scratch_alloc → poolFull.slots j' ≠ NULL := by decide
  have g2 : ∀ j', j' < poolFull.scratch_alloc → ¬ freeAt poolFull j' := by decide
  refine ⟨?_, g1, g2, ?_⟩
  · obtain ⟨r, hr, a1, a2, a3, a4, a5, _, a7, a8, _⟩ :=
      scr_alloc_exhausted (SESSION.fresh Allocator.reliable) 100 0 (by decide)
        (by intro j' h; exact absurd h (Nat.not_lt_zero j'))
        (by intro j' h; exact absurd h (Nat.not_lt_zero j'))
        (fun _ _ => rfl)
    exact ⟨r, hr, a1, a2, a4, a3, fun i h1 h2 => a5 i h1 (by simpa using h2), a7, a8⟩
  · obtain ⟨r, hr, a1, a2, _, a4, _, a6, _⟩ :=
      scr_alloc_exhausted poolFull 100 0 (by decide) g1 g2 (fun _ _ => rfl)
    exact ⟨r, hr, a1, a2, a4, a6 0 (by decide), a6 1 (by decide)⟩

/-! ## Release -/

/-- Clearing the in-use bit leaves the other 31 flag bits as they were. -/
theorem F_CLR_testBit (f k : Nat) (hk : k ≠ 0) (hk32 : k < 32) :
    (F_CLR f WT_BUF_INUSE).testBit k = f.testBit k := by
  have h : (UINT32_MAX ^^^ WT_BUF_INUSE).testBit k = true := by
    have hk1 : 0 < k := Nat.pos_of_ne_zero hk
    interval_cases k <;> decide
  simp [F_CLR, Nat.testBit_and, h]

/-- C9: `__wt_scr_release` on a non-null handle clears the in-use flag of the
buffer the handle refers to and leaves `NULL` in the handle; the buffer's
`mem`, `mem_size`, `data` and `size` and its other flag bits are retained,
every other buffer is unchanged, and so are the slot array, the slot count
and the allocator state. -/
theorem scr_release_frame (s : SESSION) (bufp : Nat) (_hnn : bufp ≠ NULL) :
    (__wt_scr_release s bufp).1 = NULL ∧
    F_ISSET ((__wt_scr_release s bufp).2.bufs bufp).flags WT_BUF_INUSE = false ∧
    (∀ k, k ≠ 0 → k < 32 →
      ((__wt_scr_release s bufp).2.bufs bufp).flags.testBit k = (s.bufs bufp).flags.testBit k) ∧
    ((__wt_scr_release s bufp).2.bufs bufp).mem = (s.bufs bufp).mem ∧
    ((__wt_scr_release s bufp).2.bufs bufp).mem_size = (s.bufs bufp).mem_size ∧
    ((__wt_scr_release s bufp).2.bufs bufp).data = (s.bufs bufp).data ∧
    ((__wt_scr_release s bufp).2.bufs bufp).size = (s.bufs bufp).size ∧
    (∀ q, q ≠ bufp → (__wt_scr_release s bufp).2.bufs q = s.bufs q) ∧
    (__wt_scr_release s bufp).2.scratch = s.scratch ∧
    (__wt_scr_release s bufp).2.scratch_alloc = s.scratch_alloc ∧
    (__wt_scr_release s bufp).2.slots = s.slots ∧
    (__wt_scr_release s bufp).2.alloc = s.alloc := by
  refine ⟨rfl, ?_, ?_, ?_, ?_, ?_, ?_, ?_, rfl, rfl, rfl, rfl⟩
  · simp [__wt_scr_release]
  · intro k hk hk32
    simp [__wt_scr_release, F_CLR_testBit _ _ hk hk32]
  · simp [__wt_scr_release]
  · simp [__wt_scr_release]
  · simp [__wt_scr_release]
  · simp [__wt_scr_release]
  · intro q hq
    simp [__wt_scr_release, upd_other _ _ _ _ hq]

/-- Witness of C9: releasing the buffer at address 11 of a pool whose buffers
are all in use. -/
theorem scr_release_frame_witness :
    (11 : Nat) ≠ NULL ∧ (__wt_scr_release poolBusy 11).1 = NULL ∧
    F_ISSET (poolBusy.bufs 11).flags WT_BUF_INUSE = true ∧
    F_ISSET ((__wt_scr_release poolBusy 11).2.bufs 11).flags WT_BUF_INUSE = false ∧
    ((__wt_scr_release poolBusy 11).2.bufs 11).mem_size = 50 := by
  have h : (11 : Nat) ≠ NULL := by decide
  obtain ⟨a1, a2, _, _, a5, _⟩ := scr_release_frame poolBusy 11 h
  exact ⟨h, a1, by decide, a2, a5⟩

/-! ## Acquire, release, acquire on a new pool -/

theorem firstUse_alloc_ok (s : SESSION) (j size : Nat) :
    (firstUse s j size).alloc.ok = s.alloc.ok := by
  unfold firstUse
  split <;> rfl

/-- C8: on an empty pool with an allocator granting every request, for all
sizes `a` and `b` (both `uint32_t`), `h = acquire(a)`, `release(h)`,
`acquire(b)` returns the same buffer again, with `size == b` and in use; the
pool still has ten slots of which only slot 0 holds a buffer.  When `b <= a`
the second call leaves `mem` and `mem_size` as they were and makes no allocator
request; when `b > a` the buffer is grown to `mem_size >= b`. -/
theorem scr_reuse_after_release (s : SESSION) (a b fuel : Nat) (hempty : s.scratch_alloc = 0)
    (ha : a ≤ UINT32_MAX) (hb : b ≤ UINT32_MAX) (hfuel : 3 ≤ fuel)
    (hok : ∀ k, s.alloc.ok k = true) :
    ∃ r1 r2, __wt_scr_alloc fuel s a = some r1 ∧ r1.ret = 0 ∧
      a ≤ (r1.session.bufs r1.scratchp).mem_size ∧
      __wt_scr_alloc fuel (__wt_scr_release r1.session r1.scratchp).2 b = some r2 ∧
      r2.ret = 0 ∧ r2.scratchp = r1.scratchp ∧
      (r2.session.bufs r2.scratchp).size = b ∧
      F_ISSET (r2.session.bufs r2.scratchp).flags WT_BUF_INUSE = true ∧
      r2.session.scratch_alloc = 10 ∧ r2.session.slots 0 = r2.scratchp ∧
      (∀ i, 0 < i → i < 10 → r2.session.slots i = NULL) ∧
      (b ≤ a →
        (r2.session.bufs r2.scratchp).mem_size = (r1.session.bufs r1.scratchp).mem_size ∧
        (r2.session.bufs r2.scratchp).mem = (r1.session.bufs r1.scratchp).mem ∧
        r2.session.alloc = r1.session.alloc) ∧
      (a < b → b ≤ (r2.session.bufs r2.scratchp).mem_size) := by
  obtain ⟨fuel, rfl⟩ : ∃ f, fuel = f + 3 := ⟨fuel - 3, by omega⟩
  have hne : ∀ j', j' < s.scratch_alloc → s.slots j' ≠ NULL := by
    intro j' h; rw [hempty] at h; exact absurd h (Nat.not_lt_zero j')
  have hnf : ∀ j', j' < s.scratch_alloc → ¬ freeAt s j' := by
    intro j' h; rw [hempty] at h; exact absurd h (Nat.not_lt_zero j')
  have h1 := scr_alloc_full_result s a fuel hne hnf (fun k _ => hok _)
  rw [hempty] at h1
  obtain ⟨f1, _, _, _, f5, _, f7, _⟩ := firstUse_facts (addSlots s) 0 a ha
  have f1 : ((firstUse (addSlots s) 0 a).bufs (s.alloc.top + 2)).mem_size = a := f1
  have f7 : (firstUse (addSlots s) 0 a).slots = upd (addSlots s).slots 0 (s.alloc.top + 2) := f7
  have e_n : (__wt_scr_release (firstUse (addSlots s) 0 a) (s.alloc.top + 2)).2.scratch_alloc = 10 := by
    show (firstUse (addSlots s) 0 a).scratch_alloc = 10
    rw [f5]; simp [addSlots, hempty]
  have e_buf : (__wt_scr_release (firstUse (addSlots s) 0 a) (s.alloc.top + 2)).2.bufs
      (s.alloc.top + 2) =
      { (firstUse (addSlots s) 0 a).bufs (s.alloc.top + 2) with
        flags := F_CLR ((firstUse (addSlots s) 0 a).bufs (s.alloc.top + 2)).flags WT_BUF_INUSE } := by
    simp [__wt_scr_release]
  have e_sl0 : (__wt_scr_release (firstUse (addSlots s) 0 a) (s.alloc.top + 2)).2.slots 0 =
      s.alloc.top + 2 := by
    show (firstUse (addSlots s) 0 a).slots 0 = s.alloc.top + 2
    rw [f7, upd_same]
  have e_sli : ∀ i, i ≠ 0 →
      (__wt_scr_release (firstUse (addSlots s) 0 a) (s.alloc.top + 2)).2.slots i = NULL := by
    intro i hi
    show (firstUse (addSlots s) 0 a).slots i = NULL
    rw [f7, upd_other _ _ _ _ hi]
    simp [addSlots, hempty]
  have e_ok : (__wt_scr_release (firstUse (addSlots s) 0 a) (s.alloc.top + 2)).2.alloc.ok =
      s.alloc.ok := firstUse_alloc_ok (addSlots s) 0 a
  generalize hs4 : (__wt_scr_release (firstUse (addSlots s) 0 a) (s.alloc.top + 2)).2 = s4
    at e_n e_buf e_sl0 e_sli e_ok
  have hfree : freeAt s4 0 := by
    refine ⟨by rw [e_sl0]; exact Nat.succ_ne_zero _, ?_⟩
    rw [e_sl0, e_buf]; simp
  have hcap : (s4.bufs (s4.slots 0)).mem_size = a := by rw [e_sl0, e_buf]; exact f1
  have hmem : (s4.bufs (s4.slots 0)).mem = ((firstUse (addSlots s) 0 a).bufs (s.alloc.top + 2)).mem := by
    rw [e_sl0, e_buf]
  by_cases hba : b ≤ a
  · have hfit : fitsAt s4 b 0 := ⟨hfree, by rw [hcap]; exact hba⟩
    have h2 := scr_alloc_fit s4 b 0 (fuel + 2) (by rw [e_n]; omega) hfit
      (fun j' h => absurd h (Nat.not_lt_zero j'))
    refine ⟨_, _, h1, rfl, Nat.le_of_eq f1.symm, by rw [hs4]; exact h2, rfl, e_sl0, ?_, ?_, e_n,
      rfl, ?_, ?_, ?_⟩
    · simp [lease, u32_of_le hb]
    · simp [lease]
    · intro i h1 _
      exact e_sli i (by omega)
    · intro _
      refine ⟨?_, ?_, ?_⟩
      · show ((lease s4 b (s4.slots 0)).bufs (s4.slots 0)).mem_size = _
        rw [f1, ← hcap]; simp [lease]
      · show ((lease s4 b (s4.slots 0)).bufs (s4.slots 0)).mem = _
        rw [← hmem]; simp [lease]
      · rw [← hs4]; rfl
    · intro hab; omega
  · have hnofit : ∀ j', j' < s4.scratch_alloc → ¬ fitsAt s4 b j' := by
      intro j' _ hf
      by_cases hj0 : j' = 0
      · subst hj0
        have := hf.2
        rw [hcap] at this
        exact hba this
      · exact hf.1.1 (e_sli j' hj0)
    have h2 := scr_alloc_small s4 b 0 (fuel + 2) (by rw [e_n]; omega) hfree
      (fun j' h => absurd h (Nat.not_lt_zero j')) hnofit
    rw [if_pos (by rw [e_ok]; exact hok _)] at h2
    refine ⟨_, _, h1, rfl, Nat.le_of_eq f1.symm, by rw [hs4]; exact h2, rfl, e_sl0, ?_, ?_, e_n,
      rfl, ?_, ?_, ?_⟩
    · simp [regrow, u32_of_le hb]
    · simp [regrow]
    · intro i h1 _
      exact e_sli i (by omega)
    · intro h; exact absurd h hba
    · intro _
      simp [regrow, u32_of_le hb]

/-- Witness of C8: `(a, b) = (100, 50)` and `(a, b) = (100, 500)` on a new pool. -/
theorem scr_reuse_after_release_witness :
    (∃ r1 r2, __wt_scr_alloc 3 (SESSION.fresh Allocator.reliable) 100 = some r1 ∧
      __wt_scr_alloc 3 (__wt_scr_release r1.session r1.scratchp).2 50 = some r2 ∧
      r2.scratchp = r1.scratchp ∧ (r2.session.bufs r2.scratchp).size = 50 ∧
      (r2.session.bufs r2.scratchp).mem_size = (r1.session.bufs r1.scratchp).mem_size ∧
      100 ≤ (r2.session.bufs r2.scratchp).mem_size) ∧
    (∃ r1 r2, __wt_scr_alloc 3 (SESSION.fresh Allocator.reliable) 100 = some r1 ∧
      __wt_scr_alloc 3 (__wt_scr_release r1.session r1.scratchp).2 500 = some r2 ∧
      r2.scratchp = r1.scratchp ∧ (r2.session.bufs r2.scratchp).size = 500 ∧
      500 ≤ (r2.session.bufs r2.scratchp).mem_size) := by
  constructor
  · obtain ⟨r1, r2, h1, _, h3, h4, _, h6, h7, _, _, _, _, h12, _⟩ :=
      scr_reuse_after_release (SESSION.fresh Allocator.reliable) 100 50 3 rfl (by decide)
        (by decide) (by decide) (fun _ => rfl)
    have hm := (h12 (by decide)).1
    exact ⟨r1, r2, h1, h4, h6, h7, hm, by rw [hm]; exact h3⟩
  · obtain ⟨r1, r2, h1, _, _, h4, _, h6, h7, _, _, _, _, _, h13⟩ :=
      scr_reuse_after_release (SESSION.fresh Allocator.reliable) 100 500 3 rfl (by decide)
        (by decide) (by decide) (fun _ => rfl)
    exact ⟨r1, r2, h1, h4, h6, h7, h13 (by decide)⟩

/-! ## Exclusivity -/

/-- What a call may change: slots are only added or filled, addresses handed
out only grow, records at addresses handed out before the call are unchanged
except the one returned, and a returned buffer that existed before the call
was held by a slot and not in use. -/
theorem outcome_frame {s : SESSION} {size : Nat} {r : ScrAlloc} (h : Outcome s size r) :
    s.scratch_alloc ≤ r.session.scratch_alloc ∧
    (∀ i, i < s.scratch_alloc → s.slots i ≠ NULL → r.session.slots i = s.slots i) ∧
    s.alloc.top ≤ r.session.alloc.top ∧
    (Allocated s → Allocated r.session) ∧
    (∀ q, q ≠ r.scratchp → q ≤ s.alloc.top → r.session.bufs q = s.bufs q) ∧
    (r.ret = 0 → r.scratchp ≤ s.alloc.top →
      ∃ i, i < s.scratch_alloc ∧ s.slots i = r.scratchp ∧ freeAt s i) := by
  induction h with
  | @direct s size r h =>
    cases h with
    | fit j hj hfit hfirst =>
      refine ⟨Nat.le_refl _, fun _ _ _ => rfl, Nat.le_refl _, fun h => h, ?_, ?_⟩
      · intro q hq _
        simp [lease, upd_other _ _ _ _ hq]
      · intro _ _
        exact ⟨j, hj, rfl, hfit.1⟩
    | grown j hj hfree hfirst hnofit hok =>
      refine ⟨Nat.le_refl _, fun _ _ _ => rfl, by simp [regrow, Allocator.grant], ?_, ?_, ?_⟩
      · intro hA i hi
        have := hA i hi
        simp only [regrow, Allocator.grant]
        omega
      · intro q hq _
        simp [regrow, upd_other _ _ _ _ hq]
      · intro _ _
        exact ⟨j, hj, rfl, hfree⟩
    | stuck j hj hfree hnofit hok =>
      exact ⟨Nat.le_refl _, fun _ _ _ => rfl, Nat.le_refl _, fun h => h, fun _ _ _ => rfl,
        fun h => by simp [WT_ERROR] at h⟩
  | @noBuf s size j hj hempty hnofree hok =>
    exact ⟨Nat.le_refl _, fun _ _ _ => rfl, Nat.le_refl _, fun h => h, fun _ _ _ => rfl,
      fun h => by simp [WT_ERROR] at h⟩
  | @newBuf s size r j hj hempty hfirst hnofree hok h ih =>
    obtain ⟨i1, i2, i3, i4, i5, i6⟩ := ih
    have htop : (addBuf s j).alloc.top = s.alloc.top + 1 := rfl
    have hcnt : (addBuf s j).scratch_alloc = s.scratch_alloc := rfl
    have hsl : ∀ i, i ≠ j → (addBuf s j).slots i = s.slots i := by
      intro i hi; simp [addBuf, upd_other _ _ _ _ hi]
    have hbf : ∀ q, q ≠ s.alloc.top + 1 → (addBuf s j).bufs q = s.bufs q := by
      intro q hq; simp [addBuf, upd_other _ _ _ _ hq]
    rw [htop] at i3 i5 i6
    rw [hcnt] at i1 i2 i6
    refine ⟨i1, ?_, by omega, ?_, ?_, ?_⟩
    · intro i hi hnn
      have hij : i ≠ j := by intro e; subst e; exact hnn hempty
      rw [← hsl i hij]
      exact i2 i hi (by rw [hsl i hij]; exact hnn)
    · intro hA
      apply i4
      intro i hi
      by_cases hij : i = j
      · subst hij; simp [addBuf, Allocator.grant]
      · rw [hsl i hij, htop]
        have := hA i hi
        omega
    · intro q hq hle
      rw [i5 q hq (by omega)]
      exact hbf q (by omega)
    · intro hret hle
      obtain ⟨i, hi, hsi, hfi⟩ := i6 hret (by omega)
      have hij : i ≠ j := by
        intro e; subst e
        have : (addBuf s i).slots i = s.alloc.top + 1 := by simp [addBuf]
        omega
      rw [hsl i hij] at hsi
      refine ⟨i, hi, hsi, ?_⟩
      have hq : s.slots i ≠ s.alloc.top + 1 := by omega
      simpa [freeAt, hsl i hij, hbf _ hq] using hfi
  | @noSlots s size hnoempty hnofree hok =>
    exact ⟨Nat.le_refl _, fun _ _ _ => rfl, Nat.le_refl _, fun h => h, fun _ _ _ => rfl,
      fun h => by simp [WT_ERROR] at h⟩
  | @newSlots s size r hnoempty hnofree hok h ih =>
    obtain ⟨i1, i2, i3, i4, i5, i6⟩ := ih
    have htop : (addSlots s).alloc.top = s.alloc.top + 1 := rfl
    have hcnt : (addSlots s).scratch_alloc = s.scratch_alloc + 10 := rfl
    have hsl : ∀ i, i < s.scratch_alloc → (addSlots s).slots i = s.slots i := by
      intro i hi; simp [addSlots, hi]
    have hbf : (addSlots s).bufs = s.bufs := rfl
    rw [htop] at i3 i5 i6
    rw [hcnt] at i1 i2 i6
    rw [hbf] at i5
    refine ⟨by omega, ?_, by omega, ?_, ?_, ?_⟩
    · intro i hi hnn
      rw [← hsl i hi]
      exact i2 i (by omega) (by rw [hsl i hi]; exact hnn)
    · intro hA
      apply i4
      intro i _
      by_cases hi : i < s.scratch_alloc
      · rw [hsl i hi, htop]
        have := hA i hi
        omega
      · simp [addSlots, hi]
    · intro q hq hle
      exact i5 q hq (by omega)
    · intro hret hle
      obtain ⟨i, _, _, hfi⟩ := i6 hret (by omega)
      exact absurd hfi (not_freeAt_addSlots s hnofree i)

/-- The handle of a successful call is non-null, marked in use, and held by a
slot of the pool. -/
theorem outcome_handle {s : SESSION} {size : Nat} {r : ScrAlloc} (h : Outcome s size r)
    (hret : r.ret = 0) :
    r.scratchp ≠ NULL ∧ F_ISSET (r.session.bufs r.scratchp).flags WT_BUF_INUSE = true ∧
    ∃ i, i < r.session.scratch_alloc ∧ r.session.slots i = r.scratchp := by
  induction h with
  | direct hd =>
    cases hd with
    | fit j hj hfit hfirst => exact ⟨hfit.1.1, by simp [lease], j, hj, rfl⟩
    | grown j hj hfree hfirst hnofit hok => exact ⟨hfree.1, by simp [regrow], j, hj, rfl⟩
    | stuck j hj hfree hnofit hok => simp [WT_ERROR] at hret
  | noBuf j hj hempty hnofree hok => simp [WT_ERROR] at hret
  | newBuf j hj hempty hfirst hnofree hok h ih => exact ih hret
  | noSlots hnoempty hnofree hok => simp [WT_ERROR] at hret
  | newSlots hnoempty hnofree hok h ih => exact ih hret

/-- One operation of the caller keeps the held handles exclusive. -/
theorem step_exclusive (fuel : Nat) (hfuel : 3 ≤ fuel) (c : Client) (op : Op)
    (hc : Exclusive c) : Exclusive (c.step fuel op) := by
  obtain ⟨hnd, hA, hheld⟩ := hc
  cases op with
  | acquire size =>
    obtain ⟨f, rfl⟩ : ∃ f, fuel = f + 3 := ⟨fuel - 3, by omega⟩
    obtain ⟨r, hr, hout⟩ := scr_alloc_outcome c.session size f
    obtain ⟨o1, o2, _, o4, o5, o6⟩ := outcome_frame hout
    have hkeep : ∀ h, h ∈ c.held → h ≠ r.scratchp →
        h ≠ NULL ∧ F_ISSET (r.session.bufs h).flags WT_BUF_INUSE = true ∧
        ∃ i, i < r.session.scratch_alloc ∧ r.session.slots i = h := by
      intro h hh hne
      obtain ⟨h1, h2, i, hi, hsi⟩ := hheld h hh
      have hle : h ≤ c.session.alloc.top := by rw [← hsi]; exact hA i hi
      refine ⟨h1, by rw [o5 h hne hle]; exact h2, i, by omega, ?_⟩
      rw [o2 i hi (by rw [hsi]; exact h1), hsi]
    simp only [Client.step, hr]
    by_cases hret : r.ret = 0
    · have hnew : r.scratchp ∉ c.held := by
        intro hin
        obtain ⟨_, h2, i, hi, hsi⟩ := hheld _ hin
        have hle : r.scratchp ≤ c.session.alloc.top := by rw [← hsi]; exact hA i hi
        obtain ⟨i', _, hsi', hfree⟩ := o6 hret hle
        have := hfree.2
        rw [hsi', h2] at this
        exact absurd this (by decide)
      refine ⟨by simp [hret, hnew, hnd], o4 hA, ?_⟩
      intro h hh
      simp only [hret, if_true, List.mem_cons] at hh
      rcases hh with rfl | hh
      · exact outcome_handle hout hret
      · exact hkeep h hh (fun e => hnew (e ▸ hh))
    · have hnull : r.scratchp = NULL := outcome_null hout hret
      refine ⟨by simp [hret, hnd], o4 hA, ?_⟩
      intro h hh
      simp only [hret, if_false] at hh
      exact hkeep h hh (by rw [hnull]; exact (hheld h hh).1)
  | release h =>
    simp only [Client.step]
    by_cases hin : h ∈ c.held
    · simp only [hin, if_true]
      refine ⟨hnd.erase h, hA, ?_⟩
      intro h' hh'
      have hne : h' ≠ h := fun e => by
        rw [e] at hh'
        exact (List.Nodup.not_mem_erase hnd) hh'
      obtain ⟨h1, h2, hslot⟩ := hheld h' (List.mem_of_mem_erase hh')
      refine ⟨h1, ?_, hslot⟩
      simpa [__wt_scr_release, upd_other _ _ _ _ hne] using h2
    · simp only [hin, if_false]
      exact ⟨hnd, hA, hheld⟩

/-- Every sequence of operations keeps the held handles exclusive. -/
theorem run_exclusive (fuel : Nat) (hfuel : 3 ≤ fuel) (ops : List Op) :
    ∀ c : Client, Exclusive c → Exclusive (c.run fuel ops) := by
  induction ops with
  | nil => intro c hc; exact hc
  | cons op ops ih =>
    intro c hc
    exact ih (c.step fuel op) (step_exclusive fuel hfuel c op hc)

/-- C2 (exclusivity): starting from an empty pool, after every sequence of
acquire and release operations the handles held (returned by `__wt_scr_alloc`
and not yet released) are pairwise distinct and each refers to a buffer marked
in use; equivalently, on every pool whose buffers were handed out by the
allocator, a successful `__wt_scr_alloc` never returns a buffer of the pool
whose in-use flag was set before the call.  In particular, on a new pool,
acquire(100) held and then acquire(50) return buffers in different slots:
slot 0 and slot 1. -/
theorem scr_exclusive (s0 : SESSION) (ops : List Op) (fuel : Nat)
    (hempty : s0.scratch_alloc = 0) (hfuel : 3 ≤ fuel) :
    ((Client.run fuel { session := s0, held := [] } ops).held.Nodup ∧
      (∀ h, h ∈ (Client.run fuel { session := s0, held := [] } ops).held →
        F_ISSET ((Client.run fuel { session := s0, held := [] } ops).session.bufs h).flags
          WT_BUF_INUSE = true) ∧
      Allocated (Client.run fuel { session := s0, held := [] } ops).session) ∧
    (∀ (s : SESSION) (size : Nat), Allocated s →
      ∃ r, __wt_scr_alloc fuel s size = some r ∧
        (r.ret = 0 → ∀ i, i < s.scratch_alloc → s.slots i = r.scratchp →
          F_ISSET (s.bufs (s.slots i)).flags WT_BUF_INUSE = false)) ∧
    (∃ r1 r2, __wt_scr_alloc 3 (SESSION.fresh Allocator.reliable) 100 = some r1 ∧ r1.ret = 0 ∧
      __wt_scr_alloc 3 r1.session 50 = some r2 ∧ r2.ret = 0 ∧
      r2.scratchp ≠ r1.scratchp ∧
      r2.session.slots 0 = r1.scratchp ∧ r2.session.slots 1 = r2.scratchp ∧
      F_ISSET (r2.session.bufs r1.scratchp).flags WT_BUF_INUSE = true) := by
  refine ⟨?_, ?_, ⟨_, _, rfl, rfl, rfl, rfl, by decide, rfl, rfl, by decide⟩⟩
  · have hstart : Exclusive { session := s0, held := [] } := by
      refine ⟨List.nodup_nil, ?_, ?_⟩
      · intro i hi
        rw [hempty] at hi
        exact absurd hi (Nat.not_lt_zero i)
      · intro h hh
        simp at hh
    obtain ⟨h1, h2, h3⟩ := run_exclusive fuel hfuel ops _ hstart
    exact ⟨h1, fun h hh => (h3 h hh).2.1, h2⟩
  · intro s size hA
    obtain ⟨f, rfl⟩ : ∃ f, fuel = f + 3 := ⟨fuel - 3, by omega⟩
    obtain ⟨r, hr, hout⟩ := scr_alloc_outcome s size f
    refine ⟨r, hr, ?_⟩
    intro hret i hi hsi
    have hle : r.scratchp ≤ s.alloc.top := by rw [← hsi]; exact hA i hi
    obtain ⟨i', _, hsi', hfree⟩ := (outcome_frame hout).2.2.2.2.2 hret hle
    have := hfree.2
    rw [hsi'] at this
    rw [hsi]; exact this

/-- Witness of C2: on a new pool, acquire(100), acquire(50), release of the
first handle, acquire(10), acquire(70) leave three distinct handles held. -/
theorem scr_exclusive_witness :
    (SESSION.fresh Allocator.reliable).scratch_alloc = 0 ∧ 3 ≤ 3 ∧
    (Client.run 3 { session := SESSION.fresh Allocator.reliable, held := [] }
      [Op.acquire 100, Op.acquire 50, Op.release 2, Op.acquire 10, Op.acquire 70]).held
      = [6, 2, 4] ∧
    (Client.run 3 { session := SESSION.fresh Allocator.reliable, held := [] }
      [Op.acquire 100, Op.acquire 50, Op.release 2, Op.acquire 10, Op.acquire 70]).held.Nodup := by
  refine ⟨rfl, by decide, by decide, ?_⟩
  exact (scr_exclusive (SESSION.fresh Allocator.reliable)
    [Op.acquire 100, Op.acquire 50, Op.release 2, Op.acquire 10, Op.acquire 70] 3 rfl
    (by decide)).1.1

/-! ## Teardown -/

theorem scr_free_walk_succ (k i : Nat) (s : SESSION) :
    __wt_scr_free_walk (k + 1) i s = __wt_scr_free_walk k (i + 1) (freeSlot s i) := rfl

/-- Effect of one iteration of the teardown loop. -/
theorem freeSlot_facts (s : SESSION) (i : Nat) :
    (freeSlot s i).scratch_alloc = s.scratch_alloc ∧ (freeSlot s i).scratch = s.scratch ∧
    (freeSlot s i).slots = upd s.slots i NULL ∧
    (∀ q, q ∈ (freeSlot s i).alloc.live → q ∈ s.alloc.live) ∧
    (∀ q, q ∈ s.alloc.freed → q ∈ (freeSlot s i).alloc.freed) ∧
    (∀ q, q ≠ s.slots i → (freeSlot s i).bufs q = s.bufs q) ∧
    (∀ q, Cleared (s.bufs q) → Cleared ((freeSlot s i).bufs q)) ∧
    (s.slots i ≠ NULL →
      Cleared ((freeSlot s i).bufs (s.slots i)) ∧ s.slots i ∉ (freeSlot s i).alloc.live ∧
      s.slots i ∈ (freeSlot s i).alloc.freed ∧
      ((s.bufs (s.slots i)).mem ≠ NULL →
        (s.bufs (s.slots i)).mem ∉ (freeSlot s i).alloc.live ∧
        (s.bufs (s.slots i)).mem ∈ (freeSlot s i).alloc.freed)) := by
  by_cases h0 : s.slots i = NULL
  · have e : freeSlot s i = { s with slots := upd s.slots i NULL } := by
      simp [freeSlot, h0, __wt_free]
    rw [e]
    exact ⟨rfl, rfl, rfl, fun _ h => h, fun _ h => h, fun _ _ => rfl, fun _ h => h,
      fun h => absurd h0 h⟩
  · by_cases hm : (s.bufs (s.slots i)).mem = NULL
    · refine ⟨?_, ?_, ?_, ?_, ?_, ?_, ?_, ?_⟩
      · simp [freeSlot, h0, __wt_buf_free, __wt_free, hm]
      · simp [freeSlot, h0, __wt_buf_free, __wt_free, hm]
      · simp [freeSlot, h0, __wt_buf_free, __wt_free, hm]
      · intro q; simp [freeSlot, h0, __wt_buf_free, __wt_free, hm]; intro h _; exact h
      · intro q; simp [freeSlot, h0, __wt_buf_free, __wt_free, hm]; intro h; exact Or.inr h
      · intro q hq; simp [freeSlot, h0, __wt_buf_free, __wt_free, hm, upd_other _ _ _ _ hq]
      · intro q hc
        by_cases hq : q = s.slots i
        · subst hq; simp [freeSlot, h0, __wt_buf_free, __wt_free, hm, __wt_buf_clear, Cleared]
        · simpa [freeSlot, h0, __wt_buf_free, __wt_free, hm, upd_other _ _ _ _ hq] using hc
      · intro _
        refine ⟨?_, ?_, ?_, fun h => absurd hm h⟩
        · simp [freeSlot, h0, __wt_buf_free, __wt_free, hm, __wt_buf_clear, Cleared]
        · simp [freeSlot, h0, __wt_buf_free, __wt_free, hm]
        · simp [freeSlot, h0, __wt_buf_free, __wt_free, hm]
    · refine ⟨?_, ?_, ?_, ?_, ?_, ?_, ?_, ?_⟩
      · simp [freeSlot, h0, __wt_buf_free, __wt_free, hm]
      · simp [freeSlot, h0, __wt_buf_free, __wt_free, hm]
      · simp [freeSlot, h0, __wt_buf_free, __wt_free, hm]
      · intro q; simp [freeSlot, h0, __wt_buf_free, __wt_free, hm]; intro h _ _; exact h
      · intro q; simp [freeSlot, h0, __wt_buf_free, __wt_free, hm]; intro h; exact Or.inr (Or.inr h)
      · intro q hq; simp [freeSlot, h0, __wt_buf_free, __wt_free, hm, upd_other _ _ _ _ hq]
      · intro q hc
        by_cases hq : q = s.slots i
        · subst hq; simp [freeSlot, h0, __wt_buf_free, __wt_free, hm, __wt_buf_clear, Cleared]
        · simpa [freeSlot, h0, __wt_buf_free, __wt_free, hm, upd_other _ _ _ _ hq] using hc
      · intro _
        refine ⟨?_, ?_, ?_, fun _ => ⟨?_, ?_⟩⟩
        · simp [freeSlot, h0, __wt_buf_free, __wt_free, hm, __wt_buf_clear, Cleared]
        · simp [freeSlot, h0, __wt_buf_free, __wt_free, hm]
        · simp [freeSlot, h0, __wt_buf_free, __wt_free, hm]
        · simp [freeSlot, h0, __wt_buf_free, __wt_free, hm]
        · simp [freeSlot, h0, __wt_buf_free, __wt_free, hm]

/-- What the teardown loop does over slots `[i, i + k)`: each is vacated and
the buffer it held is destroyed; nothing is allocated, the counters are kept. -/
theorem scr_free_walk_spec : ∀ (k i : Nat) (s : SESSION),
    (__wt_scr_free_walk k i s).scratch_alloc = s.scratch_alloc ∧
    (__wt_scr_free_walk k i s).scratch = s.scratch ∧
    (∀ x, i ≤ x → x < i + k → (__wt_scr_free_walk k i s).slots x = NULL) ∧
    (∀ q, q ∈ (__wt_scr_free_walk k i s).alloc.live → q ∈ s.alloc.live) ∧
    (∀ q, q ∈ s.alloc.freed → q ∈ (__wt_scr_free_walk k i s).alloc.freed) ∧
    (∀ q, Cleared (s.bufs q) → Cleared ((__wt_scr_free_walk k i s).bufs q)) ∧
    (∀ x, i ≤ x → x < i + k → s.slots x ≠ NULL →
      Cleared ((__wt_scr_free_walk k i s).bufs (s.slots x)) ∧
      s.slots x ∉ (__wt_scr_free_walk k i s).alloc.live ∧
      s.slots x ∈ (__wt_scr_free_walk k i s).alloc.freed ∧
      ((s.bufs (s.slots x)).mem ≠ NULL →
        (s.bufs (s.slots x)).mem ∉ (__wt_scr_free_walk k i s).alloc.live ∧
        (s.bufs (s.slots x)).mem ∈ (__wt_scr_free_walk k i s).alloc.freed)) ∧
    (∀ x, x < i → (__wt_scr_free_walk k i s).slots x = s.slots x) := by
  intro k
  induction k with
  | zero =>
    intro i s
    refine ⟨rfl, rfl, ?_, fun _ h => h, fun _ h => h, fun _ h => h, ?_, fun _ _ => rfl⟩
    · intro x h1 h2; omega
    · intro x h1 h2; omega
  | succ k ih =>
    intro i s
    rw [scr_free_walk_succ]
    obtain ⟨a1, a2, a3, a4, a5, a6, a7, a8⟩ := ih (i + 1) (freeSlot s i)
    obtain ⟨b1, b2, b3, b4, b5, b6, b7, b8⟩ := freeSlot_facts s i
    have hsl : ∀ x, x ≠ i → (freeSlot s i).slots x = s.slots x := by
      intro x hx; rw [b3, upd_other _ _ _ _ hx]
    refine ⟨a1.trans b1, a2.trans b2, ?_, fun q h => b4 q (a4 q h), fun q h => a5 q (b5 q h),
      fun q h => a6 q (b7 q h), ?_, ?_⟩
    · intro x h1 h2
      by_cases hx : x = i
      · subst hx
        rw [a8 x (by omega), b3, upd_same]
      · exact a3 x (by omega) (by omega)
    · intro x h1 h2 hnn
      by_cases hx : x = i
      · subst hx
        obtain ⟨c1, c2, c3, c4⟩ := b8 hnn
        exact ⟨a6 _ c1, fun h => c2 (a4 _ h), a5 _ c3,
          fun hm => ⟨fun h => (c4 hm).1 (a4 _ h), a5 _ (c4 hm).2⟩⟩
      · have hs := hsl x hx
        obtain ⟨c1, c2, c3, c4⟩ := a7 x (by omega) (by omega) (by rw [hs]; exact hnn)
        rw [hs] at c1 c2 c3 c4
        refine ⟨c1, c2, c3, fun hm => ?_⟩
        by_cases hal : s.slots x = s.slots i
        · have hnni : s.slots i ≠ NULL := by rw [← hal]; exact hnn
          obtain ⟨_, _, _, d4⟩ := b8 hnni
          rw [hal] at hm ⊢
          exact ⟨fun h => (d4 hm).1 (a4 _ h), a5 _ (d4 hm).2⟩
        · rw [b6 _ hal] at c4
          exact c4 hm
    · intro x hx
      rw [a8 x (by omega)]
      exact hsl x (by omega)

/-- C10, as the code has it: after `__wt_scr_free` every slot is vacated
(`NULL`), every buffer a slot held is destroyed (its memory block and its
record were passed to free and are no longer allocated, its view and
allocation fields are cleared), the slot array is released and
`session->scratch` is `NULL`; the slot count `scratch_alloc` keeps the value
it had before the call. -/
theorem scr_free_post (s : SESSION) :
    (∀ i, i < s.scratch_alloc → (__wt_scr_free s).slots i = NULL) ∧
    (∀ i, i < s.scratch_alloc → s.slots i ≠ NULL →
      Cleared ((__wt_scr_free s).bufs (s.slots i)) ∧
      s.slots i ∉ (__wt_scr_free s).alloc.live ∧ s.slots i ∈ (__wt_scr_free s).alloc.freed ∧
      ((s.bufs (s.slots i)).mem ≠ NULL →
        (s.bufs (s.slots i)).mem ∉ (__wt_scr_free s).alloc.live ∧
        (s.bufs (s.slots i)).mem ∈ (__wt_scr_free s).alloc.freed)) ∧
    (__wt_scr_free s).scratch = NULL ∧
    (s.scratch ≠ NULL →
      s.scratch ∉ (__wt_scr_free s).alloc.live ∧ s.scratch ∈ (__wt_scr_free s).alloc.freed) ∧
    (__wt_scr_free s).scratch_alloc = s.scratch_alloc := by
  obtain ⟨a1, a2, a3, a4, a5, a6, a7, _⟩ := scr_free_walk_spec s.scratch_alloc 0 s
  have hlive : ∀ q, q ∈ (__wt_scr_free s).alloc.live →
      q ∈ (__wt_scr_free_walk s.scratch_alloc 0 s).alloc.live := by
    intro q
    by_cases h0 : (__wt_scr_free_walk s.scratch_alloc 0 s).scratch = NULL
    · simp [__wt_scr_free, __wt_free, h0]
    · simp [__wt_scr_free, __wt_free, h0]; intro h _; exact h
  have hfreed : ∀ q, q ∈ (__wt_scr_free_walk s.scratch_alloc 0 s).alloc.freed →
      q ∈ (__wt_scr_free s).alloc.freed := by
    intro q
    by_cases h0 : (__wt_scr_free_walk s.scratch_alloc 0 s).scratch = NULL
    · simp [__wt_scr_free, __wt_free, h0]
    · simp [__wt_scr_free, __wt_free, h0]; intro h; exact Or.inr h
  refine ⟨?_, ?_, ?_, ?_, ?_⟩
  · intro i hi
    exact a3 i (Nat.zero_le i) (by omega)
  · intro i hi hnn
    obtain ⟨c1, c2, c3, c4⟩ := a7 i (Nat.zero_le i) (by omega) hnn
    exact ⟨c1, fun h => c2 (hlive _ h), hfreed _ c3,
      fun hm => ⟨fun h => (c4 hm).1 (hlive _ h), hfreed _ (c4 hm).2⟩⟩
  · by_cases h0 : (__wt_scr_free_walk s.scratch_alloc 0 s).scratch = NULL
    · simp [__wt_scr_free, __wt_free, h0]
    · simp [__wt_scr_free, __wt_free, h0]
  · intro hnn
    have h0 : (__wt_scr_free_walk s.scratch_alloc 0 s).scratch ≠ NULL := by rw [a2]; exact hnn
    constructor
    · simp [__wt_scr_free, __wt_free, a2, hnn]
    · simp [__wt_scr_free, __wt_free, a2, hnn]
  · exact a1

/-- Counterexample to C10 as stated: after acquire(100) on a new pool the
pool has ten slots, and after `__wt_scr_free` the slot count is still ten,
not zero, although the slot array is gone. -/
theorem scr_free_count_not_reset :
    ∃ r, __wt_scr_alloc 3 (SESSION.fresh Allocator.reliable) 100 = some r ∧
      r.session.scratch_alloc = 10 ∧
      (__wt_scr_free r.session).scratch = NULL ∧
      (__wt_scr_free r.session).scratch_alloc = 10 ∧
      (__wt_scr_free r.session).scratch_alloc ≠ 0 :=
  ⟨_, rfl, rfl, rfl, rfl, by decide⟩

/-! ## Buffer primitives: set-size and clear -/

theorem u32_le (n : Nat) : u32 n ≤ n := Nat.mod_le n 4294967296

/-- C12: for every buffer and every `sz` that fits 32 bits, if
`__wt_buf_setsize` returns 0 then `mem_size >= sz`, `data == mem` and
`size == sz`; if `sz` is at most the prior `mem_size` the call returns 0, makes
no allocator request and leaves `mem` and `mem_size` as they were; the flags
word (the in-use flag included) and every other buffer are unchanged in all
cases. -/
theorem buf_setsize_success (s : SESSION) (buf sz : Nat) (hsz : sz ≤ UINT32_MAX) :
    ((__wt_buf_setsize s buf sz).1 = 0 →
      sz ≤ ((__wt_buf_setsize s buf sz).2.bufs buf).mem_size ∧
      ((__wt_buf_setsize s buf sz).2.bufs buf).data =
        ((__wt_buf_setsize s buf sz).2.bufs buf).mem ∧
      ((__wt_buf_setsize s buf sz).2.bufs buf).size = sz) ∧
    (sz ≤ (s.bufs buf).mem_size →
      (__wt_buf_setsize s buf sz).1 = 0 ∧ (__wt_buf_setsize s buf sz).2.alloc = s.alloc ∧
      ((__wt_buf_setsize s buf sz).2.bufs buf).mem_size = (s.bufs buf).mem_size ∧
      ((__wt_buf_setsize s buf sz).2.bufs buf).mem = (s.bufs buf).mem) ∧
    ((__wt_buf_setsize s buf sz).2.bufs buf).flags = (s.bufs buf).flags ∧
    (∀ q, q ≠ buf → (__wt_buf_setsize s buf sz).2.bufs q = s.bufs q) := by
  by_cases hgt : sz > (s.bufs buf).mem_size
  · have hnle : ¬ sz ≤ (s.bufs buf).mem_size := by omega
    by_cases hok : s.alloc.ok s.alloc.calls = true
    · refine ⟨fun _ => ?_, fun h => absurd h hnle, ?_, ?_⟩
      · simp [__wt_buf_setsize, hgt, __wt_realloc, hok, u32_of_le hsz]
      · simp [__wt_buf_setsize, hgt, __wt_realloc, hok]
      · intro q hq
        simp [__wt_buf_setsize, hgt, __wt_realloc, hok, upd_other _ _ _ _ hq]
    · refine ⟨fun h => ?_, fun h => absurd h hnle, ?_, ?_⟩
      · simp [__wt_buf_setsize, hgt, __wt_realloc, hok, WT_ERROR] at h
      · simp [__wt_buf_setsize, hgt, __wt_realloc, hok, WT_ERROR]
      · intro q _
        simp [__wt_buf_setsize, hgt, __wt_realloc, hok, WT_ERROR]
  · have hle : sz ≤ (s.bufs buf).mem_size := by omega
    rw [setsize_fits s buf sz hle]
    refine ⟨fun _ => ?_, fun _ => ?_, ?_, ?_⟩
    · simp [u32_of_le hsz, hle]
    · simp
    · simp
    · intro q hq
      simp [upd_other _ _ _ _ hq]

/-- Witness of C12: the buffer of capacity 50 at address 11 set to 100 bytes
(reallocated) and to 20 bytes (not reallocated). -/
theorem buf_setsize_success_witness :
    (100 ≤ UINT32_MAX ∧ (__wt_buf_setsize poolSmall 11 100).1 = 0 ∧
      ((__wt_buf_setsize poolSmall 11 100).2.bufs 11).size = 100 ∧
      100 ≤ ((__wt_buf_setsize poolSmall 11 100).2.bufs 11).mem_size) ∧
    (20 ≤ UINT32_MAX ∧ (__wt_buf_setsize poolSmall 11 20).1 = 0 ∧
      ((__wt_buf_setsize poolSmall 11 20).2.bufs 11).size = 20 ∧
      ((__wt_buf_setsize poolSmall 11 20).2.bufs 11).mem_size = 50) := by
  have h1 : 100 ≤ UINT32_MAX := by decide
  have h2 : 20 ≤ UINT32_MAX := by decide
  have r1 : (__wt_buf_setsize poolSmall 11 100).1 = 0 := by decide
  obtain ⟨a1, _, _, _⟩ := buf_setsize_success poolSmall 11 100 h1
  obtain ⟨b1, b2, _, _⟩ := buf_setsize_success poolSmall 11 20 h2
  have hb := b2 (by decide)
  exact ⟨⟨h1, r1, (a1 r1).2.2, (a1 r1).1⟩, ⟨h2, hb.1, (b1 hb.1).2.2, hb.2.2.1⟩⟩

/-- C13: if the reallocation inside `__wt_buf_setsize` is needed and refused,
the call returns that error and the whole session memory, the buffer
included (`mem`, `mem_size`, `data`, `size`, flags), is as before the call;
the slot array and count are untouched as well. -/
theorem buf_setsize_failure (s : SESSION) (buf sz : Nat)
    (hgrow : (s.bufs buf).mem_size < sz) (hfail : s.alloc.ok s.alloc.calls = false) :
    (__wt_buf_setsize s buf sz).1 = WT_ERROR ∧ (__wt_buf_setsize s buf sz).1 ≠ 0 ∧
    (__wt_buf_setsize s buf sz).2.bufs buf = s.bufs buf ∧
    (__wt_buf_setsize s buf sz).2.bufs = s.bufs ∧
    (__wt_buf_setsize s buf sz).2.slots = s.slots ∧
    (__wt_buf_setsize s buf sz).2.scratch = s.scratch ∧
    (__wt_buf_setsize s buf sz).2.scratch_alloc = s.scratch_alloc := by
  have hgt : sz > (s.bufs buf).mem_size := hgrow
  refine ⟨?_, ?_, ?_, ?_, ?_, ?_, ?_⟩ <;>
    simp [__wt_buf_setsize, hgt, __wt_realloc, hfail, WT_ERROR]

/-- Witness of C13: growing the buffer of capacity 50 at address 11 to 100
bytes with an allocator that refuses every request. -/
theorem buf_setsize_failure_witness :
    ((({ poolSmall with alloc := Allocator.broken } : SESSION).bufs 11).mem_size < 100 ∧
      Allocator.broken.ok Allocator.broken.calls = false) ∧
    (__wt_buf_setsize { poolSmall with alloc := Allocator.broken } 11 100).1 ≠ 0 ∧
    ((__wt_buf_setsize { poolSmall with alloc := Allocator.broken } 11 100).2.bufs 11).mem_size
      = 50 := by
  have h1 : (({ poolSmall with alloc := Allocator.broken } : SESSION).bufs 11).mem_size < 100 := by
    decide
  have h2 : Allocator.broken.ok Allocator.broken.calls = false := rfl
  obtain ⟨_, a2, a3, _⟩ :=
    buf_setsize_failure { poolSmall with alloc := Allocator.broken } 11 100 h1 h2
  exact ⟨⟨h1, h2⟩, a2, by rw [a3]; rfl⟩


/-! ## Clear, and the view bound -/

/-- C14: `__wt_buf_clear` sets `data`, `size`, `mem` and `mem_size` to
null/zero and leaves the flags word as it was, for every buffer.  So when a
held buffer of the pool (slot `i`, address `p`, handed out by the allocator)
is cleared, its slot is still not free, no later `__wt_scr_alloc` returns it
or clears its in-use flag, and once `__wt_scr_release` is called on it the
slot is free again. -/
theorem buf_clear_keeps_flag (b : WT_BUF) (s : SESSION) (p i size fuel : Nat)
    (hfuel : 3 ≤ fuel) (_hi : i < s.scratch_alloc) (hp : s.slots i = p) (hnn : p ≠ NULL)
    (hA : p ≤ s.alloc.top) (hheld : F_ISSET (s.bufs p).flags WT_BUF_INUSE = true) :
    ((__wt_buf_clear b).data = NULL ∧ (__wt_buf_clear b).size = 0 ∧
      (__wt_buf_clear b).mem = NULL ∧ (__wt_buf_clear b).mem_size = 0 ∧
      (__wt_buf_clear b).flags = b.flags) ∧
    F_ISSET ((steal s p).bufs p).flags WT_BUF_INUSE = true ∧
    ¬ freeAt (steal s p) i ∧
    (∃ r, __wt_scr_alloc fuel (steal s p) size = some r ∧ r.scratchp ≠ p ∧
      F_ISSET (r.session.bufs p).flags WT_BUF_INUSE = true) ∧
    freeAt (__wt_scr_release (steal s p) p).2 i := by
  have hflag : F_ISSET ((steal s p).bufs p).flags WT_BUF_INUSE = true := by
    simpa [steal, __wt_buf_clear] using hheld
  refine ⟨⟨rfl, rfl, rfl, rfl, rfl⟩, hflag, ?_, ?_, ?_⟩
  · intro hf
    have h2 := hf.2
    have hsl : (steal s p).slots i = p := hp
    rw [hsl, hflag] at h2
    exact absurd h2 (by decide)
  · obtain ⟨f, rfl⟩ : ∃ f, fuel = f + 3 := ⟨fuel - 3, by omega⟩
    obtain ⟨r, hr, hout⟩ := scr_alloc_outcome (steal s p) size f
    obtain ⟨_, _, _, _, o5, o6⟩ := outcome_frame hout
    have hne : r.scratchp ≠ p := by
      intro he
      by_cases hret : r.ret = 0
      · obtain ⟨i', _, hsi', hfree⟩ := o6 hret (by rw [he]; exact hA)
        have h2 := hfree.2
        rw [hsi', he, hflag] at h2
        exact absurd h2 (by decide)
      · have := outcome_null hout hret
        rw [he] at this
        exact hnn this
    refine ⟨r, hr, hne, ?_⟩
    rw [o5 p (fun e => hne e.symm) hA]
    exact hflag
  · have hsl : (__wt_scr_release (steal s p) p).2.slots i = p := hp
    refine ⟨by rw [hsl]; exact hnn, ?_⟩
    rw [hsl]
    simp [__wt_scr_release]

/-- Witness of C14: the held buffer at address 11 (slot 0) of a pool whose
buffers are all in use is cleared; a request for 10 bytes then gets a new
buffer, not this one. -/
theorem buf_clear_keeps_flag_witness :
    (3 ≤ 3 ∧ 0 < poolBusy.scratch_alloc ∧ poolBusy.slots 0 = 11 ∧ (11 : Nat) ≠ NULL ∧
      11 ≤ poolBusy.alloc.top ∧ F_ISSET (poolBusy.bufs 11).flags WT_BUF_INUSE = true) ∧
    ((steal poolBusy 11).bufs 11).mem_size = 0 ∧
    ∃ r, __wt_scr_alloc 3 (steal poolBusy 11) 10 = some r ∧ r.scratchp ≠ 11 ∧
      F_ISSET (r.session.bufs 11).flags WT_BUF_INUSE = true := by
  have h1 : 0 < poolBusy.scratch_alloc := by decide
  have h2 : poolBusy.slots 0 = 11 := by decide
  have h3 : (11 : Nat) ≠ NULL := by decide
  have h4 : 11 ≤ poolBusy.alloc.top := by decide
  have h5 : F_ISSET (poolBusy.bufs 11).flags WT_BUF_INUSE = true := by decide
  obtain ⟨_, _, _, a4, _⟩ :=
    buf_clear_keeps_flag WT_BUF.zero poolBusy 11 0 10 3 (by decide) h1 h2 h3 h4 h5
  exact ⟨⟨by decide, h1, h2, h3, h4, h5⟩, by decide, a4⟩

theorem viewOk_setsize (s : SESSION) (buf sz q : Nat) (h : ViewOk (s.bufs q)) :
    ViewOk ((__wt_buf_setsize s buf sz).2.bufs q) := by
  by_cases hq : q = buf
  · subst hq
    by_cases hgt : sz > (s.bufs q).mem_size
    · by_cases hok : s.alloc.ok s.alloc.calls = true
      · simp [__wt_buf_setsize, hgt, __wt_realloc, hok, ViewOk]
      · simpa [__wt_buf_setsize, hgt, __wt_realloc, hok, WT_ERROR] using h
    · have hle : sz ≤ (s.bufs q).mem_size := by omega
      rw [setsize_fits s q sz hle]
      have := u32_le sz
      simp only [ViewOk, upd_same]
      omega
  · by_cases hgt : sz > (s.bufs buf).mem_size
    · by_cases hok : s.alloc.ok s.alloc.calls = true
      · simpa [__wt_buf_setsize, hgt, __wt_realloc, hok, upd_other _ _ _ _ hq] using h
      · simpa [__wt_buf_setsize, hgt, __wt_realloc, hok, WT_ERROR] using h
    · have hle : sz ≤ (s.bufs buf).mem_size := by omega
      rw [setsize_fits s buf sz hle]
      simpa [upd_other _ _ _ _ hq] using h

theorem viewOk_buf_free (s : SESSION) (buf q : Nat) (h : ViewOk (s.bufs q)) :
    ViewOk ((__wt_buf_free s buf).bufs q) := by
  by_cases hq : q = buf
  · subst hq
    simp [__wt_buf_free, __wt_buf_clear, ViewOk]
  · simpa [__wt_buf_free, upd_other _ _ _ _ hq] using h

/-- A call of `__wt_scr_alloc` keeps the view bound of every record. -/
theorem outcome_viewOk {s : SESSION} {size : Nat} {r : ScrAlloc} (h : Outcome s size r) :
    ∀ q, ViewOk (s.bufs q) → ViewOk (r.session.bufs q) := by
  induction h with
  | @direct s size r h =>
    cases h with
    | fit j hj hfit hfirst =>
      intro q hq
      by_cases e : q = s.slots j
      · subst e
        have h1 := hfit.2
        have h2 := u32_le size
        simp only [lease, upd_same, ViewOk]
        omega
      · simpa [lease, upd_other _ _ _ _ e] using hq
    | grown j hj hfree hfirst hnofit hok =>
      intro q hq
      by_cases e : q = s.slots j
      · subst e
        simp [regrow, ViewOk]
      · simpa [regrow, upd_other _ _ _ _ e] using hq
    | stuck j hj hfree hnofit hok => exact fun q hq => hq
  | noBuf j hj hempty hnofree hok => exact fun q hq => hq
  | @newBuf s size r j hj hempty hfirst hnofree hok h ih =>
    intro q hq
    apply ih q
    by_cases e : q = s.alloc.top + 1
    · subst e
      simp [addBuf, WT_BUF.zero, ViewOk]
    · simpa [addBuf, upd_other _ _ _ _ e] using hq
  | noSlots hnoempty hnofree hok => exact fun q hq => hq
  | @newSlots s size r hnoempty hnofree hok h ih =>
    intro q hq
    exact ih q hq

/-- The buffer handed out by a successful call satisfies the view bound. -/
theorem outcome_handle_viewOk {s : SESSION} {size : Nat} {r : ScrAlloc} (h : Outcome s size r)
    (hret : r.ret = 0) : ViewOk (r.session.bufs r.scratchp) := by
  induction h with
  | @direct s size r hd =>
    cases hd with
    | fit j hj hfit hfirst =>
      have h1 := hfit.2
      have h2 := u32_le size
      simp only [lease, upd_same, ViewOk]
      omega
    | grown j hj hfree hfirst hnofit hok => simp [regrow, ViewOk]
    | stuck j hj hfree hnofit hok => simp [WT_ERROR] at hret
  | noBuf j hj hempty hnofree hok => simp [WT_ERROR] at hret
  | newBuf j hj hempty hfirst hnofree hok h ih => exact ih hret
  | noSlots hnoempty hnofree hok => simp [WT_ERROR] at hret
  | newSlots hnoempty hnofree hok h ih => exact ih hret

/-- C16 (view bound): `size <= mem_size` holds for a new zeroed buffer and is
kept, for the record at every address `q`, by `__wt_buf_setsize` (whether it
succeeds or fails), `__wt_buf_clear`, `__wt_buf_free`, `__wt_scr_alloc`
(whether it succeeds or fails; the returned buffer satisfies it too) and
`__wt_scr_release`. -/
theorem view_bound (s : SESSION) (b : WT_BUF) (buf sz size bufp q fuel : Nat)
    (hfuel : 3 ≤ fuel) :
    ViewOk WT_BUF.zero ∧
    (ViewOk (s.bufs q) → ViewOk ((__wt_buf_setsize s buf sz).2.bufs q)) ∧
    ((__wt_buf_setsize s buf sz).1 = 0 → ViewOk ((__wt_buf_setsize s buf sz).2.bufs buf)) ∧
    ViewOk (__wt_buf_clear b) ∧
    (ViewOk (s.bufs q) → ViewOk ((__wt_buf_free s buf).bufs q)) ∧
    ViewOk ((__wt_buf_free s buf).bufs buf) ∧
    (∃ r, __wt_scr_alloc fuel s size = some r ∧
      (ViewOk (s.bufs q) → ViewOk (r.session.bufs q)) ∧
      (r.ret = 0 → ViewOk (r.session.bufs r.scratchp))) ∧
    (ViewOk (s.bufs q) → ViewOk ((__wt_scr_release s bufp).2.bufs q)) := by
  refine ⟨by simp [ViewOk, WT_BUF.zero], viewOk_setsize s buf sz q, ?_,
    by simp [ViewOk, __wt_buf_clear], viewOk_buf_free s buf q, ?_, ?_, ?_⟩
  · intro hret
    by_cases hgt : sz > (s.bufs buf).mem_size
    · by_cases hok : s.alloc.ok s.alloc.calls = true
      · simp [__wt_buf_setsize, hgt, __wt_realloc, hok, ViewOk]
      · simp [__wt_buf_setsize, hgt, __wt_realloc, hok, WT_ERROR] at hret
    · have hle : sz ≤ (s.bufs buf).mem_size := by omega
      rw [setsize_fits s buf sz hle]
      have := u32_le sz
      simp only [ViewOk, upd_same]
      omega
  · simp [__wt_buf_free, __wt_buf_clear, ViewOk]
  · obtain ⟨f, rfl⟩ : ∃ f, fuel = f + 3 := ⟨fuel - 3, by omega⟩
    obtain ⟨r, hr, hout⟩ := scr_alloc_outcome s size f
    refine ⟨r, hr, outcome_viewOk hout q, fun hret => ?_⟩
    exact outcome_handle_viewOk hout hret
  · intro h
    by_cases e : q = bufp
    · subst e
      simpa [__wt_scr_release, ViewOk] using h
    · simpa [__wt_scr_release, upd_other _ _ _ _ e] using h

/-- Witness of C16: the example pool with a free buffer of capacity 50,
asked for 100 bytes. -/
theorem view_bound_witness :
    3 ≤ 3 ∧ ViewOk (poolSmall.bufs 11) ∧
    ∃ r, __wt_scr_alloc 3 poolSmall 100 = some r ∧ ViewOk (r.session.bufs 11) ∧
      ViewOk (r.session.bufs r.scratchp) := by
  have h0 : ViewOk (poolSmall.bufs 11) := by
    show (poolSmall.bufs 11).size ≤ (poolSmall.bufs 11).mem_size
    decide
  obtain ⟨_, _, _, _, _, _, ⟨r, hr, a1, a2⟩, _⟩ :=
    view_bound poolSmall WT_BUF.zero 11 0 100 11 11 3 (by decide)
  have hret : r.ret = 0 := by
    have h2 : (__wt_scr_alloc 3 poolSmall 100).map (fun r => r.ret) = some 0 := rfl
    rw [hr] at h2
    simpa using h2
  exact ⟨by decide, h0, r, hr, a1 h0, a2 hret⟩


/-! ## Capacity -/

theorem setsize_capacity (s : SESSION) (buf sz q : Nat) (hsz : sz ≤ UINT32_MAX) :
    (s.bufs q).mem_size ≤ ((__wt_buf_setsize s buf sz).2.bufs q).mem_size := by
  by_cases hgt : sz > (s.bufs buf).mem_size
  · by_cases hok : s.alloc.ok s.alloc.calls = true
    · by_cases hq : q = buf
      · subst hq
        simp only [__wt_buf_setsize, hgt, __wt_realloc, hok, if_true, upd_same, u32_of_le hsz]
        simp
        omega
      · simp [__wt_buf_setsize, hgt, __wt_realloc, hok, upd_other _ _ _ _ hq]
    · simp [__wt_buf_setsize, hgt, __wt_realloc, hok, WT_ERROR]
  · have hle : sz ≤ (s.bufs buf).mem_size := by omega
    rw [setsize_fits s buf sz hle]
    by_cases hq : q = buf
    · subst hq; simp
    · simp [upd_other _ _ _ _ hq]

/-- A call of `__wt_scr_alloc` does not lower the capacity of any record at an
address handed out before the call. -/
theorem outcome_capacity {s : SESSION} {size : Nat} {r : ScrAlloc} (h : Outcome s size r)
    (hsize : size ≤ UINT32_MAX) :
    ∀ q, q ≤ s.alloc.top → (s.bufs q).mem_size ≤ (r.session.bufs q).mem_size := by
  induction h with
  | @direct s size r h =>
    cases h with
    | fit j hj hfit hfirst =>
      intro q _
      by_cases e : q = s.slots j
      · subst e; simp [lease]
      · simp [lease, upd_other _ _ _ _ e]
    | grown j hj hfree hfirst hnofit hok =>
      intro q _
      by_cases e : q = s.slots j
      · subst e
        have hlt : (s.bufs (s.slots j)).mem_size < size := by
          have := hnofit j hj
          simp only [fitsAt, hfree, true_and] at this
          omega
        simp only [regrow, upd_same, u32_of_le hsize]
        omega
      · simp [regrow, upd_other _ _ _ _ e]
    | stuck j hj hfree hnofit hok => exact fun q _ => Nat.le_refl _
  | noBuf j hj hempty hnofree hok => exact fun q _ => Nat.le_refl _
  | @newBuf s size r j hj hempty hfirst hnofree hok h ih =>
    intro q hq
    have h1 := ih hsize q (by show q ≤ s.alloc.top + 1; omega)
    have h2 : (addBuf s j).bufs q = s.bufs q := by
      have : q ≠ s.alloc.top + 1 := by omega
      simp [addBuf, upd_other _ _ _ _ this]
    rw [h2] at h1
    exact h1
  | noSlots hnoempty hnofree hok => exact fun q _ => Nat.le_refl _
  | @newSlots s size r hnoempty hnofree hok h ih =>
    intro q hq
    exact ih hsize q (by show q ≤ s.alloc.top + 1; omega)

/-- C15, as the code has it: for the record at every address `q`,
`__wt_buf_setsize` (with a size that fits 32 bits, whether it succeeds or
fails) and `__wt_scr_release` never lower `mem_size`, and `__wt_scr_alloc`
never lowers the `mem_size` of a record that existed before the call;
`__wt_buf_clear` and `__wt_buf_free` set `mem_size` to zero. -/
theorem capacity_monotone (s : SESSION) (b : WT_BUF) (buf sz size bufp q fuel : Nat)
    (hsz : sz ≤ UINT32_MAX) (hsize : size ≤ UINT32_MAX) (hfuel : 3 ≤ fuel) :
    (s.bufs q).mem_size ≤ ((__wt_buf_setsize s buf sz).2.bufs q).mem_size ∧
    (∃ r, __wt_scr_alloc fuel s size = some r ∧
      (q ≤ s.alloc.top → (s.bufs q).mem_size ≤ (r.session.bufs q).mem_size)) ∧
    ((__wt_scr_release s bufp).2.bufs q).mem_size = (s.bufs q).mem_size ∧
    (__wt_buf_clear b).mem_size = 0 ∧
    ((__wt_buf_free s buf).bufs buf).mem_size = 0 := by
  refine ⟨setsize_capacity s buf sz q hsz, ?_, ?_, rfl, ?_⟩
  · obtain ⟨f, rfl⟩ : ∃ f, fuel = f + 3 := ⟨fuel - 3, by omega⟩
    obtain ⟨r, hr, hout⟩ := scr_alloc_outcome s size f
    exact ⟨r, hr, outcome_capacity hout hsize q⟩
  · by_cases e : q = bufp
    · subst e; simp [__wt_scr_release]
    · simp [__wt_scr_release, upd_other _ _ _ _ e]
  · simp [__wt_buf_free, __wt_buf_clear]

/-- Witness of C15 as amended: the buffer of capacity 50 at address 11 is grown
to 100 by a request for 100 bytes. -/
theorem capacity_monotone_witness :
    (100 ≤ UINT32_MAX ∧ 3 ≤ 3) ∧ (poolSmall.bufs 11).mem_size = 50 ∧
    ∃ r, __wt_scr_alloc 3 poolSmall 100 = some r ∧ 50 ≤ (r.session.bufs 11).mem_size := by
  obtain ⟨_, ⟨r, hr, h⟩, _⟩ :=
    capacity_monotone poolSmall WT_BUF.zero 11 100 100 11 11 3 (by decide) (by decide) (by decide)
  exact ⟨⟨by decide, by decide⟩, rfl, r, hr, h (by decide)⟩

/-- Counterexample to C15 as stated: clearing, or destroying, the buffer of
capacity 50 at address 11 leaves it with capacity 0. -/
theorem capacity_shrinks_on_clear :
    (poolSmall.bufs 11).mem_size = 50 ∧
    (__wt_buf_clear (poolSmall.bufs 11)).mem_size = 0 ∧
    ((__wt_buf_free poolSmall 11).bufs 11).mem_size = 0 ∧
    ¬ ((poolSmall.bufs 11).mem_size ≤ (__wt_buf_clear (poolSmall.bufs 11)).mem_size) ∧
    ¬ ((poolSmall.bufs 11).mem_size ≤ ((__wt_buf_free poolSmall 11).bufs 11).mem_size) := by
  refine ⟨rfl, rfl, rfl, ?_, ?_⟩ <;> decide


/-! ## Bounded retry -/

/-- A call that finds a not-in-use buffer returns the same result however many
nested calls are allowed. -/
theorem scr_alloc_direct_all (s : SESSION) (size : Nat)
    (hfree : ∃ j, j < s.scratch_alloc ∧ freeAt s j) :
    ∃ r, Direct s size r ∧ ∀ fuel, __wt_scr_alloc (fuel + 1) s size = some r := by
  by_cases hfit : ∃ j, j < s.scratch_alloc ∧ fitsAt s size j
  · obtain ⟨j, hj, hf, hfirst⟩ := exists_first _ _ hfit
    exact ⟨_, Direct.fit j hj hf hfirst, fun fuel => scr_alloc_fit s size j fuel hj hf hfirst⟩
  · have hnofit : ∀ j', j' < s.scratch_alloc → ¬ fitsAt s size j' :=
      fun j' h1 h2 => hfit ⟨j', h1, h2⟩
    obtain ⟨j, hj, hf, hfirst⟩ := exists_first _ _ hfree
    by_cases hok : s.alloc.ok s.alloc.calls = true
    · refine ⟨_, Direct.grown j hj hf hfirst hnofit hok, fun fuel => ?_⟩
      rw [scr_alloc_small s size j fuel hj hf hfirst hnofit, if_pos hok]
    · refine ⟨_, Direct.stuck j hj hf hnofit hok, fun fuel => ?_⟩
      rw [scr_alloc_small s size j fuel hj hf hfirst hnofit, if_neg hok]

/-- A call that finds a not-in-use buffer or an empty slot returns the same
result whenever one repeated call is allowed. -/
theorem scr_alloc_one_retry_all (s : SESSION) (size : Nat)
    (h : (∃ j, j < s.scratch_alloc ∧ freeAt s j) ∨ ∃ j, j < s.scratch_alloc ∧ s.slots j = NULL) :
    ∃ r, Outcome s size r ∧ ∀ fuel, __wt_scr_alloc (fuel + 2) s size = some r := by
  by_cases hfree : ∃ j, j < s.scratch_alloc ∧ freeAt s j
  · obtain ⟨r, h1, h2⟩ := scr_alloc_direct_all s size hfree
    exact ⟨r, Outcome.direct h1, fun fuel => h2 (fuel + 1)⟩
  · have hnofree : ∀ j', j' < s.scratch_alloc → ¬ freeAt s j' :=
      fun j' h1 h2 => hfree ⟨j', h1, h2⟩
    have hempty : ∃ j, j < s.scratch_alloc ∧ s.slots j = NULL := h.resolve_left hfree
    obtain ⟨j, hj, he, hfirst⟩ := exists_first _ _ hempty
    by_cases hok : s.alloc.ok s.alloc.calls = true
    · obtain ⟨r, h1, h2⟩ := scr_alloc_direct_all (addBuf s j) size
        ⟨j, by simpa [addBuf] using hj, freeAt_addBuf s j⟩
      refine ⟨r, Outcome.newBuf j hj he hfirst hnofree hok (Outcome.direct h1), fun fuel => ?_⟩
      rw [scr_alloc_empty s size j (fuel + 1) hj he hfirst hnofree, if_pos hok]
      exact h2 fuel
    · refine ⟨_, Outcome.noBuf j hj he hnofree hok, fun fuel => ?_⟩
      rw [scr_alloc_empty s size j (fuel + 1) hj he hfirst hnofree, if_neg hok]

/-- Every call returns the same result whenever two repeated calls are allowed. -/
theorem scr_alloc_stable (s : SESSION) (size : Nat) :
    ∃ r, Outcome s size r ∧ ∀ fuel, __wt_scr_alloc (fuel + 3) s size = some r := by
  by_cases h : (∃ j, j < s.scratch_alloc ∧ freeAt s j) ∨ ∃ j, j < s.scratch_alloc ∧ s.slots j = NULL
  · obtain ⟨r, h1, h2⟩ := scr_alloc_one_retry_all s size h
    exact ⟨r, h1, fun fuel => h2 (fuel + 1)⟩
  · have hnofree : ∀ j', j' < s.scratch_alloc → ¬ freeAt s j' :=
      fun j' h1 h2 => h (Or.inl ⟨j', h1, h2⟩)
    have hnoempty : ∀ j', j' < s.scratch_alloc → s.slots j' ≠ NULL :=
      fun j' h1 h2 => h (Or.inr ⟨j', h1, h2⟩)
    by_cases hok : s.alloc.ok s.alloc.calls = true
    · obtain ⟨r, h1, h2⟩ := scr_alloc_one_retry_all (addSlots s) size
        (Or.inr ⟨s.scratch_alloc, by simp [addSlots], by simp [addSlots]⟩)
      refine ⟨r, Outcome.newSlots hnoempty hnofree hok h1, fun fuel => ?_⟩
      rw [scr_alloc_full s size (fuel + 2) hnoempty hnofree, if_pos hok]
      exact h2 fuel
    · refine ⟨_, Outcome.noSlots hnoempty hnofree hok, fun fuel => ?_⟩
      rw [scr_alloc_full s size (fuel + 2) hnoempty hnofree, if_neg hok]

/-- C17 (bounded retry): for every pool state, size and allocator behaviour,
`__wt_scr_alloc` returns when the call and two nested calls of itself are
allowed, and allowing more changes nothing.  A call that grows the slot array
continues as a call on a pool with an empty slot and no free buffer, which
returns after at most one more nested call; a call that creates a buffer in an
empty slot continues as a call that returns without calling itself. -/
theorem scr_alloc_bounded_retry (s : SESSION) (size fuel : Nat) (hfuel : 3 ≤ fuel) :
    (∃ r, __wt_scr_alloc fuel s size = some r ∧ __wt_scr_alloc 3 s size = some r) ∧
    ((∀ j', j' < s.scratch_alloc → s.slots j' ≠ NULL) →
      (∀ j', j' < s.scratch_alloc → ¬ freeAt s j') → s.alloc.ok s.alloc.calls = true →
      __wt_scr_alloc fuel s size = __wt_scr_alloc (fuel - 1) (addSlots s) size ∧
      s.scratch_alloc < (addSlots s).scratch_alloc ∧
      (addSlots s).slots s.scratch_alloc = NULL ∧
      (∀ j', ¬ freeAt (addSlots s) j') ∧
      ∃ r, ∀ f, __wt_scr_alloc (f + 2) (addSlots s) size = some r) ∧
    (∀ j, j < s.scratch_alloc → s.slots j = NULL → (∀ j', j' < j → s.slots j' ≠ NULL) →
      (∀ j', j' < s.scratch_alloc → ¬ freeAt s j') → s.alloc.ok s.alloc.calls = true →
      __wt_scr_alloc fuel s size = __wt_scr_alloc (fuel - 1) (addBuf s j) size ∧
      ∃ r, ∀ f, __wt_scr_alloc (f + 1) (addBuf s j) size = some r) := by
  obtain ⟨f, rfl⟩ : ∃ f, fuel = f + 3 := ⟨fuel - 3, by omega⟩
  refine ⟨?_, ?_, ?_⟩
  · obtain ⟨r, _, h⟩ := scr_alloc_stable s size
    exact ⟨r, h f, h 0⟩
  · intro hnoempty hnofree hok
    have h1 := scr_alloc_full s size (f + 2) hnoempty hnofree
    rw [if_pos hok] at h1
    obtain ⟨r, _, h2⟩ := scr_alloc_one_retry_all (addSlots s) size
      (Or.inr ⟨s.scratch_alloc, by simp [addSlots], by simp [addSlots]⟩)
    exact ⟨h1, by simp [addSlots], by simp [addSlots], not_freeAt_addSlots s hnofree, r, h2⟩
  · intro j hj he hfirst hnofree hok
    have h1 := scr_alloc_empty s size j (f + 2) hj he hfirst hnofree
    rw [if_pos hok] at h1
    obtain ⟨r, _, h2⟩ := scr_alloc_direct_all (addBuf s j) size
      ⟨j, by simpa [addBuf] using hj, freeAt_addBuf s j⟩
    exact ⟨h1, r, h2⟩

/-- Witness of C17: on a new pool a request needs both repeated calls: with
only one allowed the bound is reached, with two it returns, and with seven it
returns the same. -/
theorem scr_alloc_bounded_retry_witness :
    (3 ≤ 7) ∧ __wt_scr_alloc 2 (SESSION.fresh Allocator.reliable) 100 = none ∧
    ∃ r, __wt_scr_alloc 7 (SESSION.fresh Allocator.reliable) 100 = some r ∧
      __wt_scr_alloc 3 (SESSION.fresh Allocator.reliable) 100 = some r := by
  refine ⟨by decide, rfl, ?_⟩
  exact (scr_alloc_bounded_retry (SESSION.fresh Allocator.reliable) 100 7 (by decide)).1


/-! ## Failure leaves the pool consistent -/

/-- The sessions a failed call can leave: the one it started from, or that one
with a new zeroed buffer in an empty slot, with ten more slots, or with both;
in each case with one more refused request. -/
theorem outcome_failed {s : SESSION} {size : Nat} {r : ScrAlloc} (h : Outcome s size r)
    (hret : r.ret ≠ 0) :
    r.session = refused s ∨
    (∃ j, j < s.scratch_alloc ∧ s.slots j = NULL ∧ r.session = refused (addBuf s j)) ∨
    r.session = refused (addSlots s) ∨
    r.session = refused (addBuf (addSlots s) s.scratch_alloc) := by
  have hdirect : ∀ {s : SESSION} {r : ScrAlloc}, Direct s size r → r.ret ≠ 0 →
      r.session = refused s := by
    intro s r hd hr
    cases hd with
    | fit j hj hfit hfirst => simp at hr
    | grown j hj hfree hfirst hnofit hok => simp at hr
    | stuck j hj hfree hnofit hok => rfl
  have hafter : ∀ {s : SESSION} {r : ScrAlloc} (j : Nat), j < s.scratch_alloc →
      Outcome (addBuf s j) size r → r.ret ≠ 0 → r.session = refused (addBuf s j) := by
    intro s r j hj ho hr
    have hf : freeAt (addBuf s j) j := freeAt_addBuf s j
    have hj1 : j < (addBuf s j).scratch_alloc := hj
    cases ho with
    | direct hd => exact hdirect hd hr
    | noBuf j' hj' hempty' hnofree' hok' => exact absurd hf (hnofree' j hj1)
    | newBuf j' hj' hempty' hfirst' hnofree' hok' h' => exact absurd hf (hnofree' j hj1)
    | noSlots hnoempty' hnofree' hok' => exact absurd hf (hnofree' j hj1)
    | newSlots hnoempty' hnofree' hok' h' => exact absurd hf (hnofree' j hj1)
  cases h with
  | direct hd => exact Or.inl (hdirect hd hret)
  | noBuf j hj hempty hnofree hok => exact Or.inl rfl
  | newBuf j hj hempty hfirst hnofree hok h' =>
    exact Or.inr (Or.inl ⟨j, hj, hempty, hafter j hj h' hret⟩)
  | noSlots hnoempty hnofree hok => exact Or.inl rfl
  | newSlots hnoempty hnofree hok h' =>
    have hn : s.scratch_alloc < (addSlots s).scratch_alloc := by simp [addSlots]
    have hnull : (addSlots s).slots s.scratch_alloc = NULL := by simp [addSlots]
    cases h' with
    | direct hd =>
      cases hd with
      | fit j hj hfit hfirst => exact absurd hfit.1 (not_freeAt_addSlots s hnofree j)
      | grown j hj hfree hfirst hnofit hok => exact absurd hfree (not_freeAt_addSlots s hnofree j)
      | stuck j hj hfree hnofit hok => exact absurd hfree (not_freeAt_addSlots s hnofree j)
    | noBuf j' hj' hempty' hnofree' hok' => exact Or.inr (Or.inr (Or.inl rfl))
    | newBuf j' hj' hempty' hfirst' hnofree' hok' h'' =>
      have hj'n : j' = s.scratch_alloc := by
        by_cases h1 : j' < s.scratch_alloc
        · have : (addSlots s).slots j' = s.slots j' := by simp [addSlots, h1]
          rw [this] at hempty'
          exact absurd hempty' (hnoempty j' h1)
        · by_cases h2 : s.scratch_alloc < j'
          · exact absurd hnull (hfirst' _ h2)
          · omega
      subst hj'n
      exact Or.inr (Or.inr (Or.inr (hafter _ hj' h'' hret)))
    | noSlots hnoempty' hnofree' hok' => exact absurd hnull (hnoempty' _ hn)
    | newSlots hnoempty' hnofree' hok' h'' => exact absurd hnull (hnoempty' _ hn)

theorem partlyGrown_refused (s : SESSION) : PartlyGrown s (refused s) := by
  refine ⟨fun _ _ => rfl, fun _ => Or.inl rfl, Or.inl rfl, fun _ _ _ => rfl, ?_, ?_⟩
  · intro i hi
    have hi' : i < s.scratch_alloc := hi
    exact Or.inl (by simp [slotBefore, hi', refused])
  · intro i j hi _ h1 _
    have hi' : i < s.scratch_alloc := hi
    exact absurd (by simp [slotBefore, hi', refused]) h1

theorem partlyGrown_addBuf (s : SESSION) (j : Nat) (hj : j < s.scratch_alloc)
    (hempty : s.slots j = NULL) : PartlyGrown s (refused (addBuf s j)) := by
  have hsl : ∀ i, i < s.scratch_alloc → i ≠ j →
      (refused (addBuf s j)).slots i = slotBefore s i := by
    intro i hi hij
    simp [refused, addBuf, slotBefore, hi, upd_other _ _ _ _ hij]
  refine ⟨?_, ?_, Or.inl rfl, ?_, ?_, ?_⟩
  · intro q hq
    have : q ≠ s.alloc.top + 1 := by omega
    simp [refused, addBuf, upd_other _ _ _ _ this]
  · intro q
    by_cases e : q = s.alloc.top + 1
    · subst e
      exact Or.inr ⟨Nat.lt_succ_self _, by simp [refused, addBuf]⟩
    · exact Or.inl (by simp [refused, addBuf, upd_other _ _ _ _ e])
  · intro i hi hnn
    have hij : i ≠ j := fun e => hnn (e ▸ hempty)
    simp [refused, addBuf, upd_other _ _ _ _ hij]
  · intro i hi
    have hi' : i < s.scratch_alloc := hi
    by_cases hij : i = j
    · subst hij
      refine Or.inr ⟨by simp [slotBefore, hi', hempty], ?_, ?_⟩
      · simp [refused, addBuf]
      · simp [refused, addBuf]
    · exact Or.inl (hsl i hi' hij)
  · intro i i' hi hi' h1 h2
    have e1 : i = j := by
      by_contra hne
      exact h1 (hsl i hi hne)
    have e2 : i' = j := by
      by_contra hne
      exact h2 (hsl i' hi' hne)
    rw [e1, e2]

theorem partlyGrown_addSlots (s : SESSION) : PartlyGrown s (refused (addSlots s)) := by
  have hsl : ∀ i, (refused (addSlots s)).slots i = slotBefore s i := fun i => rfl
  refine ⟨fun _ _ => rfl, fun _ => Or.inl rfl, Or.inr rfl, ?_, fun i _ => Or.inl (hsl i), ?_⟩
  · intro i hi _
    simp [refused, addSlots, hi]
  · intro i j _ _ h1 _
    exact absurd (hsl i) h1

theorem partlyGrown_addSlots_addBuf (s : SESSION) :
    PartlyGrown s (refused (addBuf (addSlots s) s.scratch_alloc)) := by
  have hsl : ∀ i, i ≠ s.scratch_alloc →
      (refused (addBuf (addSlots s) s.scratch_alloc)).slots i = slotBefore s i := by
    intro i hi
    simp [refused, addBuf, upd_other _ _ _ _ hi, addSlots, slotBefore]
  have htop : (addSlots s).alloc.top + 1 = s.alloc.top + 2 := rfl
  refine ⟨?_, ?_, Or.inr rfl, ?_, ?_, ?_⟩
  · intro q hq
    have : q ≠ (addSlots s).alloc.top + 1 := by rw [htop]; omega
    show upd (addSlots s).bufs ((addSlots s).alloc.top + 1) WT_BUF.zero q = s.bufs q
    rw [upd_other _ _ _ _ this]
    rfl
  · intro q
    by_cases e : q = (addSlots s).alloc.top + 1
    · refine Or.inr ⟨by rw [e, htop]; omega, ?_⟩
      rw [e]; simp [refused, addBuf]
    · refine Or.inl ?_
      show upd (addSlots s).bufs ((addSlots s).alloc.top + 1) WT_BUF.zero q = s.bufs q
      rw [upd_other _ _ _ _ e]
      rfl
  · intro i hi _
    rw [hsl i (by omega)]
    simp [slotBefore, hi]
  · intro i _
    by_cases hi : i = s.scratch_alloc
    · subst hi
      refine Or.inr ⟨by simp [slotBefore], ?_, ?_⟩
      · show s.alloc.top < (upd (addSlots s).slots s.scratch_alloc ((addSlots s).alloc.top + 1))
          s.scratch_alloc
        rw [upd_same, htop]; omega
      · simp [refused, addBuf]
    · exact Or.inl (hsl i hi)
  · intro i i' _ _ h1 h2
    have e1 : i = s.scratch_alloc := by
      by_contra hne
      exact h1 (hsl i hne)
    have e2 : i' = s.scratch_alloc := by
      by_contra hne
      exact h2 (hsl i' hne)
    rw [e1, e2]

/-- C18: for every pool state, size and allocator behaviour, if
`__wt_scr_alloc` returns an error then the handle is `NULL`; every record at an
address handed out before the call is unchanged (in-use flag, `mem`,
`mem_size`, `data`, `size`), so no buffer is left leased; every slot that held
a buffer holds the same buffer; the slot count is the same or ten more; and
the only changes are growth that was not completed: added slots that are
empty, and at most one new zeroed buffer (capacity 0, not in use) in a slot
that was empty or is new. -/
theorem scr_alloc_failure_state (s : SESSION) (size fuel : Nat) (hfuel : 3 ≤ fuel) :
    ∃ r, __wt_scr_alloc fuel s size = some r ∧
      (r.ret ≠ 0 →
        r.scratchp = NULL ∧
        (∀ q, q ≤ s.alloc.top → r.session.bufs q = s.bufs q) ∧
        (∀ q, r.session.bufs q = s.bufs q ∨
          (s.alloc.top < q ∧ r.session.bufs q = WT_BUF.zero)) ∧
        (∀ q, F_ISSET (r.session.bufs q).flags WT_BUF_INUSE = true →
          F_ISSET (s.bufs q).flags WT_BUF_INUSE = true) ∧
        s.scratch_alloc ≤ r.session.scratch_alloc ∧
        (r.session.scratch_alloc = s.scratch_alloc ∨
          r.session.scratch_alloc = s.scratch_alloc + 10) ∧
        (∀ i, i < s.scratch_alloc → s.slots i ≠ NULL → r.session.slots i = s.slots i) ∧
        (∀ i, i < r.session.scratch_alloc → r.session.slots i = slotBefore s i ∨
          (slotBefore s i = NULL ∧ s.alloc.top < r.session.slots i ∧
            r.session.bufs (r.session.slots i) = WT_BUF.zero)) ∧
        (∀ i j, i < r.session.scratch_alloc → j < r.session.scratch_alloc →
          r.session.slots i ≠ slotBefore s i → r.session.slots j ≠ slotBefore s j → i = j)) := by
  obtain ⟨f, rfl⟩ : ∃ f, fuel = f + 3 := ⟨fuel - 3, by omega⟩
  obtain ⟨r, hr, hout⟩ := scr_alloc_outcome s size f
  refine ⟨r, hr, fun hret => ?_⟩
  have hpg : PartlyGrown s r.session := by
    rcases outcome_failed hout hret with h | ⟨j, hj, he, h⟩ | h | h
    · rw [h]; exact partlyGrown_refused s
    · rw [h]; exact partlyGrown_addBuf s j hj he
    · rw [h]; exact partlyGrown_addSlots s
    · rw [h]; exact partlyGrown_addSlots_addBuf s
  obtain ⟨p1, p2, p3, p4, p5, p6⟩ := hpg
  refine ⟨outcome_null hout hret, p1, p2, ?_, ?_, p3, p4, p5, p6⟩
  · intro q hq
    rcases p2 q with h | ⟨_, h⟩
    · rw [h] at hq; exact hq
    · rw [h] at hq
      simp [WT_BUF.zero] at hq
  · rcases p3 with h | h <;> omega

/-- Witness of C18: a new pool whose allocator grants two requests and refuses
the third: the call fails after the array was grown and a buffer created; ten
slots remain, slot 0 holding a zeroed buffer that is not in use. -/
theorem scr_alloc_failure_state_witness :
    3 ≤ 3 ∧ ∃ r, __wt_scr_alloc 3 (SESSION.fresh (Allocator.flaky 2)) 100 = some r ∧
      r.ret ≠ 0 ∧ r.scratchp = NULL ∧ r.session.scratch_alloc = 10 ∧
      r.session.slots 0 = 2 ∧ r.session.bufs 2 = WT_BUF.zero ∧
      (∀ q, F_ISSET (r.session.bufs q).flags WT_BUF_INUSE = true →
        F_ISSET ((SESSION.fresh (Allocator.flaky 2)).bufs q).flags WT_BUF_INUSE = true) := by
  obtain ⟨r, hr, h⟩ := scr_alloc_failure_state (SESSION.fresh (Allocator.flaky 2)) 100 3 (by decide)
  have h2 : __wt_scr_alloc 3 (SESSION.fresh (Allocator.flaky 2)) 100 =
      some { ret := WT_ERROR, scratchp := NULL,
             session := refused (addBuf (addSlots (SESSION.fresh (Allocator.flaky 2))) 0) } := rfl
  have hret : r.ret ≠ 0 := by
    rw [h2] at hr
    injection hr with hr
    rw [← hr]; decide
  have hs : r.session = refused (addBuf (addSlots (SESSION.fresh (Allocator.flaky 2))) 0) := by
    rw [h2] at hr
    injection hr with hr
    rw [← hr]
  obtain ⟨a1, _, _, a4, _⟩ := h hret
  exact ⟨by decide, r, hr, hret, a1, by rw [hs]; rfl, by rw [hs]; rfl, by rw [hs]; rfl, a4⟩


/-! ## The frame of a successful call -/

/-- In a pool without free buffers, after a buffer is created in slot `j` the
only free buffer is the new one. -/
theorem freeAt_addBuf_slot (s : SESSION) (j i : Nat)
    (hnofree : ∀ j', j' < s.scratch_alloc → ¬ freeAt s j') (hi : i < s.scratch_alloc)
    (hf : freeAt (addBuf s j) i) : (addBuf s j).slots i = s.alloc.top + 1 := by
  by_contra hne
  have hij : i ≠ j := by
    intro h; subst h; simp [addBuf] at hne
  have hsl : (addBuf s j).slots i = s.slots i := by simp [addBuf, upd_other _ _ _ _ hij]
  rw [hsl] at hne
  apply hnofree i hi
  have hb : (addBuf s j).bufs (s.slots i) = s.bufs (s.slots i) := by
    simp [addBuf, upd_other _ _ _ _ hne]
  simpa [freeAt, hsl, hb] using hf

/-- The repeated call after a buffer is created hands out that buffer. -/
theorem outcome_new_handle {s : SESSION} {size : Nat} {r : ScrAlloc} (j : Nat)
    (hj : j < s.scratch_alloc) (hnofree : ∀ j', j' < s.scratch_alloc → ¬ freeAt s j')
    (h : Outcome (addBuf s j) size r) (hret : r.ret = 0) :
    r.scratchp = s.alloc.top + 1 ∧ ∀ q, q ≠ r.scratchp → r.session.bufs q = (addBuf s j).bufs q := by
  have hf : freeAt (addBuf s j) j := freeAt_addBuf s j
  have hj1 : j < (addBuf s j).scratch_alloc := hj
  cases h with
  | direct hd =>
    cases hd with
    | fit j0 hj0 hfit hfirst =>
      refine ⟨freeAt_addBuf_slot s j j0 hnofree hj0 hfit.1, fun q hq => ?_⟩
      simp [lease, upd_other _ _ _ _ hq]
    | grown j0 hj0 hfree hfirst hnofit hok =>
      refine ⟨freeAt_addBuf_slot s j j0 hnofree hj0 hfree, fun q hq => ?_⟩
      simp [regrow, upd_other _ _ _ _ hq]
    | stuck j0 hj0 hfree hnofit hok => simp [WT_ERROR] at hret
  | noBuf j' hj' hempty' hnofree' hok' => exact absurd hf (hnofree' j hj1)
  | newBuf j' hj' hempty' hfirst' hnofree' hok' h' => exact absurd hf (hnofree' j hj1)
  | noSlots hnoempty' hnofree' hok' => exact absurd hf (hnofree' j hj1)
  | newSlots hnoempty' hnofree' hok' h' => exact absurd hf (hnofree' j hj1)

/-- A successful call changes no record but the one it returns. -/
theorem outcome_frame_all {s : SESSION} {size : Nat} {r : ScrAlloc} (h : Outcome s size r)
    (hret : r.ret = 0) : ∀ q, q ≠ r.scratchp → r.session.bufs q = s.bufs q := by
  induction h with
  | @direct s size r hd =>
    cases hd with
    | fit j hj hfit hfirst => intro q hq; simp [lease, upd_other _ _ _ _ hq]
    | grown j hj hfree hfirst hnofit hok => intro q hq; simp [regrow, upd_other _ _ _ _ hq]
    | stuck j hj hfree hnofit hok => simp [WT_ERROR] at hret
  | noBuf j hj hempty hnofree hok => simp [WT_ERROR] at hret
  | @newBuf s size r j hj hempty hfirst hnofree hok h _ =>
    obtain ⟨h1, h2⟩ := outcome_new_handle j hj hnofree h hret
    intro q hq
    rw [h2 q hq]
    have : q ≠ s.alloc.top + 1 := by rw [← h1]; exact hq
    simp [addBuf, upd_other _ _ _ _ this]
  | noSlots hnoempty hnofree hok => simp [WT_ERROR] at hret
  | @newSlots s size r hnoempty hnofree hok h ih =>
    intro q hq
    exact ih hret q hq

/-- A call on a pool with a free buffer or an empty slot keeps the slot count. -/
theorem outcome_count_same {s : SESSION} {size : Nat} {r : ScrAlloc} (h : Outcome s size r)
    (hs : (∃ j, j < s.scratch_alloc ∧ freeAt s j) ∨ ∃ j, j < s.scratch_alloc ∧ s.slots j = NULL) :
    r.session.scratch_alloc = s.scratch_alloc := by
  induction h with
  | @direct s size r hd =>
    cases hd with
    | fit j hj hfit hfirst => rfl
    | grown j hj hfree hfirst hnofit hok => rfl
    | stuck j hj hfree hnofit hok => rfl
  | noBuf j hj hempty hnofree hok => rfl
  | @newBuf s size r j hj hempty hfirst hnofree hok h ih =>
    exact ih (Or.inl ⟨j, hj, freeAt_addBuf s j⟩)
  | noSlots hnoempty hnofree hok =>
    rcases hs with ⟨j, hj, hf⟩ | ⟨j, hj, he⟩
    · exact absurd hf (hnofree j hj)
    · exact absurd he (hnoempty j hj)
  | newSlots hnoempty hnofree hok h ih =>
    rcases hs with ⟨j, hj, hf⟩ | ⟨j, hj, he⟩
    · exact absurd hf (hnofree j hj)
    · exact absurd he (hnoempty j hj)

/-- A call keeps the slot count or adds exactly ten slots. -/
theorem outcome_count {s : SESSION} {size : Nat} {r : ScrAlloc} (h : Outcome s size r) :
    r.session.scratch_alloc = s.scratch_alloc ∨
    r.session.scratch_alloc = s.scratch_alloc + 10 := by
  cases h with
  | direct hd => exact Or.inl (outcome_count_same (Outcome.direct hd) (by
      cases hd with
      | fit j hj hfit hfirst => exact Or.inl ⟨j, hj, hfit.1⟩
      | grown j hj hfree hfirst hnofit hok => exact Or.inl ⟨j, hj, hfree⟩
      | stuck j hj hfree hnofit hok => exact Or.inl ⟨j, hj, hfree⟩))
  | noBuf j hj hempty hnofree hok => exact Or.inl rfl
  | newBuf j hj hempty hfirst hnofree hok h' =>
    exact Or.inl (outcome_count_same (Outcome.newBuf j hj hempty hfirst hnofree hok h')
      (Or.inr ⟨j, hj, hempty⟩))
  | noSlots hnoempty hnofree hok => exact Or.inl rfl
  | newSlots hnoempty hnofree hok h' =>
    refine Or.inr ?_
    exact outcome_count_same h' (Or.inr ⟨s.scratch_alloc, by simp [addSlots], by simp [addSlots]⟩)

/-- C19 (acquire frame): for every pool state and size, a successful
`__wt_scr_alloc` changes no record but the one it returns (every other buffer
keeps its in-use flag, `mem`, `mem_size`, `data` and `size`), every slot that
held a buffer holds the same buffer at the same index, and the slot count is
the same or exactly ten more. -/
theorem scr_alloc_frame (s : SESSION) (size fuel : Nat) (hfuel : 3 ≤ fuel) :
    ∃ r, __wt_scr_alloc fuel s size = some r ∧
      (r.ret = 0 →
        (∀ q, q ≠ r.scratchp → r.session.bufs q = s.bufs q) ∧
        (∀ i, i < s.scratch_alloc → s.slots i ≠ NULL → r.session.slots i = s.slots i) ∧
        (r.session.scratch_alloc = s.scratch_alloc ∨
          r.session.scratch_alloc = s.scratch_alloc + 10)) := by
  obtain ⟨f, rfl⟩ : ∃ f, fuel = f + 3 := ⟨fuel - 3, by omega⟩
  obtain ⟨r, hr, hout⟩ := scr_alloc_outcome s size f
  exact ⟨r, hr, fun hret => ⟨outcome_frame_all hout hret, (outcome_frame hout).2.1,
    outcome_count hout⟩⟩

/-- Witness of C19: a pool of two busy slots asked for 100 bytes: the two
buffers and their slots are as before, the pool has twelve slots. -/
theorem scr_alloc_frame_witness :
    3 ≤ 3 ∧ ∃ r, __wt_scr_alloc 3 poolFull 100 = some r ∧ r.ret = 0 ∧
      r.session.bufs 11 = poolFull.bufs 11 ∧ r.session.bufs 12 = poolFull.bufs 12 ∧
      r.session.slots 0 = 11 ∧ r.session.slots 1 = 12 ∧ r.session.scratch_alloc = 12 := by
  obtain ⟨r, hr, h⟩ := scr_alloc_frame poolFull 100 3 (by decide)
  have h2 : (__wt_scr_alloc 3 poolFull 100).map (fun r => (r.ret, r.scratchp, r.session.scratch_alloc))
      = some (0, 32, 12) := rfl
  rw [hr] at h2
  simp only [Option.map_some', Option.some.injEq, Prod.mk.injEq] at h2
  obtain ⟨e1, e2, e3⟩ := h2
  obtain ⟨a1, a2, _⟩ := h e1
  exact ⟨by decide, r, hr, e1, a1 11 (by rw [e2]; decide), a1 12 (by rw [e2]; decide),
    a2 0 (by decide) (by decide), a2 1 (by decide) (by decide), e3⟩

/-! ## Teardown frees what the pool owns -/

theorem mem_ownedAt (s : SESSION) (x q : Nat) :
    q ∈ ownedAt s x ↔
      s.slots x ≠ NULL ∧ (q = s.slots x ∨ (q = (s.bufs (s.slots x)).mem ∧ q ≠ NULL)) := by
  unfold ownedAt
  by_cases h0 : s.slots x = NULL
  · simp [h0]
  · by_cases hm : (s.bufs (s.slots x)).mem = NULL
    · simp only [h0, hm, if_false, if_true, List.mem_singleton, ne_eq, not_false_eq_true, true_and]
      constructor
      · intro h; exact Or.inl h
      · rintro (h | ⟨h1, h2⟩)
        · exact h
        · exact absurd h1 h2
    · simp only [h0, hm, if_false, List.mem_cons, List.mem_singleton, ne_eq, not_false_eq_true,
        true_and, List.mem_nil_iff, or_false]
      constructor
      · rintro (h | h)
        · exact Or.inr ⟨h, by rw [h]; exact hm⟩
        · exact Or.inl h
      · rintro (h | ⟨h1, _⟩)
        · exact Or.inr h
        · exact Or.inl h1

theorem ownedAt_congr (s t : SESSION) (x : Nat) (h1 : t.slots x = s.slots x)
    (h2 : s.slots x ≠ NULL → (t.bufs (s.slots x)).mem = (s.bufs (s.slots x)).mem) :
    ownedAt t x = ownedAt s x := by
  unfold ownedAt
  rw [h1]
  by_cases h0 : s.slots x = NULL
  · simp [h0]
  · simp [h0, h2 h0]

theorem ownedFrom_congr (s t : SESSION) : ∀ k i,
    (∀ x, i ≤ x → x < i + k → ownedAt t x = ownedAt s x) →
    ownedFrom t k i = ownedFrom s k i := by
  intro k
  induction k with
  | zero => intro i _; rfl
  | succ k ih =>
    intro i h
    simp only [ownedFrom]
    rw [h i (Nat.le_refl i) (by omega), ih (i + 1) (fun x h1 h2 => h x (by omega) (by omega))]

theorem mem_ownedFrom (s : SESSION) (q : Nat) : ∀ k i,
    q ∈ ownedFrom s k i ↔ ∃ x, i ≤ x ∧ x < i + k ∧ q ∈ ownedAt s x := by
  intro k
  induction k with
  | zero =>
    intro i
    simp only [ownedFrom, List.not_mem_nil, false_iff]
    rintro ⟨x, h1, h2, _⟩
    omega
  | succ k ih =>
    intro i
    simp only [ownedFrom, List.mem_append, ih (i + 1)]
    constructor
    · rintro (h | ⟨x, h1, h2, h3⟩)
      · exact ⟨i, Nat.le_refl i, by omega, h⟩
      · exact ⟨x, by omega, by omega, h3⟩
    · rintro ⟨x, h1, h2, h3⟩
      by_cases hx : x = i
      · subst hx; exact Or.inl h3
      · exact Or.inr ⟨x, by omega, by omega, h3⟩

theorem mem_owned (s : SESSION) (q : Nat) :
    q ∈ owned s ↔
      (∃ x, x < s.scratch_alloc ∧ q ∈ ownedAt s x) ∨ (s.scratch ≠ NULL ∧ q = s.scratch) := by
  unfold owned
  rw [List.mem_append, mem_ownedFrom]
  by_cases h0 : s.scratch = NULL
  · simp [h0]
  · simp [h0]

/-- One iteration of the teardown loop passes to free exactly the blocks owned
through its slot. -/
theorem freeSlot_log (s : SESSION) (i : Nat) :
    (freeSlot s i).alloc.freed = (ownedAt s i).reverse ++ s.alloc.freed ∧
    (freeSlot s i).alloc.live = s.alloc.live.filter (fun q => decide (q ∉ ownedAt s i)) := by
  unfold ownedAt
  by_cases h0 : s.slots i = NULL
  · simp [freeSlot, h0, __wt_free]
  · by_cases hm : (s.bufs (s.slots i)).mem = NULL
    · constructor
      · simp [freeSlot, h0, __wt_buf_free, __wt_free, hm]
      · simp [freeSlot, h0, __wt_buf_free, __wt_free, hm]
        apply List.filter_congr
        intro q _
        by_cases e : q = s.slots i <;> simp [e]
    · constructor
      · simp [freeSlot, h0, __wt_buf_free, __wt_free, hm]
      · simp [freeSlot, h0, __wt_buf_free, __wt_free, hm, List.filter_filter]
        apply List.filter_congr
        intro q _
        by_cases e1 : q = s.slots i <;> by_cases e2 : q = (s.bufs (s.slots i)).mem <;>
          simp [e1, e2]

theorem filter_not_mem_append (l a b : List Nat) :
    (l.filter (fun q => decide (q ∉ a))).filter (fun q => decide (q ∉ b)) =
      l.filter (fun q => decide (q ∉ a ++ b)) := by
  rw [List.filter_filter]
  apply List.filter_congr
  intro q _
  by_cases e1 : q ∈ a <;> by_cases e2 : q ∈ b <;> simp [e1, e2]

/-- When the slots of `[i, i + k)` hold pairwise distinct buffers, the teardown
loop passes to free exactly the blocks owned through them, in slot order, and
removes them from the allocated blocks. -/
theorem scr_free_walk_log : ∀ (k i : Nat) (s : SESSION),
    (∀ x y, i ≤ x → x < y → y < i + k → s.slots y ≠ NULL → s.slots y ≠ s.slots x) →
    (__wt_scr_free_walk k i s).alloc.freed = (ownedFrom s k i).reverse ++ s.alloc.freed ∧
    (__wt_scr_free_walk k i s).alloc.live =
      s.alloc.live.filter (fun q => decide (q ∉ ownedFrom s k i)) := by
  intro k
  induction k with
  | zero =>
    intro i s _
    simp [__wt_scr_free_walk, ownedFrom]
  | succ k ih =>
    intro i s hinj
    rw [scr_free_walk_succ]
    obtain ⟨_, _, b3, _, _, b6, _, _⟩ := freeSlot_facts s i
    have hsl : ∀ x, x ≠ i → (freeSlot s i).slots x = s.slots x := by
      intro x hx; rw [b3, upd_other _ _ _ _ hx]
    have hat : ∀ x, i + 1 ≤ x → x < i + 1 + k → ownedAt (freeSlot s i) x = ownedAt s x := by
      intro x h1 h2
      apply ownedAt_congr _ _ _ (hsl x (by omega))
      intro hnn
      rw [b6 _ (hinj i x (Nat.le_refl i) (by omega) (by omega) hnn)]
    have hinj' : ∀ x y, i + 1 ≤ x → x < y → y < i + 1 + k → (freeSlot s i).slots y ≠ NULL →
        (freeSlot s i).slots y ≠ (freeSlot s i).slots x := by
      intro x y h1 h2 h3
      rw [hsl x (by omega), hsl y (by omega)]
      exact hinj x y (by omega) h2 (by omega)
    obtain ⟨c1, c2⟩ := ih (i + 1) (freeSlot s i) hinj'
    obtain ⟨d1, d2⟩ := freeSlot_log s i
    rw [ownedFrom_congr s (freeSlot s i) k (i + 1) hat] at c1 c2
    constructor
    · rw [c1, d1]
      simp [ownedFrom]
    · rw [c2, d2, filter_not_mem_append]
      rfl

/-- When the slots hold pairwise distinct buffers, `__wt_scr_free` passes to
free exactly what the pool owns, each block once per appearance in `owned`,
and removes those blocks from the allocated ones. -/
theorem scr_free_log (s : SESSION)
    (hinj : ∀ x y, x < y → y < s.scratch_alloc → s.slots y ≠ NULL → s.slots y ≠ s.slots x) :
    (__wt_scr_free s).alloc.freed = (owned s).reverse ++ s.alloc.freed ∧
    (__wt_scr_free s).alloc.live = s.alloc.live.filter (fun q => decide (q ∉ owned s)) := by
  obtain ⟨c1, c2⟩ := scr_free_walk_log s.scratch_alloc 0 s
    (fun x y _ h2 h3 => hinj x y h2 (by omega))
  obtain ⟨_, a2, _⟩ := scr_free_walk_spec s.scratch_alloc 0 s
  unfold owned
  by_cases h0 : s.scratch = NULL
  · constructor
    · simp [__wt_scr_free, __wt_free, a2, h0, c1]
    · simp [__wt_scr_free, __wt_free, a2, h0, c2]
  · constructor
    · simp [__wt_scr_free, __wt_free, a2, h0, c1]
    · simp only [__wt_scr_free, __wt_free, a2, h0, if_false, c2]
      rw [← filter_not_mem_append]
      congr 1
      funext q
      by_cases e : q = s.scratch <;> simp [e]

/-! ## The allocator's books stay in agreement with the pool -/

theorem ownedAt_ne_null (s : SESSION) (x q : Nat) (h : q ∈ ownedAt s x) : q ≠ NULL := by
  rw [mem_ownedAt] at h
  rcases h with ⟨h0, h1 | ⟨_, h2⟩⟩
  · rw [h1]; exact h0
  · exact h2

theorem slot_mem_ownedAt (s : SESSION) (x : Nat) (h : s.slots x ≠ NULL) :
    s.slots x ∈ ownedAt s x := by
  rw [mem_ownedAt]; exact ⟨h, Or.inl rfl⟩

theorem tidy_at_le {s : SESSION} (t : Tidy s) (x q : Nat) (hx : x < s.scratch_alloc)
    (h : q ∈ ownedAt s x) : q ≤ s.alloc.top :=
  t.live_le q ((t.live_iff q).2 ((mem_owned s q).2 (Or.inl ⟨x, hx, h⟩)))

theorem tidy_scratch_le {s : SESSION} (t : Tidy s) : s.scratch ≤ s.alloc.top := by
  by_cases h0 : s.scratch = NULL
  · rw [h0]; exact Nat.zero_le _
  · exact t.live_le _ ((t.live_iff _).2 ((mem_owned s _).2 (Or.inr ⟨h0, rfl⟩)))

theorem tidy_null_not_live {s : SESSION} (t : Tidy s) : NULL ∉ s.alloc.live := by
  intro h
  rcases (mem_owned s NULL).1 ((t.live_iff NULL).1 h) with ⟨x, _, hx⟩ | ⟨h0, h1⟩
  · exact ownedAt_ne_null s x NULL hx rfl
  · exact h0 h1.symm

theorem tidy_inj {s : SESSION} (t : Tidy s) (x y : Nat) (hx : x < s.scratch_alloc)
    (hy : y < s.scratch_alloc) (hxy : x ≠ y) (hnn : s.slots y ≠ NULL) :
    s.slots y ≠ s.slots x := by
  intro e
  have h1 : s.slots y ∈ ownedAt s y := slot_mem_ownedAt s y hnn
  have h2 : s.slots y ∈ ownedAt s x := by
    rw [e]; exact slot_mem_ownedAt s x (by rw [← e]; exact hnn)
  exact t.at_disjoint x y hx hy hxy _ h2 h1

theorem nodup_ownedFrom (s : SESSION) : ∀ k i,
    (∀ x, i ≤ x → x < i + k → (ownedAt s x).Nodup) →
    (∀ x y, i ≤ x → x < y → y < i + k → ∀ q, q ∈ ownedAt s x → q ∉ ownedAt s y) →
    (ownedFrom s k i).Nodup := by
  intro k
  induction k with
  | zero => intro i _ _; exact List.nodup_nil
  | succ k ih =>
    intro i h1 h2
    simp only [ownedFrom]
    rw [List.nodup_append]
    refine ⟨h1 i (Nat.le_refl i) (by omega),
      ih (i + 1) (fun x a b => h1 x (by omega) (by omega))
        (fun x y a b c => h2 x y (by omega) b (by omega)), ?_⟩
    intro q hq hq'
    rw [mem_ownedFrom] at hq'
    obtain ⟨y, y1, y2, y3⟩ := hq'
    exact h2 i y (Nat.le_refl i) (by omega) (by omega) q hq y3

theorem tidy_owned_nodup {s : SESSION} (t : Tidy s) : (owned s).Nodup := by
  unfold owned
  rw [List.nodup_append]
  refine ⟨nodup_ownedFrom s _ 0 (fun x _ h => t.at_nodup x (by omega))
    (fun x y _ h1 h2 => t.at_disjoint x y (by omega) (by omega) (by omega)), ?_, ?_⟩
  · by_cases h0 : s.scratch = NULL
    · simp [h0]
    · simp [h0]
  · intro q hq hq'
    rw [mem_ownedFrom] at hq
    obtain ⟨x, _, x2, x3⟩ := hq
    by_cases h0 : s.scratch = NULL
    · simp [h0] at hq'
    · simp only [h0, if_false, List.mem_singleton] at hq'
      rw [hq'] at x3
      exact t.scratch_not_at x (by omega) x3

/-- A session that differs only in fields the ownership does not read is tidy
as well. -/
theorem tidy_same {s u : SESSION} (t : Tidy s) (h1 : u.scratch = s.scratch)
    (h2 : u.scratch_alloc = s.scratch_alloc) (h3 : u.slots = s.slots)
    (h4 : ∀ q, (u.bufs q).mem = (s.bufs q).mem) (h5 : u.alloc.live = s.alloc.live)
    (h6 : u.alloc.top = s.alloc.top) (h7 : u.alloc.freed = s.alloc.freed) : Tidy u := by
  have hat : ∀ x, ownedAt u x = ownedAt s x := fun x =>
    ownedAt_congr s u x (by rw [h3]) (fun _ => h4 _)
  have how : owned u = owned s := by
    unfold owned
    rw [h1, h2, ownedFrom_congr s u _ 0 (fun x _ _ => hat x)]
  exact
    { freed_nil := by rw [h7]; exact t.freed_nil
      live_nodup := by rw [h5]; exact t.live_nodup
      live_iff := by intro q; rw [h5, how]; exact t.live_iff q
      live_le := by intro q; rw [h5, h6]; exact t.live_le q
      at_nodup := by intro x hx; rw [hat]; exact t.at_nodup x (by rw [← h2]; exact hx)
      at_disjoint := by
        intro x y hx hy hxy q
        rw [hat, hat]
        exact t.at_disjoint x y (by rw [← h2]; exact hx) (by rw [← h2]; exact hy) hxy q
      scratch_not_at := by
        intro x hx
        rw [hat, h1]
        exact t.scratch_not_at x (by rw [← h2]; exact hx) }

theorem ownedAt_regrow_other (s : SESSION) (size j x : Nat) (t : Tidy s)
    (hj : j < s.scratch_alloc) (hx : x < s.scratch_alloc) (hxj : x ≠ j) :
    ownedAt (regrow s size (s.slots j)) x = ownedAt s x := by
  refine ownedAt_congr s (regrow s size (s.slots j)) x rfl (fun hnn => ?_)
  have hne : s.slots x ≠ s.slots j := tidy_inj t j x hj hx (fun e => hxj e.symm) hnn
  simp [regrow, upd_other _ _ _ _ hne]

theorem ownedAt_regrow_self (s : SESSION) (size j : Nat) (hnn : s.slots j ≠ NULL) :
    ownedAt (regrow s size (s.slots j)) j = [s.alloc.top + 1, s.slots j] := by
  have h1 : (regrow s size (s.slots j)).slots j = s.slots j := rfl
  have h2 : ((regrow s size (s.slots j)).bufs (s.slots j)).mem = s.alloc.top + 1 := by
    simp [regrow]
  unfold ownedAt
  rw [h1, h2]
  simp [hnn]

/-- Growing the buffer of slot `j` keeps the books in agreement. -/
theorem tidy_regrow {s : SESSION} (t : Tidy s) (size j : Nat) (hj : j < s.scratch_alloc)
    (hnn : s.slots j ≠ NULL) : Tidy (regrow s size (s.slots j)) := by
  have hother := fun x hx hxj => ownedAt_regrow_other s size j x t hj hx hxj
  have hself := ownedAt_regrow_self s size j hnn
  have hp : s.slots j ∈ ownedAt s j := slot_mem_ownedAt s j hnn
  have hple : s.slots j ≤ s.alloc.top := tidy_at_le t j _ hj hp
  have hlive : ∀ q, q ∈ (regrow s size (s.slots j)).alloc.live ↔
      q = s.alloc.top + 1 ∨ (q ∈ s.alloc.live ∧ q ≠ (s.bufs (s.slots j)).mem) := by
    intro q
    simp [regrow, Allocator.grant]
  -- the old memory block, when there is one, is owned through slot `j` only
  have hm : (s.bufs (s.slots j)).mem ≠ NULL → (s.bufs (s.slots j)).mem ∈ ownedAt s j := by
    intro h; rw [mem_ownedAt]; exact ⟨hnn, Or.inr ⟨rfl, h⟩⟩
  have hmp : s.slots j ≠ (s.bufs (s.slots j)).mem := by
    intro e
    have hmn : (s.bufs (s.slots j)).mem ≠ NULL := by rw [← e]; exact hnn
    have hnd := t.at_nodup j hj
    unfold ownedAt at hnd
    simp only [hnn, hmn, if_false] at hnd
    rw [← e] at hnd
    simp at hnd
  have hn : (regrow s size (s.slots j)).scratch_alloc = s.scratch_alloc := rfl
  have hscr : (regrow s size (s.slots j)).scratch = s.scratch := rfl
  refine
    { freed_nil := t.freed_nil
      live_nodup := ?_
      live_iff := ?_
      live_le := ?_
      at_nodup := ?_
      at_disjoint := ?_
      scratch_not_at := ?_ }
  · show ((s.alloc.top + 1) :: s.alloc.live.filter _).Nodup
    rw [List.nodup_cons]
    refine ⟨fun h => ?_, t.live_nodup.filter _⟩
    have := t.live_le _ (List.mem_of_mem_filter h)
    omega
  · intro q
    rw [hlive, mem_owned, hn, hscr]
    constructor
    · rintro (h | ⟨h1, h2⟩)
      · exact Or.inl ⟨j, hj, by rw [hself, h]; simp⟩
      · rcases (mem_owned s q).1 ((t.live_iff q).1 h1) with ⟨x, hx, hq⟩ | h
        · by_cases hxj : x = j
          · subst hxj
            refine Or.inl ⟨x, hx, ?_⟩
            rw [hself]
            rw [mem_ownedAt] at hq
            rcases hq with ⟨_, e | ⟨e, _⟩⟩
            · simp [e]
            · exact absurd e h2
          · exact Or.inl ⟨x, hx, by rw [hother x hx hxj]; exact hq⟩
        · exact Or.inr h
    · rintro (⟨x, hx, hq⟩ | ⟨h0, e⟩)
      · by_cases hxj : x = j
        · subst hxj
          rw [hself] at hq
          simp only [List.mem_cons, List.mem_singleton, List.mem_nil_iff, or_false] at hq
          rcases hq with e | e
          · exact Or.inl e
          · refine Or.inr ⟨(t.live_iff q).2 ((mem_owned s q).2 (Or.inl ⟨x, hx, by rw [e]; exact hp⟩)),
              by rw [e]; exact hmp⟩
        · rw [hother x hx hxj] at hq
          refine Or.inr ⟨(t.live_iff q).2 ((mem_owned s q).2 (Or.inl ⟨x, hx, hq⟩)), fun e => ?_⟩
          have hmn : (s.bufs (s.slots j)).mem ≠ NULL := by
            rw [← e]; exact ownedAt_ne_null s x q hq
          exact t.at_disjoint x j hx hj hxj q hq (by rw [e]; exact hm hmn)
      · refine Or.inr ⟨(t.live_iff q).2 ((mem_owned s q).2 (Or.inr ⟨h0, e⟩)), fun e' => ?_⟩
        have hmn : (s.bufs (s.slots j)).mem ≠ NULL := by rw [← e', e]; exact h0
        exact t.scratch_not_at j hj (by rw [← e, e']; exact hm hmn)
  · intro q hq
    show q ≤ s.alloc.top + 1
    rcases (hlive q).1 hq with e | ⟨h1, _⟩
    · omega
    · have := t.live_le q h1
      omega
  · intro x hx
    by_cases hxj : x = j
    · subst hxj
      rw [hself]
      simp only [List.nodup_cons, List.mem_singleton, List.not_mem_nil, not_false_eq_true,
        List.nodup_nil, and_true]
      omega
    · rw [hother x hx hxj]; exact t.at_nodup x hx
  · intro x y hx hy hxy q hq hq'
    by_cases hxj : x = j
    · subst hxj
      rw [hother y hy (fun e => hxy e.symm)] at hq'
      rw [hself] at hq
      simp only [List.mem_cons, List.mem_singleton, List.mem_nil_iff, or_false] at hq
      rcases hq with e | e
      · have := tidy_at_le t y q hy hq'
        omega
      · exact t.at_disjoint x y hx hy hxy q (by rw [e]; exact hp) hq'
    · rw [hother x hx hxj] at hq
      by_cases hyj : y = j
      · subst hyj
        rw [hself] at hq'
        simp only [List.mem_cons, List.mem_singleton, List.mem_nil_iff, or_false] at hq'
        rcases hq' with e | e
        · have := tidy_at_le t x q hx hq
          omega
        · exact t.at_disjoint x y hx hy hxy q hq (by rw [e]; exact hp)
      · rw [hother y hy hyj] at hq'
        exact t.at_disjoint x y hx hy hxy q hq hq'
  · intro x hx
    rw [hscr]
    by_cases hxj : x = j
    · subst hxj
      rw [hself]
      simp only [List.mem_cons, List.mem_singleton, List.mem_nil_iff, or_false]
      rintro (e | e)
      · have := tidy_scratch_le t
        omega
      · exact t.scratch_not_at x hx (by rw [e]; exact hp)
    · rw [hother x hx hxj]; exact t.scratch_not_at x hx

theorem ownedAt_addBuf_other (s : SESSION) (j x : Nat) (t : Tidy s)
    (hx : x < s.scratch_alloc) (hxj : x ≠ j) : ownedAt (addBuf s j) x = ownedAt s x := by
  have h1 : (addBuf s j).slots x = s.slots x := by simp [addBuf, upd_other _ _ _ _ hxj]
  refine ownedAt_congr s (addBuf s j) x h1 (fun hnn => ?_)
  have hle := tidy_at_le t x _ hx (slot_mem_ownedAt s x hnn)
  have hne : s.slots x ≠ s.alloc.top + 1 := by omega
  simp [addBuf, upd_other _ _ _ _ hne]

theorem ownedAt_addBuf_self (s : SESSION) (j : Nat) :
    ownedAt (addBuf s j) j = [s.alloc.top + 1] := by
  have h1 : (addBuf s j).slots j = s.alloc.top + 1 := by simp [addBuf]
  have h2 : ((addBuf s j).bufs (s.alloc.top + 1)).mem = NULL := by simp [addBuf, WT_BUF.zero]
  unfold ownedAt
  rw [h1, h2]
  simp

/-- Creating a buffer in the empty slot `j` keeps the books in agreement. -/
theorem tidy_addBuf {s : SESSION} (t : Tidy s) (j : Nat) (hj : j < s.scratch_alloc)
    (hempty : s.slots j = NULL) : Tidy (addBuf s j) := by
  have hother := fun x hx hxj => ownedAt_addBuf_other s j x t hx hxj
  have hself := ownedAt_addBuf_self s j
  have hold : ownedAt s j = [] := by simp [ownedAt, hempty]
  have hlive : ∀ q, q ∈ (addBuf s j).alloc.live ↔ q = s.alloc.top + 1 ∨ q ∈ s.alloc.live := by
    intro q
    simp only [addBuf, Allocator.grant, List.mem_cons, List.mem_filter, bne_iff_ne, ne_eq]
    constructor
    · rintro (h | ⟨h, _⟩)
      · exact Or.inl h
      · exact Or.inr h
    · rintro (h | h)
      · exact Or.inl h
      · exact Or.inr ⟨h, fun e => tidy_null_not_live t (e ▸ h)⟩
  have hn : (addBuf s j).scratch_alloc = s.scratch_alloc := rfl
  have hscr : (addBuf s j).scratch = s.scratch := rfl
  refine
    { freed_nil := t.freed_nil
      live_nodup := ?_
      live_iff := ?_
      live_le := ?_
      at_nodup := ?_
      at_disjoint := ?_
      scratch_not_at := ?_ }
  · show ((s.alloc.top + 1) :: s.alloc.live.filter _).Nodup
    rw [List.nodup_cons]
    refine ⟨fun h => ?_, t.live_nodup.filter _⟩
    have := t.live_le _ (List.mem_of_mem_filter h)
    omega
  · intro q
    rw [hlive, mem_owned, hn, hscr]
    constructor
    · rintro (h | h1)
      · exact Or.inl ⟨j, hj, by rw [hself, h]; simp⟩
      · rcases (mem_owned s q).1 ((t.live_iff q).1 h1) with ⟨x, hx, hq⟩ | h
        · by_cases hxj : x = j
          · subst hxj
            rw [hold] at hq
            simp at hq
          · exact Or.inl ⟨x, hx, by rw [hother x hx hxj]; exact hq⟩
        · exact Or.inr h
    · rintro (⟨x, hx, hq⟩ | ⟨h0, e⟩)
      · by_cases hxj : x = j
        · subst hxj
          rw [hself] at hq
          exact Or.inl (by simpa using hq)
        · rw [hother x hx hxj] at hq
          exact Or.inr ((t.live_iff q).2 ((mem_owned s q).2 (Or.inl ⟨x, hx, hq⟩)))
      · exact Or.inr ((t.live_iff q).2 ((mem_owned s q).2 (Or.inr ⟨h0, e⟩)))
  · intro q hq
    show q ≤ s.alloc.top + 1
    rcases (hlive q).1 hq with e | h1
    · omega
    · have := t.live_le q h1
      omega
  · intro x hx
    by_cases hxj : x = j
    · subst hxj
      rw [hself]
      simp
    · rw [hother x hx hxj]; exact t.at_nodup x hx
  · intro x y hx hy hxy q hq hq'
    by_cases hxj : x = j
    · subst hxj
      rw [hother y hy (fun e => hxy e.symm)] at hq'
      rw [hself] at hq
      simp only [List.mem_singleton] at hq
      have := tidy_at_le t y q hy hq'
      omega
    · rw [hother x hx hxj] at hq
      by_cases hyj : y = j
      · subst hyj
        rw [hself] at hq'
        simp only [List.mem_singleton] at hq'
        have := tidy_at_le t x q hx hq
        omega
      · rw [hother y hy hyj] at hq'
        exact t.at_disjoint x y hx hy hxy q hq hq'
  · intro x hx
    rw [hscr]
    by_cases hxj : x = j
    · subst hxj
      rw [hself]
      simp only [List.mem_singleton]
      intro e
      have := tidy_scratch_le t
      omega
    · rw [hother x hx hxj]; exact t.scratch_not_at x hx

theorem ownedAt_addSlots (s : SESSION) (x : Nat) :
    ownedAt (addSlots s) x = if x < s.scratch_alloc then ownedAt s x else [] := by
  by_cases hx : x < s.scratch_alloc
  · rw [if_pos hx]
    exact ownedAt_congr s (addSlots s) x (by simp [addSlots, hx]) (fun _ => rfl)
  · rw [if_neg hx]
    have : (addSlots s).slots x = NULL := by simp [addSlots, hx]
    simp [ownedAt, this]

/-- Growing the slot array keeps the books in agreement. -/
theorem tidy_addSlots {s : SESSION} (t : Tidy s) : Tidy (addSlots s) := by
  have hat := ownedAt_addSlots s
  have hlive : ∀ q, q ∈ (addSlots s).alloc.live ↔
      q = s.alloc.top + 1 ∨ (q ∈ s.alloc.live ∧ q ≠ s.scratch) := by
    intro q
    simp [addSlots, Allocator.grant]
  have hscr : (addSlots s).scratch = s.alloc.top + 1 := rfl
  have hin : ∀ x q, q ∈ ownedAt (addSlots s) x → x < s.scratch_alloc ∧ q ∈ ownedAt s x := by
    intro x q hq
    rw [hat] at hq
    by_cases hx : x < s.scratch_alloc
    · rw [if_pos hx] at hq; exact ⟨hx, hq⟩
    · rw [if_neg hx] at hq; simp at hq
  refine
    { freed_nil := t.freed_nil
      live_nodup := ?_
      live_iff := ?_
      live_le := ?_
      at_nodup := ?_
      at_disjoint := ?_
      scratch_not_at := ?_ }
  · show ((s.alloc.top + 1) :: s.alloc.live.filter _).Nodup
    rw [List.nodup_cons]
    refine ⟨fun h => ?_, t.live_nodup.filter _⟩
    have := t.live_le _ (List.mem_of_mem_filter h)
    omega
  · intro q
    rw [hlive, mem_owned, hscr]
    constructor
    · rintro (h | ⟨h1, h2⟩)
      · exact Or.inr ⟨Nat.succ_ne_zero _, h⟩
      · rcases (mem_owned s q).1 ((t.live_iff q).1 h1) with ⟨x, hx, hq⟩ | ⟨_, e⟩
        · refine Or.inl ⟨x, ?_, ?_⟩
          · show x < s.scratch_alloc + 10
            omega
          · rw [hat, if_pos hx]; exact hq
        · exact absurd e h2
    · rintro (⟨x, _, hq⟩ | ⟨_, e⟩)
      · obtain ⟨hx, hq⟩ := hin x q hq
        refine Or.inr ⟨(t.live_iff q).2 ((mem_owned s q).2 (Or.inl ⟨x, hx, hq⟩)), fun e => ?_⟩
        exact t.scratch_not_at x hx (by rw [← e]; exact hq)
      · exact Or.inl e
  · intro q hq
    show q ≤ s.alloc.top + 1
    rcases (hlive q).1 hq with e | ⟨h1, _⟩
    · omega
    · have := t.live_le q h1
      omega
  · intro x _
    rw [hat]
    by_cases hx : x < s.scratch_alloc
    · rw [if_pos hx]; exact t.at_nodup x hx
    · rw [if_neg hx]; exact List.nodup_nil
  · intro x y _ _ hxy q hq hq'
    obtain ⟨hx, hq⟩ := hin x q hq
    obtain ⟨hy, hq'⟩ := hin y q hq'
    exact t.at_disjoint x y hx hy hxy q hq hq'
  · intro x _ hq
    rw [hscr] at hq
    obtain ⟨hx, hq⟩ := hin x _ hq
    have := tidy_at_le t x _ hx hq
    omega

/-- Every call of `__wt_scr_alloc` keeps the books in agreement. -/
theorem tidy_outcome {s : SESSION} {size : Nat} {r : ScrAlloc} (h : Outcome s size r)
    (t : Tidy s) : Tidy r.session := by
  induction h with
  | @direct s size r hd =>
    cases hd with
    | fit j hj hfit hfirst =>
      refine tidy_same t rfl rfl rfl (fun q => ?_) rfl rfl rfl
      by_cases e : q = s.slots j
      · subst e; simp [lease]
      · simp [lease, upd_other _ _ _ _ e]
    | grown j hj hfree hfirst hnofit hok => exact tidy_regrow t size j hj hfree.1
    | stuck j hj hfree hnofit hok => exact tidy_same t rfl rfl rfl (fun _ => rfl) rfl rfl rfl
  | noBuf j hj hempty hnofree hok => exact tidy_same t rfl rfl rfl (fun _ => rfl) rfl rfl rfl
  | newBuf j hj hempty hfirst hnofree hok h ih => exact ih (tidy_addBuf t j hj hempty)
  | noSlots hnoempty hnofree hok => exact tidy_same t rfl rfl rfl (fun _ => rfl) rfl rfl rfl
  | newSlots hnoempty hnofree hok h ih => exact ih (tidy_addSlots t)

theorem tidy_step (fuel : Nat) (hfuel : 3 ≤ fuel) (c : Client) (op : Op)
    (t : Tidy c.session) : Tidy (c.step fuel op).session := by
  cases op with
  | acquire size =>
    obtain ⟨f, rfl⟩ : ∃ f, fuel = f + 3 := ⟨fuel - 3, by omega⟩
    obtain ⟨r, hr, hout⟩ := scr_alloc_outcome c.session size f
    simp only [Client.step, hr]
    exact tidy_outcome hout t
  | release h =>
    simp only [Client.step]
    by_cases hin : h ∈ c.held
    · simp only [hin, if_true]
      refine tidy_same t rfl rfl rfl (fun q => ?_) rfl rfl rfl
      by_cases e : q = h
      · subst e; simp [__wt_scr_release]
      · simp [__wt_scr_release, upd_other _ _ _ _ e]
    · simp only [hin, if_false]
      exact t

theorem tidy_run (fuel : Nat) (hfuel : 3 ≤ fuel) (ops : List Op) :
    ∀ c : Client, Tidy c.session → Tidy (c.run fuel ops).session := by
  induction ops with
  | nil => intro c hc; exact hc
  | cons op ops ih =>
    intro c hc
    exact ih (c.step fuel op) (tidy_step fuel hfuel c op hc)

theorem tidy_empty (s0 : SESSION) (h0 : s0.scratch_alloc = 0) (h1 : s0.scratch = NULL)
    (h2 : s0.alloc.live = []) (h3 : s0.alloc.freed = []) : Tidy s0 := by
  have how : owned s0 = [] := by simp [owned, h0, h1, ownedFrom]
  exact
    { freed_nil := h3
      live_nodup := by rw [h2]; exact List.nodup_nil
      live_iff := by intro q; rw [h2, how]
      live_le := by intro q hq; rw [h2] at hq; simp at hq
      at_nodup := by intro x hx; rw [h0] at hx; exact absurd hx (Nat.not_lt_zero x)
      at_disjoint := by intro x y hx; rw [h0] at hx; exact absurd hx (Nat.not_lt_zero x)
      scratch_not_at := by intro x hx; rw [h0] at hx; exact absurd hx (Nat.not_lt_zero x) }

/-- Teardown of a tidy pool: everything owned is passed to free once, in slot
order, and nothing stays allocated. -/
theorem tidy_free {s : SESSION} (t : Tidy s) :
    (__wt_scr_free s).alloc.freed = (owned s).reverse ∧ (__wt_scr_free s).alloc.live = [] := by
  obtain ⟨h1, h2⟩ := scr_free_log s
    (fun x y hxy hy hnn => tidy_inj t x y (by omega) hy (by omega) hnn)
  constructor
  · rw [h1, t.freed_nil, List.append_nil]
  · rw [h2, List.filter_eq_nil_iff]
    intro q hq
    simp [(t.live_iff q).1 hq]

/-- C11 (teardown totality): for every pool reached from the empty pool (no
slots, no slot array, nothing allocated, nothing freed) by acquire and release
operations, under every allocator behaviour: the allocated blocks are exactly
what the pool owns (each buffer's memory block, each buffer record, the slot
array); `__wt_scr_free` passes exactly these to free, each exactly once, in
slot order with the array last, and nothing else; afterwards no block is
allocated, and the number of frees equals the number of blocks that were
allocated. -/
theorem scr_free_totality (s0 : SESSION) (ops : List Op) (fuel : Nat) (hfuel : 3 ≤ fuel)
    (h0 : s0.scratch_alloc = 0) (h1 : s0.scratch = NULL) (h2 : s0.alloc.live = [])
    (h3 : s0.alloc.freed = []) :
    (∀ q, q ∈ (poolAfter fuel s0 ops).alloc.live ↔ q ∈ owned (poolAfter fuel s0 ops)) ∧
    (__wt_scr_free (poolAfter fuel s0 ops)).alloc.freed = (owned (poolAfter fuel s0 ops)).reverse ∧
    (__wt_scr_free (poolAfter fuel s0 ops)).alloc.freed.Nodup ∧
    (∀ q, q ∈ (poolAfter fuel s0 ops).alloc.live →
      (__wt_scr_free (poolAfter fuel s0 ops)).alloc.freed.count q = 1) ∧
    (∀ q, q ∈ (__wt_scr_free (poolAfter fuel s0 ops)).alloc.freed →
      q ∈ (poolAfter fuel s0 ops).alloc.live) ∧
    (__wt_scr_free (poolAfter fuel s0 ops)).alloc.live = [] ∧
    (__wt_scr_free (poolAfter fuel s0 ops)).alloc.freed.length =
      (poolAfter fuel s0 ops).alloc.live.length := by
  have t : Tidy (poolAfter fuel s0 ops) :=
    tidy_run fuel hfuel ops { session := s0, held := [] } (tidy_empty s0 h0 h1 h2 h3)
  obtain ⟨e1, e2⟩ := tidy_free t
  have hnd : (owned (poolAfter fuel s0 ops)).reverse.Nodup :=
    List.nodup_reverse.2 (tidy_owned_nodup t)
  have hperm : (poolAfter fuel s0 ops).alloc.live.Perm (owned (poolAfter fuel s0 ops)) :=
    (List.perm_ext_iff_of_nodup t.live_nodup (tidy_owned_nodup t)).2 t.live_iff
  refine ⟨t.live_iff, e1, by rw [e1]; exact hnd, ?_, ?_, e2, ?_⟩
  · intro q hq
    rw [e1]
    exact List.count_eq_one_of_mem hnd (List.mem_reverse.2 ((t.live_iff q).1 hq))
  · intro q hq
    rw [e1] at hq
    exact (t.live_iff q).2 (List.mem_reverse.1 hq)
  · rw [e1, List.length_reverse, hperm.length_eq]


/-- Witness of C11: on a new pool, acquire(100), acquire(50), release of the
first handle and acquire(500) leave five blocks allocated (the array at 1, the
records 2 and 4, their memory blocks 6 and 5); teardown frees each once. -/
theorem scr_free_totality_witness :
    (3 ≤ 3 ∧ (SESSION.fresh Allocator.reliable).scratch_alloc = 0 ∧
      (SESSION.fresh Allocator.reliable).scratch = NULL ∧
      (SESSION.fresh Allocator.reliable).alloc.live = [] ∧
      (SESSION.fresh Allocator.reliable).alloc.freed = []) ∧
    (poolAfter 3 (SESSION.fresh Allocator.reliable)
      [Op.acquire 100, Op.acquire 50, Op.release 2, Op.acquire 500]).alloc.live
      = [6, 5, 4, 2, 1] ∧
    (__wt_scr_free (poolAfter 3 (SESSION.fresh Allocator.reliable)
      [Op.acquire 100, Op.acquire 50, Op.release 2, Op.acquire 500])).alloc.freed
      = [1, 4, 5, 2, 6] ∧
    (__wt_scr_free (poolAfter 3 (SESSION.fresh Allocator.reliable)
      [Op.acquire 100, Op.acquire 50, Op.release 2, Op.acquire 500])).alloc.freed.Nodup ∧
    (__wt_scr_free (poolAfter 3 (SESSION.fresh Allocator.reliable)
      [Op.acquire 100, Op.acquire 50, Op.release 2, Op.acquire 500])).alloc.live = [] := by
  obtain ⟨_, _, a3, _, _, a6, _⟩ :=
    scr_free_totality (SESSION.fresh Allocator.reliable)
      [Op.acquire 100, Op.acquire 50, Op.release 2, Op.acquire 500] 3 (by decide) rfl rfl rfl rfl
  exact ⟨⟨by decide, rfl, rfl, rfl, rfl⟩, by decide, by decide, a3, a6⟩

end Scratch
